import Mathlib

/-! # wwqdrh/webdav: policy adapter and WebDAV driver

A shallow embedding of `adapter/adapter.go`, `driver/driver.go` and
`driver/jianguo.go`.

Conventions of the embedding
* a byte is a natural number below 256, a `[]byte` is the list of its bytes
  (`Bytes`);
* the Go strings that the adapter stores in policy rows, encodes and decodes are
  `GoString`s: the list of their bytes, valid UTF-8 or not; a string literal in
  such a place stands for its UTF-8 encoding;
* the Go strings that are only compared, joined or passed on (URLs, paths,
  names, credentials, error texts) are Lean `String`s;
* a Go slice is a `Slice`: the `nil` slice and the empty non-nil slice are kept
  apart, because `encoding/json` writes them differently;
* a Go `error` is an `Option String`: `none` is `nil`, `some msg` an error;
* collaborators reached through an interface (the storage driver seen by the
  adapter, the HTTP client, the file system, the registry) are records of
  functions over an explicit world state, and every request handed to them is
  appended to a log kept next to the state.
-/

namespace Webdav

/-! ## Go values -/

/-- The bytes of a Go byte slice. -/
abbrev Bytes := List Nat

/-- Go error value: `none` is `nil`. -/
abbrev GoError := Option String

/-- `utf8.RuneError`, the replacement character `U+FFFD`. -/
def RuneError : Nat := 0xFFFD

/-- `utf8.EncodeRune`: the UTF-8 encoding of a code point; a surrogate or a
value beyond `U+10FFFF` is encoded as `U+FFFD`. The shifts and masks of the
library are written with division and remainder. -/
def encodeRune (r : Nat) : List Nat :=
  if r ≤ 0x7F then [r]
  else if r ≤ 0x7FF then [0xC0 + r / 64, 0x80 + r % 64]
  else if 0x10FFFF < r ∨ (0xD800 ≤ r ∧ r ≤ 0xDFFF) then [0xEF, 0xBF, 0xBD]
  else if r ≤ 0xFFFF then [0xE0 + r / 4096, 0x80 + r / 64 % 64, 0x80 + r % 64]
  else [0xF0 + r / 262144, 0x80 + r / 4096 % 64, 0x80 + r / 64 % 64, 0x80 + r % 64]

/-- `utf8.DecodeRune`: the code point at the head of the bytes and the number of
bytes it takes; `(RuneError, 1)` when the head starts no valid encoding, and
`(RuneError, 0)` on no bytes at all. The second byte is checked against the
range its lead byte accepts, which rules out overlong forms, surrogates and
values beyond `U+10FFFF`. -/
def decodeRune : List Nat → Nat × Nat
  | [] => (RuneError, 0)
  | b0 :: t =>
    if b0 < 0x80 then (b0, 1)
    else if b0 < 0xC2 ∨ 0xF4 < b0 then (RuneError, 1)
    else
      match t with
      | [] => (RuneError, 1)
      | b1 :: t1 =>
        let lo := if b0 = 0xE0 then 0xA0 else if b0 = 0xF0 then 0x90 else 0x80
        let hi := if b0 = 0xED then 0x9F else if b0 = 0xF4 then 0x8F else 0xBF
        if b1 < lo ∨ hi < b1 then (RuneError, 1)
        else if b0 < 0xE0 then (b0 % 32 * 64 + b1 % 64, 2)
        else
          match t1 with
          | [] => (RuneError, 1)
          | b2 :: t2 =>
            if b2 < 0x80 ∨ 0xBF < b2 then (RuneError, 1)
            else if b0 < 0xF0 then (b0 % 16 * 4096 + b1 % 64 * 64 + b2 % 64, 3)
            else
              match t2 with
              | [] => (RuneError, 1)
              | b3 :: _ =>
                if b3 < 0x80 ∨ 0xBF < b3 then (RuneError, 1)
                else (b0 % 8 * 262144 + b1 % 64 * 4096 + b2 % 64 * 64 + b3 % 64, 4)

/-- The UTF-8 encoding of a text. -/
def utf8 (cs : List Char) : List Nat := cs.flatMap (fun c => encodeRune c.toNat)

/-- The bytes of a string literal. -/
def bytesOf (s : String) : Bytes := utf8 s.data

/-- A Go `string`: its bytes. -/
structure GoString where
  bytes : List Nat
  deriving DecidableEq, Repr

instance : Append GoString := ⟨fun a b => ⟨a.bytes ++ b.bytes⟩⟩

/-- The Go string written by a literal: the UTF-8 encoding of the text. -/
def GoString.ofString (s : String) : GoString := ⟨bytesOf s⟩

instance : Coe String GoString := ⟨GoString.ofString⟩

/-- Go slice: `Slice.null` is the `nil` slice, `Slice.mk l` a non-nil slice. -/
inductive Slice (α : Type) where
  | null : Slice α
  | mk (elems : List α) : Slice α
  deriving DecidableEq, Repr

namespace Slice

/-- Elements of the slice, in order (`range` over it). -/
def toList {α : Type} : Slice α → List α
  | null => []
  | mk l => l

/-- Go `len(s)`. -/
def len {α : Type} (s : Slice α) : Nat := s.toList.length

/-- Go `append(s, x)`: the result is never `nil`. -/
def push {α : Type} (s : Slice α) (x : α) : Slice α := mk (s.toList ++ [x])

end Slice

/-! ## Data model (`adapter.go`, lines 28-46) -/

/-- One policy row: `CasbinRule`. -/
structure CasbinRule where
  PType : GoString
  V0 : GoString
  V1 : GoString
  V2 : GoString
  V3 : GoString
  V4 : GoString
  V5 : GoString
  deriving DecidableEq, Repr

/-- The zero value `CasbinRule{}`. -/
def CasbinRule.zero : CasbinRule := ⟨"", "", "", "", "", "", ""⟩

/-- The part of `driver.IDriver` the adapter calls, over a world state `σ`. -/
structure IDriver (σ : Type) where
  GetData : String → σ → Except String Bytes × σ
  UpdateData : Bytes → String → σ → GoError × σ

/-- The `Adapter` struct, together with the world its driver acts on and the
log of the `UpdateData` calls made so far (`(data, url)`, oldest first). -/
structure Adapter (σ : Type) where
  source : Bytes
  policy : Slice CasbinRule
  dataurl : String
  driver : Option (IDriver σ)
  world : σ
  sent : List (Bytes × String)

/-! ## `encoding/json` for `[]CasbinRule`

`json.Marshal` and `json.Unmarshal` are library code; they are modelled here, on
bytes, for the one type the adapter uses them at. A character literal followed
by `.toNat` names an ASCII byte. -/

/-- Digits used by the encoder: `hex[n]`. -/
def hex (n : Nat) : Nat := (bytesOf "0123456789abcdef").getD n '0'.toNat

/-- What `appendString` (with HTML escaping, as `json.Marshal` runs it) writes
for one ASCII byte. -/
def escapeByte (b : Nat) : List Nat :=
  if b = '\\'.toNat ∨ b = '"'.toNat then ['\\'.toNat, b]
  else if b = 8 then bytesOf "\\b"
  else if b = 12 then bytesOf "\\f"
  else if b = '\n'.toNat then bytesOf "\\n"
  else if b = '\r'.toNat then bytesOf "\\r"
  else if b = '\t'.toNat then bytesOf "\\t"
  else if b < 0x20 ∨ b = '<'.toNat ∨ b = '>'.toNat ∨ b = '&'.toNat then
    bytesOf "\\u00" ++ [hex (b / 16), hex (b % 16)]
  else [b]

/-- The loop of `appendString` over the bytes of a string: an ASCII byte is
escaped or copied; a byte that starts no valid UTF-8 encoding is written as
the escape of `U+FFFD`; `U+2028` and `U+2029` are written as escapes; any other encoded code
point is copied. `fuel` bounds the number of turns. -/
def appendStringBody : Nat → List Nat → List Nat
  | 0, _ => []
  | _ + 1, [] => []
  | n + 1, b :: rest =>
    if b < 0x80 then escapeByte b ++ appendStringBody n rest
    else
      let c := (decodeRune (b :: rest)).1
      let size := (decodeRune (b :: rest)).2
      if c = RuneError ∧ size = 1 then bytesOf "\\ufffd" ++ appendStringBody n rest
      else if c = 0x2028 ∨ c = 0x2029 then
        bytesOf "\\u202" ++ [hex (c % 16)] ++ appendStringBody n (rest.drop (size - 1))
      else (b :: rest).take size ++ appendStringBody n (rest.drop (size - 1))

/-- JSON string literal for `s`. -/
def appendString (s : GoString) : List Nat :=
  '"'.toNat :: (appendStringBody s.bytes.length s.bytes ++ ['"'.toNat])

/-- JSON object written for one row: the seven fields in declaration order. -/
def marshalRule (r : CasbinRule) : List Nat :=
  bytesOf "\x7b\"PType\":" ++ appendString r.PType ++
  bytesOf ",\"V0\":" ++ appendString r.V0 ++
  bytesOf ",\"V1\":" ++ appendString r.V1 ++
  bytesOf ",\"V2\":" ++ appendString r.V2 ++
  bytesOf ",\"V3\":" ++ appendString r.V3 ++
  bytesOf ",\"V4\":" ++ appendString r.V4 ++
  bytesOf ",\"V5\":" ++ appendString r.V5 ++ bytesOf "\x7d"

/-- Rows of an array, separated by commas. -/
def marshalRows : List CasbinRule → List Nat
  | [] => []
  | [r] => marshalRule r
  | r :: rs => marshalRule r ++ ','.toNat :: marshalRows rs

/-- Model of `json.Marshal` at `[]CasbinRule`: a nil slice is written `null`, any
other slice as an array. It never fails at this type. -/
def jsonMarshal : Slice CasbinRule → Bytes
  | Slice.null => bytesOf "null"
  | Slice.mk rows => '['.toNat :: (marshalRows rows ++ [']'.toNat])

/-- JSON insignificant white space. -/
def isSpace (b : Nat) : Bool :=
  b = ' '.toNat || b = '\t'.toNat || b = '\r'.toNat || b = '\n'.toNat

/-- Drop leading white space. -/
def skipWs : List Nat → List Nat
  | [] => []
  | c :: cs => if isSpace c then skipWs cs else c :: cs

/-- Value of one hexadecimal digit, in either case. -/
def hexVal (c : Nat) : Option Nat :=
  if 48 ≤ c ∧ c ≤ 57 then some (c - 48)
  else if 97 ≤ c ∧ c ≤ 102 then some (c - 87)
  else if 65 ≤ c ∧ c ≤ 70 then some (c - 55)
  else none

/-- `getu4`: the number written by the four hex digits of a `\u` escape. -/
def getu4 (a b c d : Nat) : Option Nat :=
  match hexVal a, hexVal b, hexVal c, hexVal d with
  | some x, some y, some z, some w => some (((x * 16 + y) * 16 + z) * 16 + w)
  | _, _, _, _ => none

/-- Byte named by a one-letter escape. -/
def unescape (e : Nat) : Option Nat :=
  if e = '"'.toNat ∨ e = '\\'.toNat ∨ e = '/'.toNat then some e
  else if e = 'b'.toNat then some 8
  else if e = 'f'.toNat then some 12
  else if e = 'n'.toNat then some '\n'.toNat
  else if e = 'r'.toNat then some '\r'.toNat
  else if e = 't'.toNat then some '\t'.toNat
  else none

/-- `utf16.IsSurrogate`. -/
def isSurrogate (r : Nat) : Bool := 0xd800 ≤ r && r < 0xe000

/-- `utf16.DecodeRune`: the code point of a surrogate pair, `U+FFFD` when the two
halves do not form one. -/
def decodeSurrogates (r1 r2 : Nat) : Nat :=
  if 0xd800 ≤ r1 ∧ r1 < 0xdc00 ∧ 0xdc00 ≤ r2 ∧ r2 < 0xe000 then
    (r1 - 0xd800) * 1024 + (r2 - 0xdc00) + 0x10000
  else 0xfffd

/-- The low half of a surrogate pair, when the bytes start with a `\u` escape. -/
def lowSurrogate : List Nat → Option Nat
  | c :: u :: a :: b :: c2 :: d :: _ =>
    if c = '\\'.toNat ∧ u = 'u'.toNat then getu4 a b c2 d else none
  | _ => none

/-- `unquote`, reading from just after the opening quote up to the closing one:
the bytes of the string and what follows the literal. Escapes are resolved, a
code point is written in UTF-8, and a byte that starts no valid UTF-8 encoding
becomes `U+FFFD`. A raw control character and an unknown escape are errors.
`fuel` bounds the number of turns. -/
def unquoteBody : Nat → List Nat → Option (List Nat × List Nat)
  | 0, _ => none
  | _ + 1, [] => none
  | n + 1, c :: cs =>
    if c = '"'.toNat then some ([], cs)
    else if c = '\\'.toNat then
      match cs with
      | [] => none
      | e :: cs1 =>
        if e = 'u'.toNat then
          match cs1 with
          | a :: b :: c2 :: d :: rest =>
            match getu4 a b c2 d with
            | none => none
            | some rr =>
              if isSurrogate rr then
                match lowSurrogate rest with
                | some rr1 =>
                  if decodeSurrogates rr rr1 ≠ 0xfffd then
                    (unquoteBody n (rest.drop 6)).map
                      (fun p => (encodeRune (decodeSurrogates rr rr1) ++ p.1, p.2))
                  else (unquoteBody n rest).map (fun p => (encodeRune RuneError ++ p.1, p.2))
                | none => (unquoteBody n rest).map (fun p => (encodeRune RuneError ++ p.1, p.2))
              else (unquoteBody n rest).map (fun p => (encodeRune rr ++ p.1, p.2))
          | _ => none
        else
          match unescape e with
          | none => none
          | some x => (unquoteBody n cs1).map (fun p => (x :: p.1, p.2))
    else if c < 0x20 then none
    else if c < 0x80 then (unquoteBody n cs).map (fun p => (c :: p.1, p.2))
    else
      (unquoteBody n (cs.drop ((decodeRune (c :: cs)).2 - 1))).map
        (fun p => (encodeRune (decodeRune (c :: cs)).1 ++ p.1, p.2))

/-- A string literal at the head of the bytes. -/
def parseString (fuel : Nat) : List Nat → Option (GoString × List Nat)
  | [] => none
  | c :: cs =>
    if c = '"'.toNat then (unquoteBody fuel cs).map (fun p => (GoString.mk p.1, p.2)) else none

/-- Consume the literal `p` at the head of the bytes. -/
def expect : List Nat → List Nat → Option (List Nat)
  | [], s => some s
  | _ :: _, [] => none
  | p :: ps, c :: cs => if p = c then expect ps cs else none

/-- ASCII lower case of a letter. -/
def lower (c : Nat) : Nat := if 65 ≤ c ∧ c ≤ 90 then c + 32 else c

/-- Case-insensitive comparison of two names. For the seven field names, which
hold no `k` and no `s`, ASCII folding is all of Unicode simple folding. -/
def equalFold (a b : GoString) : Bool := a.bytes.map lower == b.bytes.map lower

/-- Exported fields of `CasbinRule`, in declaration order. -/
def fieldNames : List GoString := ["PType", "V0", "V1", "V2", "V3", "V4", "V5"]

/-- Field an object key is decoded into: an exact match is preferred, then a
case-insensitive one; other keys name no field. -/
def fieldOf (key : GoString) : Option Nat :=
  match fieldNames.findIdx? (fun n => n = key) with
  | some i => some i
  | none => fieldNames.findIdx? (fun n => equalFold n key)

/-- Assign the field with the given index. -/
def CasbinRule.set (r : CasbinRule) (i : Nat) (v : GoString) : CasbinRule :=
  match i with
  | 0 => { r with PType := v }
  | 1 => { r with V0 := v }
  | 2 => { r with V1 := v }
  | 3 => { r with V2 := v }
  | 4 => { r with V3 := v }
  | 5 => { r with V4 := v }
  | 6 => { r with V5 := v }
  | _ => r

/-- The scanner on a string literal, from just after the opening quote: the
bytes after the closing quote. Escapes must be well formed and raw control
characters are refused; bytes above `0x7F` pass unchecked. -/
def skipStringBody : Nat → List Nat → Option (List Nat)
  | 0, _ => none
  | _ + 1, [] => none
  | n + 1, c :: cs =>
    if c = '"'.toNat then some cs
    else if c = '\\'.toNat then
      match cs with
      | [] => none
      | e :: cs1 =>
        if e = 'u'.toNat then
          match cs1 with
          | a :: b :: c2 :: d :: rest =>
            match getu4 a b c2 d with
            | none => none
            | some _ => skipStringBody n rest
          | _ => none
        else
          match unescape e with
          | none => none
          | some _ => skipStringBody n cs1
    else if c < 0x20 then none
    else skipStringBody n cs

/-- Whether a byte is a decimal digit. -/
def isDigit (c : Nat) : Bool := 48 ≤ c && c ≤ 57

/-- Drop leading digits. -/
def skipDigits : List Nat → List Nat
  | [] => []
  | c :: cs => if isDigit c then skipDigits cs else c :: cs

/-- One or more digits. -/
def skipDigits1 : List Nat → Option (List Nat)
  | [] => none
  | c :: cs => if isDigit c then some (skipDigits cs) else none

/-- The scanner on a number: an optional minus sign, `0` or a digit from 1 to 9
followed by digits, an optional fraction, an optional exponent. -/
def skipNumber (s : List Nat) : Option (List Nat) :=
  let s1 := match s with
    | c :: cs => if c = '-'.toNat then cs else c :: cs
    | [] => []
  let afterInt : Option (List Nat) := match s1 with
    | c :: cs =>
      if c = '0'.toNat then some cs
      else if isDigit c then some (skipDigits cs)
      else none
    | [] => none
  match afterInt with
  | none => none
  | some s2 =>
    let afterFrac : Option (List Nat) := match s2 with
      | c :: cs => if c = '.'.toNat then skipDigits1 cs else some (c :: cs)
      | [] => some []
    match afterFrac with
    | none => none
    | some s3 =>
      match s3 with
      | c :: cs =>
        if c = 'e'.toNat ∨ c = 'E'.toNat then
          match cs with
          | d :: ds => if d = '+'.toNat ∨ d = '-'.toNat then skipDigits1 ds else skipDigits1 (d :: ds)
          | [] => none
        else some (c :: cs)
      | [] => some []

/-- What `skipJson` expects next: a value, the elements of an array from an
element on, or the members of an object from a key on. -/
inductive Skip where
  | value : Skip
  | elems : Skip
  | members : Skip

/-- `maxNestingDepth` of the scanner. -/
def maxNestingDepth : Nat := 10000

/-- The scanner on a JSON value of any kind, as the decoder runs it over the
value of a key that names no field: the bytes after the value, `none` when the
bytes are not valid JSON. `depth` counts the arrays and objects open around the
value; opening one more than `maxNestingDepth` is an error. -/
def skipJson : Nat → Skip → Nat → List Nat → Option (List Nat)
  | 0, _, _, _ => none
  | n + 1, Skip.value, depth, s =>
    match s with
    | [] => none
    | c :: cs =>
      if c = '"'.toNat then skipStringBody (n + 1) cs
      else if c = '['.toNat then
        if maxNestingDepth < depth + 1 then none
        else
          match skipWs cs with
          | [] => none
          | d :: r => if d = ']'.toNat then some r else skipJson n Skip.elems (depth + 1) (d :: r)
      else if c = '\x7b'.toNat then
        if maxNestingDepth < depth + 1 then none
        else
          match skipWs cs with
          | [] => none
          | d :: r =>
            if d = '\x7d'.toNat then some r else skipJson n Skip.members (depth + 1) (d :: r)
      else if c = 't'.toNat then expect (bytesOf "true") (c :: cs)
      else if c = 'f'.toNat then expect (bytesOf "false") (c :: cs)
      else if c = 'n'.toNat then expect (bytesOf "null") (c :: cs)
      else skipNumber (c :: cs)
  | n + 1, Skip.elems, depth, s =>
    match skipJson n Skip.value depth s with
    | none => none
    | some r =>
      match skipWs r with
      | [] => none
      | c :: r2 =>
        if c = ','.toNat then skipJson n Skip.elems depth (skipWs r2)
        else if c = ']'.toNat then some r2
        else none
  | n + 1, Skip.members, depth, s =>
    match s with
    | [] => none
    | q :: cs =>
      if q = '"'.toNat then
        match skipStringBody (n + 1) cs with
        | none => none
        | some r =>
          match skipWs r with
          | [] => none
          | c :: r2 =>
            if c = ':'.toNat then
              match skipJson n Skip.value depth (skipWs r2) with
              | none => none
              | some r3 =>
                match skipWs r3 with
                | [] => none
                | e :: r4 =>
                  if e = ','.toNat then skipJson n Skip.members depth (skipWs r4)
                  else if e = '\x7d'.toNat then some r4
                  else none
            else none
      else none

/-- Value of an object member whose key names a field: a string, or `null`
(which assigns nothing). A value of another kind cannot be stored in a string
field: `Unmarshal` reports an error. -/
def parseFieldValue (fuel : Nat) : List Nat → Option (Option GoString × List Nat)
  | [] => none
  | c :: cs =>
    if c = '"'.toNat then (unquoteBody fuel cs).map (fun p => (some (GoString.mk p.1), p.2))
    else (expect (bytesOf "null") (c :: cs)).map (fun r => (none, r))

/-- Members of an object, from the first key to the closing brace. The value of
a key that names a field is assigned to it; the value of any other key is
skipped, whatever its kind. -/
def parseMembers : Nat → CasbinRule → List Nat → Option (CasbinRule × List Nat)
  | 0, _, _ => none
  | n + 1, r, s =>
    match parseString (n + 1) s with
    | none => none
    | some (key, s1) =>
      match expect [':'.toNat] (skipWs s1) with
      | none => none
      | some s2 =>
        let assigned : Option (CasbinRule × List Nat) :=
          match fieldOf key with
          | some i =>
            match parseFieldValue (n + 1) (skipWs s2) with
            | none => none
            | some (some x, s3) => some (r.set i x, s3)
            | some (none, s3) => some (r, s3)
          | none => (skipJson (n + 1) Skip.value 2 (skipWs s2)).map (fun s3 => (r, s3))
        match assigned with
        | none => none
        | some (r1, s3) =>
          match skipWs s3 with
          | [] => none
          | c :: s4 =>
            if c = ','.toNat then parseMembers n r1 (skipWs s4)
            else if c = '\x7d'.toNat then some (r1, s4)
            else none

/-- One array element: an object, or `null` (the zero row). An element of
another kind cannot be stored in a row: `Unmarshal` reports an error. -/
def parseElem (fuel : Nat) : List Nat → Option (CasbinRule × List Nat)
  | [] => none
  | c :: cs =>
    if c = '\x7b'.toNat then
      match skipWs cs with
      | [] => none
      | d :: cs1 =>
        if d = '\x7d'.toNat then some (CasbinRule.zero, cs1)
        else parseMembers fuel CasbinRule.zero (d :: cs1)
    else (expect (bytesOf "null") (c :: cs)).map (fun r => (CasbinRule.zero, r))

/-- Elements of an array, from the first element to the closing bracket. -/
def parseElems : Nat → List Nat → Option (List CasbinRule × List Nat)
  | 0, _ => none
  | n + 1, s =>
    match parseElem (n + 1) s with
    | none => none
    | some (r, s1) =>
      match skipWs s1 with
      | [] => none
      | c :: s2 =>
        if c = ','.toNat then (parseElems n (skipWs s2)).map (fun p => (r :: p.1, p.2))
        else if c = ']'.toNat then some ([r], s2)
        else none

/-- Model of `json.Unmarshal(data, &policy)` for a fresh `var policy []CasbinRule`:
`null` leaves the slice nil, an array of objects and `null`s gives its rows,
anything else (invalid JSON, or a value that cannot be stored) is an error. The
fuel, twice the length of the input, is more than any run uses. -/
def jsonUnmarshal (data : Bytes) : Except String (Slice CasbinRule) :=
  let done (v : Slice CasbinRule) (rest : List Nat) : Except String (Slice CasbinRule) :=
    if skipWs rest = [] then Except.ok v
    else Except.error "invalid character after top-level value"
  match skipWs data with
  | [] => Except.error "unexpected end of JSON input"
  | c :: s1 =>
    if c = '['.toNat then
      match skipWs s1 with
      | [] => Except.error "unexpected end of JSON input"
      | d :: s2 =>
        if d = ']'.toNat then done (Slice.mk []) s2
        else
          match parseElems (2 * data.length + 8) (d :: s2) with
          | none => Except.error "cannot unmarshal into Go value of type []adapter.CasbinRule"
          | some (rows, rest) => done (Slice.mk rows) rest
    else
      match expect (bytesOf "null") (c :: s1) with
      | some rest => done Slice.null rest
      | none => Except.error "cannot unmarshal into Go value of type []adapter.CasbinRule"

/-! ## The adapter (`adapter.go`) -/

section AdapterOps

variable {σ : Type}

/-- `saveToBuffer`: encode the document, keep the bytes as `source`, and hand
them to the driver when there is one. `json.Marshal` cannot fail at this type. -/
def saveToBuffer (a : Adapter σ) : GoError × Adapter σ :=
  let data := jsonMarshal a.policy
  let a1 := { a with source := data }
  match a1.driver with
  | some d =>
    let res := d.UpdateData data a1.dataurl a1.world
    (res.1, { a1 with world := res.2, sent := a1.sent ++ [(data, a1.dataurl)] })
  | none => (none, a1)

/-- `loadFromBuffer`: decode `source` into the document; nothing happens when
`source` is empty, and a decoding error leaves the document as it was. -/
def loadFromBuffer (a : Adapter σ) : GoError × Adapter σ :=
  if a.source.length = 0 then (none, a)
  else
    match jsonUnmarshal a.source with
    | Except.ok policy => (none, { a with policy := policy })
    | Except.error e => (some e, a)

/-- `NewAdapter`. The errors of the two calls of the forced branch are dropped,
and a failed fetch is only logged. -/
def NewAdapter (driver : Option (IDriver σ)) (url : String) (source : Bytes)
    (force : Bool) (w : σ) : Adapter σ :=
  let a : Adapter σ :=
    { dataurl := url, driver := driver, policy := Slice.mk [], source := source,
      world := w, sent := [] }
  if force then
    (saveToBuffer (loadFromBuffer a).2).2
  else
    match a.driver with
    | some d =>
      match d.GetData url a.world with
      | (Except.error _, w1) => { a with world := w1 }
      | (Except.ok content, w1) => { a with source := content, world := w1 }
    | none => a

/-- `loadPolicyLine`: the text handed to `persist.LoadPolicyLine`. -/
def loadPolicyLine (line : CasbinRule) : GoString :=
  let lineText := line.PType
  let lineText := if line.V0 ≠ "" then lineText ++ ", " ++ line.V0 else lineText
  let lineText := if line.V1 ≠ "" then lineText ++ ", " ++ line.V1 else lineText
  let lineText := if line.V2 ≠ "" then lineText ++ ", " ++ line.V2 else lineText
  let lineText := if line.V3 ≠ "" then lineText ++ ", " ++ line.V3 else lineText
  let lineText := if line.V4 ≠ "" then lineText ++ ", " ++ line.V4 else lineText
  let lineText := if line.V5 ≠ "" then lineText ++ ", " ++ line.V5 else lineText
  lineText

/-- `LoadPolicy`: the error, the adapter afterwards, and the lines fed to the
engine, in the order they are fed. -/
def LoadPolicy (a : Adapter σ) : GoError × Adapter σ × List GoString :=
  match loadFromBuffer a with
  | (some err, a1) => (some err, a1, [])
  | (none, a1) => (none, a1, a1.policy.toList.map loadPolicyLine)

/-- `savePolicyLine`. -/
def savePolicyLine (ptype : GoString) (rule : List GoString) : CasbinRule :=
  let line := CasbinRule.zero
  let line := { line with PType := ptype }
  let line := if rule.length > 0 then { line with V0 := rule.getD 0 "" } else line
  let line := if rule.length > 1 then { line with V1 := rule.getD 1 "" } else line
  let line := if rule.length > 2 then { line with V2 := rule.getD 2 "" } else line
  let line := if rule.length > 3 then { line with V3 := rule.getD 3 "" } else line
  let line := if rule.length > 4 then { line with V4 := rule.getD 4 "" } else line
  let line := if rule.length > 5 then { line with V5 := rule.getD 5 "" } else line
  line

/-- `model.Assertion`, as far as the adapter reads it. -/
structure Assertion where
  Policy : List (List GoString)

/-- `model.Model`, as far as `SavePolicy` reads it: the entries of the maps
`model["p"]` and `model["g"]`, each listed in the order in which the `range`
statement yields them (Go leaves that order unspecified). -/
structure Model where
  p : List (GoString × Assertion)
  g : List (GoString × Assertion)

/-- The two nested loops over one section, appending to `lines`. -/
def appendSection (lines : Slice CasbinRule) (sec : List (GoString × Assertion)) :
    Slice CasbinRule :=
  sec.foldl
    (fun acc entry =>
      entry.2.Policy.foldl (fun acc2 rule => acc2.push (savePolicyLine entry.1 rule)) acc)
    lines

/-- `SavePolicy`. -/
def SavePolicy (model : Model) (a : Adapter σ) : GoError × Adapter σ :=
  let a := { a with policy := Slice.mk [] }
  let lines : Slice CasbinRule := Slice.null
  let lines := appendSection lines model.p
  let lines := appendSection lines model.g
  saveToBuffer { a with policy := lines }

/-- `AddPolicy`. -/
def AddPolicy (_sec : GoString) (ptype : GoString) (rule : List GoString) (a : Adapter σ) :
    GoError × Adapter σ :=
  let line := savePolicyLine ptype rule
  saveToBuffer { a with policy := a.policy.push line }

/-- The padding loop of `RemovePolicy`: `max(0, 6-len(rule))` empty strings. -/
def padRule (rule : List GoString) : List GoString :=
  rule ++ List.replicate (Int.toNat (max 0 (6 - (rule.length : Int)))) ("" : GoString)

/-- The condition of the scan of `RemovePolicy`. -/
def ruleMatches (line : CasbinRule) (ptype : GoString) (rule : List GoString) : Bool :=
  line.PType = ptype &&
  line.V0 = rule.getD 0 "" &&
  line.V1 = rule.getD 1 "" &&
  line.V2 = rule.getD 2 "" &&
  line.V3 = rule.getD 3 "" &&
  line.V4 = rule.getD 4 "" &&
  line.V5 = rule.getD 5 ""

/-- The scan of `RemovePolicy`: index of the first matching row, counting from `i`. -/
def findMatch (ptype : GoString) (rule : List GoString) : List CasbinRule → Nat → Option Nat
  | [], _ => none
  | line :: rest, i =>
    if ruleMatches line ptype rule then some i else findMatch ptype rule rest (i + 1)

/-- `RemovePolicy`. -/
def RemovePolicy (_sec : GoString) (ptype : GoString) (rule : List GoString) (a : Adapter σ) :
    GoError × Adapter σ :=
  let rule := padRule rule
  match findMatch ptype rule a.policy.toList 0 with
  | some i =>
    saveToBuffer
      { a with policy := Slice.mk (a.policy.toList.take i ++ a.policy.toList.drop (i + 1)) }
  | none => (none, a)

/-- The `switch` of `RemoveFilteredPolicy`: whether `matched` stays true for the
value compared at position `k`; positions outside `0..5` compare nothing. -/
def fieldMatched (line : CasbinRule) (k : Int) (fieldValue : GoString) : Bool :=
  if k = 0 then line.V0 = fieldValue
  else if k = 1 then line.V1 = fieldValue
  else if k = 2 then line.V2 = fieldValue
  else if k = 3 then line.V3 = fieldValue
  else if k = 4 then line.V4 = fieldValue
  else if k = 5 then line.V5 = fieldValue
  else true

/-- The inner loop of `RemoveFilteredPolicy`, from offset `i` on: the final value
of `matched`. -/
def matchedFrom (line : CasbinRule) (fieldIndex : Int) : Nat → List GoString → Bool
  | _, [] => true
  | i, fieldValue :: rest =>
    if fieldValue = "" then matchedFrom line fieldIndex (i + 1) rest
    else if fieldMatched line (fieldIndex + i) fieldValue then
      matchedFrom line fieldIndex (i + 1) rest
    else false

/-- `RemoveFilteredPolicy`. -/
def RemoveFilteredPolicy (_sec : GoString) (ptype : GoString) (fieldIndex : Int)
    (fieldValues : List GoString) (a : Adapter σ) : GoError × Adapter σ :=
  let newPolicy : Slice CasbinRule :=
    a.policy.toList.foldl
      (fun acc line =>
        if line.PType ≠ ptype then acc.push line
        else if ¬ matchedFrom line fieldIndex 0 fieldValues then acc.push line
        else acc)
      Slice.null
  saveToBuffer { a with policy := newPolicy }

end AdapterOps

/-! ## The WebDAV driver (`driver/driver.go`, `driver/jianguo.go`) -/

/-- `ErrNotAuth`. -/
def ErrNotAuth : String := "no auth"

/-- `ErrInvUrl`. -/
def ErrInvUrl : String := "invalid url"

/-- Result of a Go call that may panic instead of returning. -/
inductive Outcome (α : Type) where
  | ret (v : α) : Outcome α
  | panic (msg : String) : Outcome α

/-- An HTTP request as the driver builds it: method, URL, basic-auth
credentials, the `Depth` header and the body. -/
structure Request where
  method : String
  url : String
  user : String
  password : String
  depth : Option String
  body : Option Bytes
  deriving DecidableEq, Repr

/-- An HTTP response as the driver reads it; `Body` is what `io.ReadAll` gives. -/
structure Response where
  StatusCode : Nat
  Status : String
  ContentType : String
  Body : Bytes × GoError

/-- `FileItem`. -/
structure FileItem where
  Name : String
  Href : String
  Owner : String
  Status : String
  ResourceType : Option String
  ContentType : String
  ContentLength : Int
  LastModify : String
  Privileges : List String
  deriving DecidableEq, Repr

/-- The struct `Prop` (a reserved word here), with the privilege names of
`CurrentUserPrivilegeSet` flattened. -/
structure DavProp where
  GetContentType : String
  DisplayName : String
  Owner : String
  Collection : Option String
  GetContentLength : Int
  GetLastModified : String
  Privileges : List String

/-- `Propstat`. -/
structure Propstat where
  prop : DavProp
  Status : String

/-- One `response` element of a `Multistatus`. -/
structure DavResponse where
  Href : String
  Propstat : Propstat

/-- `IDriverConfig`, as far as the driver calls it, over a world state `σ`. -/
structure IDriverConfig (σ : Type) where
  GetLastTimeline : String → String → σ → String
  SetLastTimeline : String → String → σ → σ
  GetLastTimelineMap : String → σ → List (String × Int)

/-- Library and operating-system calls the driver makes: `http.NewRequest`
(its validation of method and URL), the client's `Do`, `url.QueryUnescape`,
`filepath.Dir`, `filepath.Join`, `filepath.Ext`, `mime.TypeByExtension`,
`xml.Unmarshal` into a `Multistatus`, and `os.Open` followed by reading. -/
structure Env (σ : Type) where
  newRequest : String → String → GoError
  roundTrip : Request → σ → Except String Response × σ
  queryUnescape : String → Except String String
  filepathDir : String → String
  filepathJoin : String → String → String
  filepathExt : String → String
  typeByExtension : String → String
  xmlUnmarshal : Bytes → Except String (List DavResponse)
  osOpen : String → σ → Except String Bytes

/-- The world the driver acts on, with the log of the HTTP requests sent so far. -/
structure World (σ : Type) where
  state : σ
  requests : List Request

/-- `JianguoDriver`; `ignores` lists the keys of the map. -/
structure JianguoDriver (σ : Type) where
  iconf : Option (IDriverConfig σ)
  entry : String
  authName : String
  authPassword : String
  ignores : List String

section DriverOps

variable {σ : Type}

/-- Send one request: the only place where the request log grows. -/
def send (env : Env σ) (req : Request) (w : World σ) : Except String Response × World σ :=
  let r := env.roundTrip req w.state
  (r.1, { state := r.2, requests := w.requests ++ [req] })

/-- `NewJianguoDriver`. -/
def NewJianguoDriver (iconf : Option (IDriverConfig σ)) : JianguoDriver σ :=
  { iconf := iconf, entry := "https://dav.jianguoyun.com/dav/我的坚果云/",
    authName := "", authPassword := "", ignores := [] }

namespace JianguoDriver

/-- `SetIgnore`. -/
def SetIgnore (d : JianguoDriver σ) (p : List String) : JianguoDriver σ :=
  p.foldl (fun acc item => { acc with ignores := item :: acc.ignores }) d

/-- `Auth`. -/
def Auth (d : JianguoDriver σ) (name password : String) : JianguoDriver σ :=
  { d with authName := name, authPassword := password }

/-- `IsAuth`. -/
def IsAuth (d : JianguoDriver σ) : Bool := d.authName ≠ "" && d.authPassword ≠ ""

/-- `DecodeUrl`. -/
def DecodeUrl (env : Env σ) (_d : JianguoDriver σ) (data : String) : String :=
  match env.queryUnescape data with
  | Except.error _ => data
  | Except.ok res => res

/-- The request built by `http.NewRequest` followed by `SetBasicAuth`. -/
def request (d : JianguoDriver σ) (method url : String) (depth : Option String)
    (body : Option Bytes) : Request :=
  { method := method, url := url, user := d.authName, password := d.authPassword,
    depth := depth, body := body }

/-- `GetData`. -/
def GetData (env : Env σ) (d : JianguoDriver σ) (url : String) (w : World σ) :
    (Bytes × GoError) × World σ :=
  if ¬ d.IsAuth then (([], some ErrNotAuth), w)
  else
    let url := if url = "" then d.entry else d.entry ++ url
    match env.newRequest "GET" url with
    | some err => (([], some ("error creating request: " ++ err)), w)
    | none =>
      match send env (d.request "GET" url none none) w with
      | (Except.error err, w1) => (([], some ("error downloading file: " ++ err)), w1)
      | (Except.ok resp, w1) =>
        if resp.StatusCode ≠ 200 then
          (([], some ("error downloading file. Status code: " ++ toString resp.StatusCode)), w1)
        else (resp.Body, w1)

/-- `GetStat`. -/
def GetStat (env : Env σ) (d : JianguoDriver σ) (url : String) (w : World σ) :
    (Bytes × String × GoError) × World σ :=
  if ¬ d.IsAuth then (([], "", some ErrNotAuth), w)
  else
    let url := if url = "" then d.entry else d.entry ++ url
    match env.newRequest "GET" url with
    | some err => (([], "", some ("error creating request: " ++ err)), w)
    | none =>
      match send env (d.request "GET" url none none) w with
      | (Except.error err, w1) => (([], "", some ("error downloading file: " ++ err)), w1)
      | (Except.ok resp, w1) =>
        let contentType :=
          if resp.ContentType = "" then env.typeByExtension (env.filepathExt url)
          else resp.ContentType
        if resp.StatusCode ≠ 200 then
          (([], "", some ("error downloading file. Status code: " ++ toString resp.StatusCode)),
            w1)
        else ((resp.Body.1, contentType, resp.Body.2), w1)

/-- Pieces of a text between the occurrences of `/`. -/
def splitSlash : List Char → List (List Char)
  | [] => [[]]
  | c :: cs =>
    if c = '/' then [] :: splitSlash cs
    else
      match splitSlash cs with
      | h :: t => (c :: h) :: t
      | [] => [[c]]

/-- `strings.Split(s, "/")`. -/
def stringsSplit (s : String) : List String := (splitSlash s.data).map String.mk

/-- Whether a status code is one of 201, 200, 204. -/
def uploadOk (code : Nat) : Bool := code = 201 || code = 200 || code = 204

/-- `Delete`. -/
def Delete (env : Env σ) (d : JianguoDriver σ) (remote : String) (w : World σ) :
    GoError × World σ :=
  if ¬ d.IsAuth then (some ErrNotAuth, w)
  else if remote = "" then (some ErrInvUrl, w)
  else
    let url := d.DecodeUrl env (d.entry ++ remote)
    match env.newRequest "DELETE" url with
    | some err => (some err, w)
    | none =>
      match send env (d.request "DELETE" url none none) w with
      | (Except.error err, w1) => (some err, w1)
      | (Except.ok resp, w1) =>
        if resp.StatusCode ≠ 200 ∧ resp.StatusCode ≠ 204 then
          (some ("failed to delete file: " ++ resp.Status), w1)
        else (none, w1)

/-- `GetLastTimeline`. -/
def GetLastTimeline (d : JianguoDriver σ) (name : String) (w : World σ) : String :=
  match d.iconf with
  | some c => c.GetLastTimeline "坚果云" name w.state
  | none => ""

/-- `GetLastTimelineMap`: the method is called on `iconf` without a nil check. -/
def GetLastTimelineMap (d : JianguoDriver σ) (w : World σ) : Outcome (List (String × Int)) :=
  match d.iconf with
  | some c => Outcome.ret (c.GetLastTimelineMap "坚果云" w.state)
  | none => Outcome.panic "invalid memory address or nil pointer dereference"

/-- The loop of `createDirectories` over the path parts, `currentPath` being
the path built so far. -/
def mkcolLoop (env : Env σ) (d : JianguoDriver σ) :
    List String → String → World σ → GoError × World σ
  | [], _, w => (none, w)
  | part :: rest, currentPath, w =>
    if part = "" then mkcolLoop env d rest currentPath w
    else
      let currentPath := env.filepathJoin currentPath part
      match env.newRequest "MKCOL" (d.entry ++ currentPath) with
      | some err => (some err, w)
      | none =>
        match send env (d.request "MKCOL" (d.entry ++ currentPath) none none) w with
        | (Except.error err, w1) => (some err, w1)
        | (Except.ok resp, w1) =>
          if ¬ uploadOk resp.StatusCode then
            (some ("failed to upload file: " ++ resp.Status), w1)
          else mkcolLoop env d rest currentPath w1

/-- `createDirectories`. -/
def createDirectories (env : Env σ) (d : JianguoDriver σ) (path : String) (w : World σ) :
    GoError × World σ :=
  if ¬ d.IsAuth then (some ErrNotAuth, w)
  else
    let dirPath := env.filepathDir path
    if dirPath = "." ∨ dirPath = "/" ∨ dirPath = "" then (none, w)
    else mkcolLoop env d (stringsSplit dirPath) "" w

/-- `UpdateData`. -/
def UpdateData (env : Env σ) (d : JianguoDriver σ) (data : Bytes) (url : String)
    (w : World σ) : GoError × World σ :=
  match d.createDirectories env url w with
  | (some err, w1) => (some err, w1)
  | (none, w1) =>
    let target := d.DecodeUrl env (d.entry ++ url)
    match env.newRequest "PUT" target with
    | some err => (some err, w1)
    | none =>
      match send env (d.request "PUT" target none (some data)) w1 with
      | (Except.error err, w2) => (some err, w2)
      | (Except.ok resp, w2) =>
        if ¬ uploadOk resp.StatusCode then
          (some ("failed to upload file: " ++ resp.Status), w2)
        else (none, w2)

/-- `Update`; the parameter `local` of the source is `localPath` here. The result
of the first `createDirectories` call is dropped, its requests are not. -/
def Update (env : Env σ) (d : JianguoDriver σ) (localPath remote : String) (w : World σ) :
    GoError × World σ :=
  if ¬ d.IsAuth then (some ErrNotAuth, w)
  else if remote = "" then (some ErrInvUrl, w)
  else if localPath ∈ d.ignores then (none, w)
  else
    let w1 := (d.createDirectories env localPath w).2
    match env.osOpen localPath w1.state with
    | Except.error err => (some err, w1)
    | Except.ok file =>
      match d.UpdateData env file remote w1 with
      | (some err, w2) => (some err, w2)
      | (none, w2) =>
        match d.iconf with
        | some c => (none, { w2 with state := c.SetLastTimeline "坚果云" localPath w2.state })
        | none => (none, w2)

/-- `List`. `http.NewRequest` failing leaves a nil request, whose use panics.
(Defined last in this namespace: from here on `List` names this method.) -/
def List (env : Env σ) (d : JianguoDriver σ) (url : String) (w : World σ) :
    Outcome ((List FileItem × GoError) × World σ) :=
  if ¬ d.IsAuth then Outcome.ret (([], some ErrNotAuth), w)
  else
    let url := if url = "" then d.entry else d.entry ++ url
    match env.newRequest "PROPFIND" url with
    | some _ => Outcome.panic "invalid memory address or nil pointer dereference"
    | none =>
      match send env (d.request "PROPFIND" url (some "1") none) w with
      | (Except.error err, w1) => Outcome.ret (([], some ("error: " ++ err)), w1)
      | (Except.ok resp, w1) =>
        match env.xmlUnmarshal resp.Body.1 with
        | Except.error err => Outcome.ret (([], some ("error: " ++ err)), w1)
        | Except.ok responses =>
          let res := responses.map (fun resp =>
            ({ Name := resp.Propstat.prop.DisplayName,
               Href := resp.Href,
               Owner := resp.Propstat.prop.Owner,
               Status := resp.Propstat.Status,
               ResourceType := resp.Propstat.prop.Collection,
               ContentType := resp.Propstat.prop.GetContentType,
               ContentLength := resp.Propstat.prop.GetContentLength,
               LastModify := resp.Propstat.prop.GetLastModified,
               Privileges := resp.Propstat.prop.Privileges } : FileItem))
          Outcome.ret ((res, none), w1)

end JianguoDriver

end DriverOps

/-! ## The registry (`driver/driver.go`) -/

/-- `DriverConfig`; `TimeLines` lists the entries of the map. -/
structure DriverConfig where
  Username : String
  Password : String
  Ignores : List String
  TimeLines : List (String × String)
  deriving DecidableEq, Repr

/-- Go map with string keys: `none` is the nil map, `some l` a map holding the
entries `l`. -/
abbrev GoMap (α : Type) := Option (List (String × α))

/-- `v, ok := m[k]`: reading a nil map finds nothing. -/
def mapGet {α : Type} (m : GoMap α) (k : String) : Option α :=
  match m with
  | none => none
  | some l => l.lookup k

/-- `m[k] = v`: `none` stands for the panic of an assignment to a nil map. -/
def mapSet {α : Type} (m : GoMap α) (k : String) (v : α) : Option (GoMap α) :=
  match m with
  | none => none
  | some l => some (some ((k, v) :: l.filter (fun e => e.1 ≠ k)))

/-- `DriverConfigAll`: `data` maps a name to a pointer (`none` is a nil pointer),
`drivers` is the cache. -/
structure DriverConfigAll (σ : Type) where
  cfg : String
  data : GoMap (Option DriverConfig)
  drivers : GoMap (JianguoDriver σ)

/-- Library calls of `NewDriverConfigAll`: `os.ReadFile`, and `json.Unmarshal` into
a `map[string]*DriverConfig`. -/
structure ConfigLib where
  readFile : String → Except String Bytes
  unmarshalConfig : Bytes → Except String (GoMap (Option DriverConfig))

/-- `NewDriverConfig`. -/
def NewDriverConfig {σ : Type} (config : GoMap (Option DriverConfig)) : DriverConfigAll σ :=
  { cfg := "", data := config, drivers := some [] }

/-- `NewDriverConfigAll`: the struct literal does not set `drivers`. -/
def NewDriverConfigAll {σ : Type} (lib : ConfigLib) (cfg : String) :
    Except String (DriverConfigAll σ) :=
  match lib.readFile cfg with
  | Except.error err => Except.error err
  | Except.ok data =>
    match lib.unmarshalConfig data with
    | Except.error err => Except.error err
    | Except.ok config => Except.ok { cfg := cfg, data := config, drivers := none }

namespace DriverConfigAll

/-- `GetConfig`. -/
def GetConfig {σ : Type} (c : DriverConfigAll σ) (mode : String) :
    Option DriverConfig × Bool :=
  match mapGet c.data mode with
  | some config => (config, true)
  | none => (none, false)

/-- `GetDriver`. `self` is the registry seen through the interface `IDriverConfig`,
which is what `NewJianguoDriver(c)` receives. -/
def GetDriver {σ : Type} (self : IDriverConfig σ) (c : DriverConfigAll σ) (name : String) :
    Outcome ((Option (JianguoDriver σ) × GoError) × DriverConfigAll σ) :=
  match mapGet c.drivers name with
  | some v => Outcome.ret ((some v, none), c)
  | none =>
    match c.GetConfig name with
    | (_, false) => Outcome.ret ((none, some "no auth, pls update config.json"), c)
    | (driverConfig, true) =>
      if name = "坚果云" then
        let d : JianguoDriver σ := NewJianguoDriver (some self)
        match driverConfig with
        | none => Outcome.panic "invalid memory address or nil pointer dereference"
        | some conf =>
          let d := d.Auth conf.Username conf.Password
          let d := d.SetIgnore conf.Ignores
          match mapSet c.drivers name d with
          | none => Outcome.panic "assignment to entry in nil map"
          | some drivers => Outcome.ret ((some d, none), { c with drivers := drivers })
      else Outcome.ret ((none, some "no this driver"), c)

end DriverConfigAll

/-! ## `path/filepath` on a system whose separator is `/`

Library code, modelled element by element from its documented rules. -/

/-- `strings.Join(elems, "/")`. -/
def joinSlash : List (List Char) → List Char
  | [] => []
  | [s] => s
  | s :: rest => s ++ '/' :: joinSlash rest

/-- One path element processed by `Clean`; `out` holds the elements kept so far,
the last one first. Empty elements and `.` are dropped; `..` removes the last
element kept, and is itself kept when the path is not rooted and there is
nothing to remove. -/
def cleanStep (rooted : Bool) (out : List (List Char)) (elem : List Char) :
    List (List Char) :=
  if elem = [] ∨ elem = ['.'] then out
  else if elem = ['.', '.'] then
    match out with
    | [] => if rooted then [] else [elem]
    | top :: rest => if top = ['.', '.'] then elem :: out else rest
  else elem :: out

/-- `filepath.Clean` on characters. -/
def cleanChars (path : List Char) : List Char :=
  match path with
  | [] => ['.']
  | c :: _ =>
    let rooted : Bool := c = '/'
    let body := joinSlash ((JianguoDriver.splitSlash path).foldl (cleanStep rooted) []).reverse
    if rooted then '/' :: body
    else if body = [] then ['.'] else body

/-- The part of a path up to and including its last `/` (empty without one). -/
def upToLastSlash : List Char → List Char
  | [] => []
  | c :: cs =>
    if upToLastSlash cs ≠ [] then c :: upToLastSlash cs
    else if c = '/' then [c] else []

/-- `filepath.Clean`. -/
def filepathClean (path : String) : String := String.mk (cleanChars path.data)

/-- `filepath.Dir`. -/
def filepathDir (path : String) : String := String.mk (cleanChars (upToLastSlash path.data))

/-- `filepath.Join` of two elements. -/
def filepathJoin (a b : String) : String :=
  if a ≠ "" then filepathClean (String.mk (a.data ++ '/' :: b.data))
  else if b ≠ "" then filepathClean b
  else ""

/-- An environment with `filepath.Dir` and `filepath.Join` as modelled above. -/
def Env.withPaths {σ : Type} (base : Env σ) : Env σ :=
  { base with filepathDir := Webdav.filepathDir, filepathJoin := Webdav.filepathJoin }

/-! ## `http.NewRequest`

Library code: the checks `http.NewRequest` makes before it returns a request,
which are those of `url.Parse`. -/

/-- `ishex` of `net/url`. -/
def ishex (c : Char) : Bool :=
  (48 ≤ c.toNat && c.toNat ≤ 57) || (97 ≤ c.toNat && c.toNat ≤ 102)
    || (65 ≤ c.toNat && c.toNat ≤ 70)

/-- The check `unescape` of `net/url` runs on a path or a fragment: every `%` is
followed by two hexadecimal digits. -/
def validEscapes : List Char → Bool
  | [] => true
  | c :: rest =>
    if c = '%' then
      match rest with
      | a :: b :: rest2 => ishex a && ishex b && validEscapes rest2
      | _ => false
    else validEscapes rest

/-- Model of `http.NewRequest(method, url, body)` for one of the methods the
driver passes and a URL that extends the driver's entry
`https://dav.jianguoyun.com/dav/.../`: the error it returns, `none` when the
request is built. `url.Parse` refuses an ASCII control character before the
fragment, and a `%` that starts no escape in the path (the text up to the first
`?` or `#`) or in the fragment (the text after the first `#`); the query is not
looked at. The text of the error is abbreviated. -/
def httpNewRequest (_method : String) (url : String) : GoError :=
  let u := url.data.takeWhile (fun c => c ≠ '#')
  let frag := (url.data.dropWhile (fun c => c ≠ '#')).drop 1
  if u.any (fun c => c.toNat < 0x20 || c.toNat = 0x7F) then
    some "net/url: invalid control character in URL"
  else if ¬ validEscapes (u.takeWhile (fun c => c ≠ '?')) then some "invalid URL escape"
  else if ¬ validEscapes frag then some "invalid URL escape"
  else none

/-! ## Definitions used to state the properties -/

/-- Spec side of `RemovePolicy`: the field list padded with empty strings up to
six entries. -/
def paddedFields (f : List GoString) : List GoString :=
  f ++ List.replicate (6 - f.length) ("" : GoString)

/-- Spec side of `RemovePolicy`: the row compared with, made of `ptype` and the
first six entries of the padded field list. -/
def keyRow (ptype : GoString) (f : List GoString) : CasbinRule :=
  { PType := ptype,
    V0 := (paddedFields f).getD 0 "",
    V1 := (paddedFields f).getD 1 "",
    V2 := (paddedFields f).getD 2 "",
    V3 := (paddedFields f).getD 3 "",
    V4 := (paddedFields f).getD 4 "",
    V5 := (paddedFields f).getD 5 "" }

/-- The six positional fields of a row, in index order. -/
def CasbinRule.fields (r : CasbinRule) : List GoString := [r.V0, r.V1, r.V2, r.V3, r.V4, r.V5]

/-- An adapter without driver holding the given rows, over the trivial world. -/
def adapterOf (rows : List CasbinRule) : Adapter Unit :=
  { source := [], policy := Slice.mk rows, dataurl := "policy.json", driver := none,
    world := (), sent := [] }

/-- Spec side of `RemoveFilteredPolicy`: the row has the given policy type and
every non-empty value `vs[i]` equals the row's field at position `k + i`. -/
def filterRemoves (ptype : GoString) (k : Nat) (vs : List GoString) (r : CasbinRule) : Prop :=
  r.PType = ptype ∧
    ∀ i, i < vs.length → vs.getD i "" ≠ "" → r.fields.getD (k + i) "" = vs.getD i ""

instance filterRemovesDecidable (ptype : GoString) (k : Nat) (vs : List GoString) :
    DecidablePred (filterRemoves ptype k vs) := by
  intro r
  unfold filterRemoves
  infer_instance

/-- A sequence of `AddPolicy` calls, each given as `(sec, ptype, fields)`, run in
order; the state after the last one. -/
def addPolicies {σ : Type} (calls : List (GoString × GoString × List GoString)) (a : Adapter σ) :
    Adapter σ :=
  calls.foldl (fun acc c => (AddPolicy c.1 c.2.1 c.2.2 acc).2) a

/-- A Go string that is valid UTF-8: its bytes are the encoding of some text. -/
def ValidUTF8 (s : GoString) : Prop := ∃ cs : List Char, s.bytes = utf8 cs

/-- A row whose seven fields are valid UTF-8. -/
def ValidRow (r : CasbinRule) : Prop :=
  ValidUTF8 r.PType ∧ ValidUTF8 r.V0 ∧ ValidUTF8 r.V1 ∧ ValidUTF8 r.V2 ∧ ValidUTF8 r.V3 ∧
    ValidUTF8 r.V4 ∧ ValidUTF8 r.V5

/-- The bytes a string holds after it was encoded and decoded: every byte that
starts no valid UTF-8 encoding is replaced by the three bytes of `U+FFFD`, and
every valid encoding is kept. `fuel` bounds the number of turns. -/
def coerceUTF8 : Nat → List Nat → List Nat
  | 0, _ => []
  | _ + 1, [] => []
  | n + 1, b :: rest =>
    if (decodeRune (b :: rest)).1 = RuneError ∧ (decodeRune (b :: rest)).2 = 1 then
      [0xEF, 0xBF, 0xBD] ++ coerceUTF8 n rest
    else
      (b :: rest).take (decodeRune (b :: rest)).2
        ++ coerceUTF8 n (rest.drop ((decodeRune (b :: rest)).2 - 1))

/-- The string with every invalid byte replaced by `U+FFFD`. -/
def toValidUTF8 (s : GoString) : GoString := ⟨coerceUTF8 s.bytes.length s.bytes⟩

/-- The row with every invalid byte of its fields replaced by `U+FFFD`. -/
def CasbinRule.toValid (r : CasbinRule) : CasbinRule :=
  ⟨toValidUTF8 r.PType, toValidUTF8 r.V0, toValidUTF8 r.V1, toValidUTF8 r.V2,
    toValidUTF8 r.V3, toValidUTF8 r.V4, toValidUTF8 r.V5⟩

/-- The document with every invalid byte of its fields replaced by `U+FFFD`; a
nil document stays nil. -/
def coerceDocument : Slice CasbinRule → Slice CasbinRule
  | Slice.null => Slice.null
  | Slice.mk rows => Slice.mk (rows.map CasbinRule.toValid)

/-- What the encoder writes for one character of a valid string. -/
def escapeText (c : Char) : List Nat :=
  if c.toNat < 0x80 then escapeByte c.toNat
  else if c.toNat = 0x2028 ∨ c.toNat = 0x2029 then bytesOf "\\u202" ++ [hex (c.toNat % 16)]
  else encodeRune c.toNat

/-- A driver over the trivial world whose `GetData` always succeeds with
`content` and whose `UpdateData` always succeeds. -/
def fixedDriver (content : Bytes) : IDriver Unit :=
  { GetData := fun _ w => (Except.ok content, w),
    UpdateData := fun _ _ w => (none, w) }

/-- The encoded one-row document `[{"PType":"p","V0":"alice","V1":"data1","V2":"read",...}]`. -/
def aliceBytes : Bytes :=
  jsonMarshal (Slice.mk [⟨"p", "alice", "data1", "read", "", "", ""⟩])

/-- The document `[{"ID":1,"PType":"p","V0":"alice"}]`, whose row has a member
that names no field of `CasbinRule`. -/
def taggedBytes : Bytes := bytesOf "[\x7b\"ID\":1,\"PType\":\"p\",\"V0\":\"alice\"\x7d]"

/-- Spec side of `SavePolicy`: the rows of one section, entry after entry in the
order given, each entry contributing its rules in their order. -/
def sectionRows (sec : List (GoString × Assertion)) : List CasbinRule :=
  sec.flatMap (fun entry => entry.2.Policy.map (keyRow entry.1))

/-- Number of rules of a section. -/
def ruleCount (sec : List (GoString × Assertion)) : Nat :=
  (sec.map (fun entry => entry.2.Policy.length)).sum

/-- An adapter holding the given rows whose driver accepts every request. -/
def drivenAdapter (rows : List CasbinRule) : Adapter Unit :=
  { source := [], policy := Slice.mk rows, dataurl := "policy.json",
    driver := some (fixedDriver []), world := (), sent := [] }

/-- Spec side of `loadPolicyLine`: `acc` followed, for each value of the list in
order, by `", "` and the value. -/
def joinFields (acc : GoString) : List GoString → GoString
  | [] => acc
  | v :: vs => joinFields (acc ++ ", " ++ v) vs

/-- States an adapter can be in: the result of `NewAdapter`, followed by any of
its operations, the world of the driver changing freely in between. -/
inductive Reachable {σ : Type} : Adapter σ → Prop where
  | construct (driver : Option (IDriver σ)) (url : String) (source : Bytes) (force : Bool)
      (w : σ) : Reachable (NewAdapter driver url source force w)
  | load (a : Adapter σ) : Reachable a → Reachable (LoadPolicy a).2.1
  | save (model : Model) (a : Adapter σ) : Reachable a → Reachable (SavePolicy model a).2
  | add (sec ptype : GoString) (rule : List GoString) (a : Adapter σ) :
      Reachable a → Reachable (AddPolicy sec ptype rule a).2
  | remove (sec ptype : GoString) (rule : List GoString) (a : Adapter σ) :
      Reachable a → Reachable (RemovePolicy sec ptype rule a).2
  | removeFiltered (sec ptype : GoString) (fieldIndex : Int) (fieldValues : List GoString)
      (a : Adapter σ) :
      Reachable a → Reachable (RemoveFilteredPolicy sec ptype fieldIndex fieldValues a).2
  | world (a : Adapter σ) (w : σ) : Reachable a → Reachable { a with world := w }

/-- In a reachable state the bytes held can be decoded, unless the document is
still the empty one of the constructor. -/
def Coherent {σ : Type} (a : Adapter σ) : Prop :=
  (∃ D, jsonUnmarshal a.source = Except.ok D) ∨ a.policy = Slice.mk []

/-- An environment over the trivial world in which every request is refused
and no file exists. -/
def offlineEnv : Env Unit :=
  { newRequest := fun _ _ => none,
    roundTrip := fun _ w => (Except.error "connection refused", w),
    queryUnescape := fun s => Except.ok s,
    filepathDir := fun _ => ".",
    filepathJoin := fun a b => a ++ b,
    filepathExt := fun _ => "",
    typeByExtension := fun _ => "",
    xmlUnmarshal := fun _ => Except.ok [],
    osOpen := fun _ _ => Except.error "no such file or directory" }

/-- The world before any request. -/
def freshWorld : World Unit := { state := (), requests := [] }

/-- A driver as `NewJianguoDriver(nil)` gives it, with `a.txt` ignored and no
credentials. -/
def ignoringDriver : JianguoDriver Unit := (NewJianguoDriver none).SetIgnore ["a.txt"]

/-- A path segment: not empty, not `.`, not `..`, and without `/`. -/
def GoodSegment (s : String) : Prop :=
  s.data ≠ [] ∧ s.data ≠ ['.'] ∧ s.data ≠ ['.', '.'] ∧ '/' ∉ s.data

instance goodSegmentDecidable (s : String) : Decidable (GoodSegment s) := by
  unfold GoodSegment
  infer_instance

/-- The path `s1/.../sk`. -/
def dirPath (segs : List String) : String := String.mk (joinSlash (segs.map String.data))

/-- The relative path `s1/.../sn/file`. -/
def relPath (segs : List String) (file : String) : String := dirPath (segs ++ [file])

/-- The directories `s1`, `s1/s2`, ..., `s1/.../sn`, from root to leaf. -/
def ancestors (segs : List String) : List String :=
  (List.range segs.length).map (fun k => dirPath (segs.take (k + 1)))

/-- The `MKCOL` request for a directory. -/
def mkcolRequest {σ : Type} (d : JianguoDriver σ) (dir : String) : Request :=
  d.request "MKCOL" (d.entry ++ dir) none none

/-- The `PUT` request of `UpdateData`. -/
def putRequest {σ : Type} (env : Env σ) (d : JianguoDriver σ) (data : Bytes) (url : String) :
    Request :=
  d.request "PUT" (d.DecodeUrl env (d.entry ++ url)) none (some data)

/-- The request is answered, in every state of the world, with a response whose
status is one of 200, 201, 204 (`good = true`) or none of them (`good = false`). -/
def AnsweredWith {σ : Type} (env : Env σ) (req : Request) (good : Bool) : Prop :=
  ∀ st, ∃ resp,
    (env.roundTrip req st).1 = Except.ok resp ∧ JianguoDriver.uploadOk resp.StatusCode = good

/-- `http.NewRequest` builds the `MKCOL` request for a directory. -/
def MkcolBuilt {σ : Type} (env : Env σ) (d : JianguoDriver σ) (dir : String) : Prop :=
  env.newRequest "MKCOL" (d.entry ++ dir) = none

/-- `http.NewRequest` builds the `PUT` request of `UpdateData`. -/
def PutBuilt {σ : Type} (env : Env σ) (d : JianguoDriver σ) (url : String) : Prop :=
  env.newRequest "PUT" (d.DecodeUrl env (d.entry ++ url)) = none

/-- The response `201 Created`. -/
def created : Response :=
  { StatusCode := 201, Status := "201 Created", ContentType := "", Body := ([], none) }

/-- The response `403 Forbidden`. -/
def forbidden : Response :=
  { StatusCode := 403, Status := "403 Forbidden", ContentType := "", Body := ([], none) }

/-- An environment over the trivial world in which requests are built as
`http.NewRequest` builds them, and which answers every request with 201, except
`MKCOL` requests for one of the URLs `refused`, answered 403. -/
def serverEnv (refused : List String) : Env Unit :=
  { offlineEnv with
    newRequest := httpNewRequest,
    roundTrip := fun req w =>
      if req.method = "MKCOL" ∧ req.url ∈ refused then (Except.ok forbidden, w)
      else (Except.ok created, w) }

/-- The driver of the tests, with credentials. -/
def authedDriver : JianguoDriver Unit := (NewJianguoDriver none).Auth "user" "secret"

/-! ## `RemovePolicy` -/

section RemovePolicyProofs

variable {σ : Type}

theorem padRule_eq (f : List GoString) : padRule f = paddedFields f := by
  unfold padRule paddedFields
  congr 2
  omega

theorem ruleMatches_iff (line : CasbinRule) (ptype : GoString) (f : List GoString) :
    ruleMatches line ptype (padRule f) = true ↔ line = keyRow ptype f := by
  rw [padRule_eq]
  cases line
  simp [ruleMatches, keyRow, and_assoc]

theorem findMatch_none (ptype : GoString) (f : List GoString) :
    ∀ (rows : List CasbinRule) (i : Nat),
      findMatch ptype (padRule f) rows i = none → keyRow ptype f ∉ rows := by
  intro rows
  induction rows with
  | nil => intro i _; simp
  | cons r rest ih =>
    intro i h
    unfold findMatch at h
    by_cases hm : ruleMatches r ptype (padRule f) = true
    · simp [hm] at h
    · simp only [hm] at h
      have hr : r ≠ keyRow ptype f := fun e => hm ((ruleMatches_iff r ptype f).2 e)
      have := ih (i + 1) (by simpa using h)
      simp [this, Ne.symm hr]

theorem findMatch_some (ptype : GoString) (f : List GoString) :
    ∀ (rows : List CasbinRule) (i j : Nat),
      findMatch ptype (padRule f) rows i = some j →
        i ≤ j ∧ rows.take (j - i) ++ rows.drop (j - i + 1) = rows.erase (keyRow ptype f) := by
  intro rows
  induction rows with
  | nil => intro i j h; simp [findMatch] at h
  | cons r rest ih =>
    intro i j h
    unfold findMatch at h
    by_cases hm : ruleMatches r ptype (padRule f) = true
    · simp only [hm, if_true, Option.some.injEq] at h
      subst h
      have hr : r = keyRow ptype f := (ruleMatches_iff r ptype f).1 hm
      simp [hr]
    · simp only [hm] at h
      have hr : r ≠ keyRow ptype f := fun e => hm ((ruleMatches_iff r ptype f).2 e)
      obtain ⟨hle, heq⟩ := ih (i + 1) j (by simpa using h)
      refine ⟨by omega, ?_⟩
      have hj : j - i = (j - (i + 1)) + 1 := by omega
      rw [hj, List.erase_cons_tail (by simpa using hr)]
      simp [heq]

@[simp] theorem saveToBuffer_policy (a : Adapter σ) :
    (saveToBuffer a).2.policy = a.policy := by
  unfold saveToBuffer
  cases a.driver <;> rfl

theorem RemovePolicy_policy (sec ptype : GoString) (f : List GoString) (a : Adapter σ) :
    (RemovePolicy sec ptype f a).2.policy =
      (match a.policy with
        | Slice.null => Slice.null
        | Slice.mk rows => Slice.mk (rows.erase (keyRow ptype f))) := by
  unfold RemovePolicy
  dsimp only
  split
  next j hfm =>
    obtain ⟨_, heq⟩ := findMatch_some ptype f _ _ _ hfm
    cases hp : a.policy with
    | null => rw [hp] at hfm; simp [Slice.toList, findMatch] at hfm
    | mk rows =>
      rw [hp] at heq
      simp only [Slice.toList, Nat.sub_zero] at heq
      simp [Slice.toList, heq]
  next hfm =>
    have hno := findMatch_none ptype f _ _ hfm
    cases hp : a.policy with
    | null => rfl
    | mk rows =>
      rw [hp] at hno
      simp only [Slice.toList] at hno
      simp [List.erase_of_not_mem hno, hp]

theorem erase_first_occurrence (k : CasbinRule) (pre post : List CasbinRule) (h : k ∉ pre) :
    (pre ++ k :: post).erase k = pre ++ post := by
  rw [List.erase_append_right _ h]
  simp

/-- C1. `RemovePolicy` removes from the document the first row equal to
`ptype` with the field list padded to six entries, and nothing else: the
document afterwards is the old one with the first occurrence of that row erased
(a nil document stays nil); written out, if the document is `pre`, the row,
`post`, with no such row in `pre`, it becomes `pre ++ post`; if no row is equal
to it the document is unchanged; and for a list of at most six fields the six
fields of the row compared with are exactly the padded list. -/
theorem RemovePolicy_removes_first_match (sec ptype : GoString) (f : List GoString)
    (a : Adapter σ) :
    (RemovePolicy sec ptype f a).2.policy =
        (match a.policy with
          | Slice.null => Slice.null
          | Slice.mk rows => Slice.mk (rows.erase (keyRow ptype f)))
    ∧ (∀ pre post, a.policy.toList = pre ++ keyRow ptype f :: post →
        keyRow ptype f ∉ pre →
        (RemovePolicy sec ptype f a).2.policy = Slice.mk (pre ++ post))
    ∧ (keyRow ptype f ∉ a.policy.toList →
        (RemovePolicy sec ptype f a).2.policy = a.policy)
    ∧ (f.length ≤ 6 → (keyRow ptype f).fields = paddedFields f)
    ∧ (keyRow ptype f).PType = ptype := by
  refine ⟨RemovePolicy_policy sec ptype f a, ?_, ?_, ?_, rfl⟩
  · intro pre post hdoc hpre
    rw [RemovePolicy_policy]
    cases hp : a.policy with
    | null => rw [hp] at hdoc; simp [Slice.toList] at hdoc
    | mk rows =>
      rw [hp] at hdoc
      simp only [Slice.toList] at hdoc
      simp [hdoc, erase_first_occurrence _ _ _ hpre]
  · intro hno
    rw [RemovePolicy_policy]
    cases hp : a.policy with
    | null => rfl
    | mk rows =>
      rw [hp] at hno
      simp only [Slice.toList] at hno
      simp [List.erase_of_not_mem hno]
  · intro hlen
    have hl : (paddedFields f).length = 6 := by
      unfold paddedFields
      simp
      omega
    generalize hg : paddedFields f = g at hl
    unfold keyRow CasbinRule.fields
    rw [hg]
    match g, hl with
    | [x0, x1, x2, x3, x4, x5], _ => rfl

/-- Witness for C1 on the document `alice, bob, alice`: the first `alice` row goes,
the second stays. -/
theorem RemovePolicy_removes_first_match_witness :
    (RemovePolicy "p" "p" ["alice", "data1", "read"]
        (adapterOf [⟨"p", "alice", "data1", "read", "", "", ""⟩,
                    ⟨"p", "bob", "data2", "write", "", "", ""⟩,
                    ⟨"p", "alice", "data1", "read", "", "", ""⟩])).2.policy
      = Slice.mk [⟨"p", "bob", "data2", "write", "", "", ""⟩,
                  ⟨"p", "alice", "data1", "read", "", "", ""⟩]
    ∧ (keyRow "p" ["alice", "data1", "read"]).fields
      = ["alice", "data1", "read", "", "", ""] :=
  ⟨(RemovePolicy_removes_first_match "p" "p" ["alice", "data1", "read"]
      (adapterOf [⟨"p", "alice", "data1", "read", "", "", ""⟩,
                  ⟨"p", "bob", "data2", "write", "", "", ""⟩,
                  ⟨"p", "alice", "data1", "read", "", "", ""⟩])).2.1 []
      [⟨"p", "bob", "data2", "write", "", "", ""⟩, ⟨"p", "alice", "data1", "read", "", "", ""⟩]
      rfl (by simp),
   (RemovePolicy_removes_first_match (σ := Unit) "p" "p" ["alice", "data1", "read"]
      (adapterOf [])).2.2.2.1 (by decide)⟩

end RemovePolicyProofs

/-! ## `RemoveFilteredPolicy` -/

section RemoveFilteredProofs

variable {σ : Type}

theorem fieldMatched_nat (line : CasbinRule) (n : Nat) (hn : n < 6) (v : GoString) :
    fieldMatched line (n : Int) v = decide (line.fields.getD n "" = v) := by
  interval_cases n <;> simp [fieldMatched, CasbinRule.fields]

theorem matchedFrom_cons (line : CasbinRule) (fieldIndex : Int) (i : Nat) (v : GoString)
    (rest : List GoString) :
    matchedFrom line fieldIndex i (v :: rest) = true ↔
      (v = "" ∨ fieldMatched line (fieldIndex + i) v = true) ∧
        matchedFrom line fieldIndex (i + 1) rest = true := by
  rw [matchedFrom]
  by_cases hv : v = ""
  · simp [hv]
  · by_cases hc : fieldMatched line (fieldIndex + i) v = true
    · simp [hv, hc]
    · simp [hv, hc]

theorem matchedFrom_iff (line : CasbinRule) (k : Nat) :
    ∀ (vs : List GoString) (i : Nat), k + i + vs.length ≤ 6 →
      (matchedFrom line (k : Int) i vs = true ↔
        ∀ j, j < vs.length → vs.getD j "" ≠ "" →
          line.fields.getD (k + i + j) "" = vs.getD j "") := by
  intro vs
  induction vs with
  | nil => intro i _; simp [matchedFrom]
  | cons v rest ih =>
    intro i hlen
    simp only [List.length_cons] at hlen
    have hrec := ih (i + 1) (by omega)
    have hfm : fieldMatched line ((k : Int) + (i : Int)) v = true ↔
        line.fields.getD (k + i) "" = v := by
      have := fieldMatched_nat line (k + i) (by omega) v
      rw [Nat.cast_add] at this
      rw [this, decide_eq_true_eq]
    rw [matchedFrom_cons, hfm, hrec]
    constructor
    · rintro ⟨h0, hr⟩ j hj hne
      cases j with
      | zero =>
        rw [List.getD_cons_zero] at hne ⊢
        rcases h0 with h0 | h0
        · exact absurd h0 hne
        · exact h0
      | succ j =>
        rw [List.getD_cons_succ] at hne ⊢
        have hj2 : j < rest.length := by
          rw [List.length_cons] at hj
          omega
        rw [show k + i + (j + 1) = k + (i + 1) + j by omega]
        exact hr j hj2 hne
    · intro h
      constructor
      · by_cases hv : v = ""
        · exact Or.inl hv
        · right
          have h0 := h 0 (by rw [List.length_cons]; omega)
            (by rw [List.getD_cons_zero]; exact hv)
          rw [List.getD_cons_zero] at h0
          exact h0
      · intro j hj hne
        have h1 := h (j + 1) (by rw [List.length_cons]; omega)
          (by rw [List.getD_cons_succ]; exact hne)
        rw [List.getD_cons_succ, show k + i + (j + 1) = k + (i + 1) + j by omega] at h1
        exact h1

theorem matchedFrom_all_empty (line : CasbinRule) (fieldIndex : Int) :
    ∀ (vs : List GoString) (i : Nat), (∀ v ∈ vs, v = "") →
      matchedFrom line fieldIndex i vs = true := by
  intro vs
  induction vs with
  | nil => intro i _; simp [matchedFrom]
  | cons v rest ih =>
    intro i h
    unfold matchedFrom
    have hv : v = "" := h v (by simp)
    simp only [hv, if_true]
    exact ih (i + 1) (fun x hx => h x (by simp [hx]))

theorem filterLoop_toList (keep : CasbinRule → Bool) :
    ∀ (rows : List CasbinRule) (acc : Slice CasbinRule),
      (rows.foldl (fun acc line => if keep line then acc.push line else acc) acc).toList
        = acc.toList ++ rows.filter keep := by
  intro rows
  induction rows with
  | nil => intro acc; simp
  | cons r rest ih =>
    intro acc
    simp only [List.foldl_cons]
    rw [ih]
    by_cases hk : keep r = true
    · simp [hk, Slice.push, Slice.toList]
    · simp [hk]

theorem RemoveFilteredPolicy_toList (sec ptype : GoString) (fieldIndex : Int)
    (vs : List GoString) (a : Adapter σ) :
    (RemoveFilteredPolicy sec ptype fieldIndex vs a).2.policy.toList
      = a.policy.toList.filter
          (fun r => decide (r.PType ≠ ptype) || !matchedFrom r fieldIndex 0 vs) := by
  unfold RemoveFilteredPolicy
  rw [saveToBuffer_policy]
  have hfun : (fun (acc : Slice CasbinRule) (line : CasbinRule) =>
        if line.PType ≠ ptype then acc.push line
        else if ¬ matchedFrom line fieldIndex 0 vs then acc.push line
        else acc)
      = (fun acc line =>
        if (decide (line.PType ≠ ptype) || !matchedFrom line fieldIndex 0 vs) = true
        then acc.push line else acc) := by
    funext acc line
    by_cases h1 : line.PType = ptype
    · by_cases h2 : matchedFrom line fieldIndex 0 vs = true
      · simp [h1, h2]
      · simp [h1, h2]
    · simp [h1]
  simp only [hfun]
  rw [filterLoop_toList]
  simp [Slice.toList]

/-- C2. For `0 ≤ fieldIndex` and `fieldIndex + len(vs) ≤ 6`, the document after
`RemoveFilteredPolicy` is the old document filtered, in order, to the rows that
are not removed, a row being removed exactly when its policy type is `ptype` and
every non-empty `vs[i]` equals its field at position `fieldIndex + i`; and when
every value is empty (or there is none) exactly the rows of another policy type
remain. -/
theorem RemoveFilteredPolicy_filters (sec ptype : GoString) (fieldIndex : Int)
    (vs : List GoString) (a : Adapter σ)
    (h0 : 0 ≤ fieldIndex) (h6 : fieldIndex + vs.length ≤ 6) :
    (RemoveFilteredPolicy sec ptype fieldIndex vs a).2.policy.toList
        = a.policy.toList.filter (fun r => ¬ filterRemoves ptype fieldIndex.toNat vs r)
    ∧ ((∀ v ∈ vs, v = "") →
        (RemoveFilteredPolicy sec ptype fieldIndex vs a).2.policy.toList
          = a.policy.toList.filter (fun r => r.PType ≠ ptype)) := by
  obtain ⟨k, rfl⟩ := Int.eq_ofNat_of_zero_le h0
  have hk : k + 0 + vs.length ≤ 6 := by omega
  constructor
  · rw [RemoveFilteredPolicy_toList]
    apply List.filter_congr
    intro r _
    have hiff := matchedFrom_iff r k vs 0 hk
    simp only [Nat.add_zero] at hiff
    by_cases h1 : r.PType = ptype
    · by_cases h2 : matchedFrom r (k : Int) 0 vs = true
      · have : filterRemoves ptype k vs r := ⟨h1, hiff.1 h2⟩
        simp [h1, h2, this]
      · have : ¬ filterRemoves ptype k vs r := fun hf => h2 (hiff.2 hf.2)
        simp [h1, h2, this]
    · have : ¬ filterRemoves ptype k vs r := fun hf => h1 hf.1
      simp [h1, this]
  · intro hall
    rw [RemoveFilteredPolicy_toList]
    apply List.filter_congr
    intro r _
    simp [matchedFrom_all_empty r (k : Int) vs 0 hall]

/-- Witness for C2: filtering `(p, index 0, "alice")` on the rows `alice`, `bob`
leaves only the `bob` row. -/
theorem RemoveFilteredPolicy_filters_witness :
    (RemoveFilteredPolicy "p" "p" 0 ["alice"]
        (adapterOf [⟨"p", "alice", "data1", "read", "", "", ""⟩,
                    ⟨"p", "bob", "data2", "write", "", "", ""⟩])).2.policy.toList
      = [⟨"p", "bob", "data2", "write", "", "", ""⟩] := by
  rw [(RemoveFilteredPolicy_filters "p" "p" 0 ["alice"]
      (adapterOf [⟨"p", "alice", "data1", "read", "", "", ""⟩,
                  ⟨"p", "bob", "data2", "write", "", "", ""⟩]) (by decide) (by decide)).1]
  decide

end RemoveFilteredProofs

/-! ## `AddPolicy` -/

section AddPolicyProofs

variable {σ : Type}

theorem savePolicyLine_fields (ptype : GoString) (rule : List GoString) :
    savePolicyLine ptype rule =
      { PType := ptype, V0 := rule.getD 0 "", V1 := rule.getD 1 "", V2 := rule.getD 2 "",
        V3 := rule.getD 3 "", V4 := rule.getD 4 "", V5 := rule.getD 5 "" } := by
  rcases rule with _ | ⟨x0, _ | ⟨x1, _ | ⟨x2, _ | ⟨x3, _ | ⟨x4, _ | ⟨x5, rest⟩⟩⟩⟩⟩⟩ <;>
    simp [savePolicyLine, CasbinRule.zero]

theorem AddPolicy_policy (sec ptype : GoString) (rule : List GoString) (a : Adapter σ) :
    (AddPolicy sec ptype rule a).2.policy
      = Slice.mk (a.policy.toList ++ [savePolicyLine ptype rule]) := by
  unfold AddPolicy
  rw [saveToBuffer_policy]
  rfl

theorem addPolicies_toList (calls : List (GoString × GoString × List GoString)) :
    ∀ (a : Adapter σ),
      (addPolicies calls a).policy.toList
        = a.policy.toList ++ calls.map (fun c => savePolicyLine c.2.1 c.2.2) := by
  induction calls with
  | nil => intro a; simp [addPolicies]
  | cons c rest ih =>
    intro a
    have := ih (AddPolicy c.1 c.2.1 c.2.2 a).2
    simp only [addPolicies, List.foldl_cons] at this ⊢
    rw [this, AddPolicy_policy]
    simp [Slice.toList]

theorem jsonUnmarshal_empty_array : jsonUnmarshal (bytesOf "[]") = Except.ok (Slice.mk []) := by
  rfl

theorem NewAdapter_force_empty_array (driver : Option (IDriver σ)) (url : String) (w : σ) :
    (NewAdapter driver url (bytesOf "[]") true w).policy = Slice.mk [] := by
  unfold NewAdapter
  simp only [if_true]
  rw [saveToBuffer_policy]
  unfold loadFromBuffer
  dsimp only
  rw [jsonUnmarshal_empty_array]
  rfl

/-- C3. After any sequence of `AddPolicy` calls the document is the old
document followed by one new row per call, in call order, so its length grows
by the number of calls, whatever the driver answers; the row added for
`(ptype, fields)` has that policy type and the first six entries of `fields`,
missing ones being empty; each call returns what the driver's `UpdateData`
returned for the encoded new document (success without a driver); and after a
forced construction from the bytes `[]` the two calls of the scenario give
exactly the two rows, both of type `p`. -/
theorem AddPolicy_appends_in_call_order (calls : List (GoString × GoString × List GoString))
    (a : Adapter σ) :
    (addPolicies calls a).policy.toList
        = a.policy.toList ++ calls.map (fun c => savePolicyLine c.2.1 c.2.2)
    ∧ (addPolicies calls a).policy.len = a.policy.len + calls.length
    ∧ (∀ ptype fields,
        savePolicyLine ptype fields =
          { PType := ptype, V0 := fields.getD 0 "", V1 := fields.getD 1 "",
            V2 := fields.getD 2 "", V3 := fields.getD 3 "", V4 := fields.getD 4 "",
            V5 := fields.getD 5 "" })
    ∧ (∀ sec ptype fields,
        (AddPolicy sec ptype fields a).1 =
          match a.driver with
          | some d =>
            (d.UpdateData (jsonMarshal (a.policy.push (savePolicyLine ptype fields)))
              a.dataurl a.world).1
          | none => none)
    ∧ (∀ (driver : Option (IDriver σ)) (url : String) (w : σ),
        (addPolicies
            [("p", "p", ["alice", "data1", "read"]), ("p", "p", ["bob", "data2", "write"])]
            (NewAdapter driver url (bytesOf "[]") true w)).policy
          = Slice.mk [⟨"p", "alice", "data1", "read", "", "", ""⟩,
                      ⟨"p", "bob", "data2", "write", "", "", ""⟩]) := by
  refine ⟨addPolicies_toList calls a, ?_, savePolicyLine_fields, ?_, ?_⟩
  · simp [Slice.len, addPolicies_toList]
  · intro sec ptype fields
    unfold AddPolicy saveToBuffer
    cases a.driver <;> rfl
  · intro driver url w
    simp only [addPolicies, List.foldl_cons, List.foldl_nil]
    rw [AddPolicy_policy, AddPolicy_policy, NewAdapter_force_empty_array]
    rfl

end AddPolicyProofs

/-! ## JSON round trip -/

section JsonProofs

theorem char_valid (c : Char) :
    c.toNat < 0xD800 ∨ (0xDFFF < c.toNat ∧ c.toNat < 0x110000) := c.valid

theorem decodeRune_encodeRune2 (r : Nat) (rest : List Nat) (h1 : 0x80 ≤ r) (h2 : r ≤ 0x7FF) :
    decodeRune (encodeRune r ++ rest) = (r, 2) := by
  have e : encodeRune r = [0xC0 + r / 64, 0x80 + r % 64] := by
    unfold encodeRune
    rw [if_neg (by omega), if_pos h2]
  rw [e]
  simp only [List.cons_append, List.nil_append, decodeRune]
  split_ifs <;> first
    | omega
    | (rw [Prod.mk.injEq]; exact ⟨by omega, rfl⟩)

theorem decodeRune_3 (b0 b1 b2 : Nat) (rest : List Nat)
    (h0 : 0xE0 ≤ b0 ∧ b0 ≤ 0xEF)
    (h1 : 0x80 ≤ b1 ∧ b1 ≤ 0xBF) (hE0 : b0 = 0xE0 → 0xA0 ≤ b1) (hED : b0 = 0xED → b1 ≤ 0x9F)
    (h2 : 0x80 ≤ b2 ∧ b2 ≤ 0xBF) :
    decodeRune (b0 :: b1 :: b2 :: rest) = (b0 % 16 * 4096 + b1 % 64 * 64 + b2 % 64, 3) := by
  have hlo : (if b0 = 224 then 160 else if b0 = 240 then 144 else 128) ≤ b1 := by
    split_ifs with e1 e2
    · exact hE0 e1
    · omega
    · omega
  have hhi : b1 ≤ (if b0 = 237 then 159 else if b0 = 244 then 143 else 191) := by
    split_ifs with e1 e2
    · exact hED e1
    · omega
    · omega
  simp only [decodeRune]
  rw [if_neg (by omega), if_neg (by omega), if_neg (not_or.2 ⟨not_lt.2 hlo, not_lt.2 hhi⟩),
    if_neg (by omega), if_neg (by omega), if_pos (by omega)]

theorem decodeRune_4 (b0 b1 b2 b3 : Nat) (rest : List Nat)
    (h0 : 0xF0 ≤ b0 ∧ b0 ≤ 0xF4)
    (h1 : 0x80 ≤ b1 ∧ b1 ≤ 0xBF) (hF0 : b0 = 0xF0 → 0x90 ≤ b1) (hF4 : b0 = 0xF4 → b1 ≤ 0x8F)
    (h2 : 0x80 ≤ b2 ∧ b2 ≤ 0xBF) (h3 : 0x80 ≤ b3 ∧ b3 ≤ 0xBF) :
    decodeRune (b0 :: b1 :: b2 :: b3 :: rest)
      = (b0 % 8 * 262144 + b1 % 64 * 4096 + b2 % 64 * 64 + b3 % 64, 4) := by
  have hlo : (if b0 = 224 then 160 else if b0 = 240 then 144 else 128) ≤ b1 := by
    split_ifs with e1 e2
    · omega
    · exact hF0 e2
    · omega
  have hhi : b1 ≤ (if b0 = 237 then 159 else if b0 = 244 then 143 else 191) := by
    split_ifs with e1 e2
    · omega
    · exact hF4 e2
    · omega
  simp only [decodeRune]
  rw [if_neg (by omega), if_neg (by omega), if_neg (not_or.2 ⟨not_lt.2 hlo, not_lt.2 hhi⟩),
    if_neg (by omega), if_neg (by omega), if_neg (by omega), if_neg (by omega)]

theorem decodeRune_encodeRune3 (r : Nat) (rest : List Nat) (h1 : 0x800 ≤ r) (h2 : r ≤ 0xFFFF)
    (h3 : ¬ (0xD800 ≤ r ∧ r ≤ 0xDFFF)) :
    decodeRune ([0xE0 + r / 4096, 0x80 + r / 64 % 64, 0x80 + r % 64] ++ rest) = (r, 3) := by
  have h := decodeRune_3 (0xE0 + r / 4096) (0x80 + r / 64 % 64) (0x80 + r % 64) rest
    (by omega) (by omega) (by omega) (by omega) (by omega)
  simp only [List.cons_append, List.nil_append]
  rw [h, Prod.mk.injEq]
  exact ⟨by omega, rfl⟩

theorem decodeRune_encodeRune4 (r : Nat) (rest : List Nat) (h1 : 0x10000 ≤ r)
    (h2 : r ≤ 0x10FFFF) :
    decodeRune ([0xF0 + r / 262144, 0x80 + r / 4096 % 64, 0x80 + r / 64 % 64, 0x80 + r % 64]
      ++ rest) = (r, 4) := by
  have h := decodeRune_4 (0xF0 + r / 262144) (0x80 + r / 4096 % 64) (0x80 + r / 64 % 64)
    (0x80 + r % 64) rest (by omega) (by omega) (by omega) (by omega) (by omega) (by omega)
  simp only [List.cons_append, List.nil_append]
  rw [h, Prod.mk.injEq]
  exact ⟨by omega, rfl⟩

/-- Shape of the encoding of a code point above `0x7F` that is a Unicode scalar
value: a head byte above `0x7F`, at least one more byte, and `decodeRune` reads
the code point back whatever follows. -/
theorem encodeRune_high (c : Char) (h : 0x80 ≤ c.toNat) :
    ∃ b t, encodeRune c.toNat = b :: t ∧ 0x80 ≤ b ∧ t ≠ [] ∧
      ∀ rest, decodeRune (b :: (t ++ rest)) = (c.toNat, t.length + 1) := by
  have hv := char_valid c
  by_cases h2 : c.toNat ≤ 0x7FF
  · refine ⟨0xC0 + c.toNat / 64, [0x80 + c.toNat % 64], ?_, by omega, by simp, ?_⟩
    · unfold encodeRune
      rw [if_neg (by omega), if_pos h2]
    · intro rest
      have hd := decodeRune_encodeRune2 c.toNat rest h h2
      have e : encodeRune c.toNat = [0xC0 + c.toNat / 64, 0x80 + c.toNat % 64] := by
        unfold encodeRune
        rw [if_neg (by omega), if_pos h2]
      rw [e] at hd
      exact hd
  · by_cases h3 : c.toNat ≤ 0xFFFF
    · have e : encodeRune c.toNat
          = [0xE0 + c.toNat / 4096, 0x80 + c.toNat / 64 % 64, 0x80 + c.toNat % 64] := by
        unfold encodeRune
        rw [if_neg (by omega), if_neg (by omega), if_neg (by omega), if_pos h3]
      refine ⟨_, _, e, by omega, by simp, ?_⟩
      intro rest
      exact decodeRune_encodeRune3 c.toNat rest (by omega) h3 (by omega)
    · have e : encodeRune c.toNat
          = [0xF0 + c.toNat / 262144, 0x80 + c.toNat / 4096 % 64, 0x80 + c.toNat / 64 % 64,
              0x80 + c.toNat % 64] := by
        unfold encodeRune
        rw [if_neg (by omega), if_neg (by omega), if_neg (by omega), if_neg (by omega)]
      refine ⟨_, _, e, by omega, by simp, ?_⟩
      intro rest
      exact decodeRune_encodeRune4 c.toNat rest (by omega) (by omega)

theorem encodeRune_low (r : Nat) (h : r < 0x80) : encodeRune r = [r] := by
  unfold encodeRune
  rw [if_pos (by omega)]

theorem hexVal_hex (m : Nat) (h : m < 16) : hexVal (hex m) = some m := by
  interval_cases m <;> rfl

theorem getu4_low (m : Nat) (h : m < 256) :
    getu4 '0'.toNat '0'.toNat (hex (m / 16)) (hex (m % 16)) = some m := by
  have h1 : hexVal (hex (m / 16)) = some (m / 16) := hexVal_hex _ (by omega)
  have h2 : hexVal (hex (m % 16)) = some (m % 16) := hexVal_hex _ (by omega)
  have h0 : hexVal '0'.toNat = some 0 := rfl
  unfold getu4
  rw [h0, h1, h2]
  simp only [Option.some.injEq]
  omega

theorem utf8_cons (c : Char) (cs : List Char) :
    utf8 (c :: cs) = encodeRune c.toNat ++ utf8 cs := by
  simp [utf8]

theorem encodeRune_length_pos (r : Nat) : 1 ≤ (encodeRune r).length := by
  unfold encodeRune
  split_ifs <;> simp

theorem utf8_length (cs : List Char) : cs.length ≤ (utf8 cs).length := by
  induction cs with
  | nil => simp [utf8]
  | cons c cs ih =>
    have := encodeRune_length_pos c.toNat
    rw [utf8_cons, List.length_append, List.length_cons]
    omega

theorem appendStringBody_nil (n : Nat) : appendStringBody n [] = [] := by
  cases n <;> rfl

/-- One character of a valid string through the encoder. -/
theorem appendStringBody_step (c : Char) (cs : List Char) (n : Nat) :
    appendStringBody (n + 1) (utf8 (c :: cs)) = escapeText c ++ appendStringBody n (utf8 cs) := by
  rw [utf8_cons]
  unfold escapeText
  by_cases hlow : c.toNat < 0x80
  · rw [encodeRune_low _ hlow, if_pos hlow, List.singleton_append, appendStringBody,
      if_pos hlow]
  · obtain ⟨b, t, he, hb, ht, hd⟩ := encodeRune_high c (by omega)
    have hnb : ¬ b < 0x80 := by omega
    have hlen : t.length + 1 - 1 = t.length := by omega
    have hsize : ¬ (c.toNat = RuneError ∧ t.length + 1 = 1) := by
      intro h
      have : t.length = 0 := by omega
      exact ht (List.length_eq_zero.1 this)
    rw [if_neg hlow, he, List.cons_append, appendStringBody, if_neg hnb]
    simp only [hd (utf8 cs), hlen, List.drop_left, if_neg hsize]
    by_cases hsep : c.toNat = 0x2028 ∨ c.toNat = 0x2029
    · simp only [if_pos hsep]
    · simp only [if_neg hsep]
      rw [show t.length + 1 = (b :: t).length from rfl, ← List.cons_append, List.take_left]

theorem appendStringBody_utf8 :
    ∀ (cs : List Char) (n : Nat), cs.length ≤ n →
      appendStringBody n (utf8 cs) = cs.flatMap escapeText := by
  intro cs
  induction cs with
  | nil => intro n _; exact appendStringBody_nil n
  | cons c cs ih =>
    intro n hn
    obtain ⟨m, rfl⟩ : ∃ m, n = m + 1 := ⟨n - 1, by simp at hn; omega⟩
    rw [appendStringBody_step, ih m (by simp at hn; omega)]
    simp

/-- One escaped ASCII byte through the decoder. -/
theorem unquoteBody_escapeByte (b : Nat) (hb : b < 0x80) (n : Nat) (rest : List Nat) :
    unquoteBody (n + 1) (escapeByte b ++ rest)
      = (unquoteBody n rest).map (fun p => (b :: p.1, p.2)) := by
  unfold escapeByte
  split_ifs with h1 h2 h3 h4 h5 h6 h7
  · rcases h1 with h1 | h1 <;> subst h1 <;> rfl
  · subst h2; rfl
  · subst h3; rfl
  · subst h4; rfl
  · subst h5; rfl
  · subst h6; rfl
  · have hg : getu4 48 48 (hex (b / 16)) (hex (b % 16)) = some b := getu4_low b (by omega)
    have hs : isSurrogate b = false := by
      simp [isSurrogate]; omega
    have he : encodeRune b = [b] := encodeRune_low b hb
    have hlit : bytesOf "\\u00" = ['\\'.toNat, 'u'.toNat, '0'.toNat, '0'.toNat] := by rfl
    rw [hlit]
    simp only [List.cons_append, List.nil_append, unquoteBody]
    simp [hg, hs, he]
  · have hq : b ≠ 34 := fun e => h1 (Or.inr e)
    have hbs : b ≠ 92 := fun e => h1 (Or.inl e)
    have hc : ¬ b < 32 := fun e => h7 (Or.inl e)
    simp only [List.singleton_append, unquoteBody, Char.reduceToNat, hq, hbs, hc, hb, if_false,
      if_true]
    rfl

/-- One character of a valid string, as the encoder wrote it, through the
decoder. -/
theorem unquoteBody_escapeText (c : Char) (n : Nat) (rest : List Nat) :
    unquoteBody (n + 1) (escapeText c ++ rest)
      = (unquoteBody n rest).map (fun p => (encodeRune c.toNat ++ p.1, p.2)) := by
  unfold escapeText
  by_cases hlow : c.toNat < 0x80
  · rw [if_pos hlow, unquoteBody_escapeByte _ hlow, encodeRune_low _ hlow]
    rfl
  · rw [if_neg hlow]
    by_cases hsep : c.toNat = 0x2028 ∨ c.toNat = 0x2029
    · rw [if_pos hsep]
      rcases hsep with h | h <;> rw [h] <;> rfl
    · rw [if_neg hsep]
      obtain ⟨b, t, he, hb, ht, hd⟩ := encodeRune_high c (by omega)
      have hq : b ≠ 34 := by omega
      have hbs : b ≠ 92 := by omega
      have hc : ¬ b < 32 := by omega
      have hnb : ¬ b < 128 := by omega
      have hlen : t.length + 1 - 1 = t.length := by omega
      rw [he, List.cons_append]
      simp only [unquoteBody, Char.reduceToNat, hq, hbs, hc, hnb, if_false, hd rest, hlen,
        List.drop_left]
      rw [he]

theorem unquoteBody_flatMap_escapeText :
    ∀ (cs : List Char) (n : Nat) (rest : List Nat), cs.length < n →
      unquoteBody n (cs.flatMap escapeText ++ '"'.toNat :: rest) = some (utf8 cs, rest) := by
  intro cs
  induction cs with
  | nil =>
    intro n rest hn
    obtain ⟨m, rfl⟩ : ∃ m, n = m + 1 := ⟨n - 1, by simp at hn; omega⟩
    rfl
  | cons c cs ih =>
    intro n rest hn
    obtain ⟨m, rfl⟩ : ∃ m, n = m + 1 := ⟨n - 1, by simp at hn; omega⟩
    have hs : cs.length < m := by simp at hn; omega
    rw [List.flatMap_cons, List.append_assoc, unquoteBody_escapeText, ih m rest hs, utf8_cons]
    rfl

theorem appendString_of_valid (s : GoString) (cs : List Char) (h : s.bytes = utf8 cs) :
    appendString s = '"'.toNat :: (cs.flatMap escapeText ++ ['"'.toNat]) := by
  unfold appendString
  rw [h, appendStringBody_utf8 cs _ (utf8_length cs)]

theorem parseString_appendString_valid (s : GoString) (hv : ValidUTF8 s) (n : Nat) (rest : List Nat)
    (hn : s.bytes.length < n) :
    parseString n (appendString s ++ rest) = some (s, rest) := by
  obtain ⟨cs, hcs⟩ := hv
  have hlen : cs.length < n := by
    have := utf8_length cs
    rw [← hcs] at this
    omega
  have h := unquoteBody_flatMap_escapeText cs n rest hlen
  rw [appendString_of_valid s cs hcs]
  simp only [List.cons_append, List.append_assoc, List.singleton_append, List.nil_append,
    parseString, if_true]
  rw [h, ← hcs]
  rfl

theorem skipWs_appendString (s : GoString) (rest : List Nat) :
    skipWs (appendString s ++ rest) = appendString s ++ rest := by
  simp [appendString, skipWs, isSpace]

theorem decodeRune_2 (b0 b1 : Nat) (rest : List Nat)
    (h0 : 0xC2 ≤ b0 ∧ b0 ≤ 0xDF) (h1 : 0x80 ≤ b1 ∧ b1 ≤ 0xBF) :
    decodeRune (b0 :: b1 :: rest) = (b0 % 32 * 64 + b1 % 64, 2) := by
  have hlo : (if b0 = 224 then 160 else if b0 = 240 then 144 else 128) ≤ b1 := by
    split_ifs with e1 e2
    · omega
    · omega
    · omega
  have hhi : b1 ≤ (if b0 = 237 then 159 else if b0 = 244 then 143 else 191) := by
    split_ifs with e1 e2
    · omega
    · omega
    · omega
  simp only [decodeRune]
  rw [if_neg (by omega), if_neg (by omega), if_neg (not_or.2 ⟨not_lt.2 hlo, not_lt.2 hhi⟩),
    if_pos (by omega)]

theorem encodeRune_2 (b0 b1 : Nat) (h0 : 0xC2 ≤ b0 ∧ b0 ≤ 0xDF) (h1 : 0x80 ≤ b1 ∧ b1 ≤ 0xBF) :
    encodeRune (b0 % 32 * 64 + b1 % 64) = [b0, b1] := by
  unfold encodeRune
  rw [if_neg (by omega), if_pos (by omega)]
  have e1 : 0xC0 + (b0 % 32 * 64 + b1 % 64) / 64 = b0 := by omega
  have e2 : 0x80 + (b0 % 32 * 64 + b1 % 64) % 64 = b1 := by omega
  rw [e1, e2]

theorem encodeRune_3 (b0 b1 b2 : Nat)
    (h0 : 0xE0 ≤ b0 ∧ b0 ≤ 0xEF)
    (h1 : 0x80 ≤ b1 ∧ b1 ≤ 0xBF) (hE0 : b0 = 0xE0 → 0xA0 ≤ b1) (hED : b0 = 0xED → b1 ≤ 0x9F)
    (h2 : 0x80 ≤ b2 ∧ b2 ≤ 0xBF) :
    encodeRune (b0 % 16 * 4096 + b1 % 64 * 64 + b2 % 64) = [b0, b1, b2] := by
  have hge : 0x800 ≤ b0 % 16 * 4096 + b1 % 64 * 64 + b2 % 64 := by
    by_cases e : b0 = 0xE0
    · have := hE0 e
      omega
    · omega
  have hns : ¬ (0x10FFFF < b0 % 16 * 4096 + b1 % 64 * 64 + b2 % 64 ∨
      (0xD800 ≤ b0 % 16 * 4096 + b1 % 64 * 64 + b2 % 64 ∧
        b0 % 16 * 4096 + b1 % 64 * 64 + b2 % 64 ≤ 0xDFFF)) := by
    by_cases e : b0 = 0xED
    · have := hED e
      omega
    · omega
  unfold encodeRune
  rw [if_neg (by omega), if_neg (by omega), if_neg hns, if_pos (by omega)]
  have e1 : 0xE0 + (b0 % 16 * 4096 + b1 % 64 * 64 + b2 % 64) / 4096 = b0 := by omega
  have e2 : 0x80 + (b0 % 16 * 4096 + b1 % 64 * 64 + b2 % 64) / 64 % 64 = b1 := by omega
  have e3 : 0x80 + (b0 % 16 * 4096 + b1 % 64 * 64 + b2 % 64) % 64 = b2 := by omega
  rw [e1, e2, e3]

theorem encodeRune_4 (b0 b1 b2 b3 : Nat)
    (h0 : 0xF0 ≤ b0 ∧ b0 ≤ 0xF4)
    (h1 : 0x80 ≤ b1 ∧ b1 ≤ 0xBF) (hF0 : b0 = 0xF0 → 0x90 ≤ b1) (hF4 : b0 = 0xF4 → b1 ≤ 0x8F)
    (h2 : 0x80 ≤ b2 ∧ b2 ≤ 0xBF) (h3 : 0x80 ≤ b3 ∧ b3 ≤ 0xBF) :
    encodeRune (b0 % 8 * 262144 + b1 % 64 * 4096 + b2 % 64 * 64 + b3 % 64)
      = [b0, b1, b2, b3] := by
  have hge : 0x10000 ≤ b0 % 8 * 262144 + b1 % 64 * 4096 + b2 % 64 * 64 + b3 % 64 := by
    by_cases e : b0 = 0xF0
    · have := hF0 e
      omega
    · omega
  have hle : b0 % 8 * 262144 + b1 % 64 * 4096 + b2 % 64 * 64 + b3 % 64 ≤ 0x10FFFF := by
    by_cases e : b0 = 0xF4
    · have := hF4 e
      omega
    · omega
  unfold encodeRune
  rw [if_neg (by omega), if_neg (by omega), if_neg (by omega), if_neg (by omega)]
  have e1 : 0xF0 + (b0 % 8 * 262144 + b1 % 64 * 4096 + b2 % 64 * 64 + b3 % 64) / 262144 = b0 := by
    omega
  have e2 : 0x80 + (b0 % 8 * 262144 + b1 % 64 * 4096 + b2 % 64 * 64 + b3 % 64) / 4096 % 64
      = b1 := by omega
  have e3 : 0x80 + (b0 % 8 * 262144 + b1 % 64 * 4096 + b2 % 64 * 64 + b3 % 64) / 64 % 64
      = b2 := by omega
  have e4 : 0x80 + (b0 % 8 * 262144 + b1 % 64 * 4096 + b2 % 64 * 64 + b3 % 64) % 64 = b3 := by
    omega
  rw [e1, e2, e3, e4]

/-- What `decodeRune` finds at a byte above `0x7F`: no valid encoding, or an
encoding of two to four bytes that `encodeRune` writes back. -/
theorem decodeRune_shape (b0 : Nat) (t : List Nat) (hb : 0x80 ≤ b0) :
    decodeRune (b0 :: t) = (RuneError, 1) ∨
    ∃ enc t1 c, b0 :: t = enc ++ t1 ∧ 2 ≤ enc.length ∧ encodeRune c = enc ∧ 0x80 ≤ c ∧
      ∀ more, decodeRune (enc ++ more) = (c, enc.length) := by
  by_cases hr : b0 < 0xC2 ∨ 0xF4 < b0
  · left
    simp only [decodeRune]
    rw [if_neg (by omega), if_pos hr]
  cases t with
  | nil =>
    left
    simp only [decodeRune]
    rw [if_neg (by omega), if_neg hr]
  | cons b1 t1 =>
    by_cases hr1 : b1 < (if b0 = 0xE0 then 0xA0 else if b0 = 0xF0 then 0x90 else 0x80) ∨
        (if b0 = 0xED then 0x9F else if b0 = 0xF4 then 0x8F else 0xBF) < b1
    · left
      simp only [decodeRune]
      rw [if_neg (by omega), if_neg hr, if_pos hr1]
    have h1 : 0x80 ≤ b1 ∧ b1 ≤ 0xBF := by
      constructor
      · by_contra hc
        apply hr1
        left
        split_ifs <;> omega
      · by_contra hc
        apply hr1
        right
        split_ifs <;> omega
    have hE0 : b0 = 0xE0 → 0xA0 ≤ b1 := by
      intro e
      by_contra hc
      apply hr1
      left
      rw [if_pos e]
      omega
    have hF0 : b0 = 0xF0 → 0x90 ≤ b1 := by
      intro e
      by_contra hc
      apply hr1
      left
      rw [if_neg (by omega), if_pos e]
      omega
    have hED : b0 = 0xED → b1 ≤ 0x9F := by
      intro e
      by_contra hc
      apply hr1
      right
      rw [if_pos e]
      omega
    have hF4 : b0 = 0xF4 → b1 ≤ 0x8F := by
      intro e
      by_contra hc
      apply hr1
      right
      rw [if_neg (by omega), if_pos e]
      omega
    by_cases h2b : b0 < 0xE0
    · right
      refine ⟨[b0, b1], t1, b0 % 32 * 64 + b1 % 64, rfl, by simp,
        encodeRune_2 b0 b1 (by omega) h1, by omega, ?_⟩
      intro more
      exact decodeRune_2 b0 b1 more (by omega) h1
    cases t1 with
    | nil =>
      left
      simp only [decodeRune]
      rw [if_neg (by omega), if_neg hr, if_neg hr1, if_neg h2b]
    | cons b2 t2 =>
      by_cases hr2 : b2 < 0x80 ∨ 0xBF < b2
      · left
        simp only [decodeRune]
        rw [if_neg (by omega), if_neg hr, if_neg hr1, if_neg h2b, if_pos hr2]
      by_cases h3b : b0 < 0xF0
      · right
        refine ⟨[b0, b1, b2], t2, b0 % 16 * 4096 + b1 % 64 * 64 + b2 % 64, rfl, by simp,
          encodeRune_3 b0 b1 b2 (by omega) h1 hE0 hED (by omega), ?_, ?_⟩
        · by_cases e : b0 = 0xE0
          · have := hE0 e
            omega
          · omega
        · intro more
          exact decodeRune_3 b0 b1 b2 more (by omega) h1 hE0 hED (by omega)
      cases t2 with
      | nil =>
        left
        simp only [decodeRune]
        rw [if_neg (by omega), if_neg hr, if_neg hr1, if_neg h2b, if_neg hr2, if_neg h3b]
      | cons b3 t3 =>
        by_cases hr3 : b3 < 0x80 ∨ 0xBF < b3
        · left
          simp only [decodeRune]
          rw [if_neg (by omega), if_neg hr, if_neg hr1, if_neg h2b, if_neg hr2, if_neg h3b,
            if_pos hr3]
        right
        refine ⟨[b0, b1, b2, b3], t3,
          b0 % 8 * 262144 + b1 % 64 * 4096 + b2 % 64 * 64 + b3 % 64, rfl, by simp,
          encodeRune_4 b0 b1 b2 b3 (by omega) h1 hF0 hF4 (by omega) (by omega), ?_, ?_⟩
        · by_cases e : b0 = 0xF0
          · have := hF0 e
            omega
          · omega
        · intro more
          exact decodeRune_4 b0 b1 b2 b3 more (by omega) h1 hF0 hF4 (by omega) (by omega)

theorem decodeRune_low (b : Nat) (t : List Nat) (h : b < 0x80) :
    decodeRune (b :: t) = (b, 1) := by
  simp only [decodeRune]
  rw [if_pos h]

/-- The escape of `U+FFFD` through the decoder. -/
theorem unquoteBody_ufffd (n : Nat) (rest : List Nat) :
    unquoteBody (n + 1) (bytesOf "\\ufffd" ++ rest)
      = (unquoteBody n rest).map (fun p => ([0xEF, 0xBF, 0xBD] ++ p.1, p.2)) := by
  rfl

/-- The escapes of `U+2028` and `U+2029` through the decoder. -/
theorem unquoteBody_u202x (c : Nat) (hc : c = 0x2028 ∨ c = 0x2029) (n : Nat) (rest : List Nat) :
    unquoteBody (n + 1) (bytesOf "\\u202" ++ [hex (c % 16)] ++ rest)
      = (unquoteBody n rest).map (fun p => (encodeRune c ++ p.1, p.2)) := by
  rcases hc with h | h <;> rw [h] <;> rfl

/-- A copied encoding through the decoder. -/
theorem unquoteBody_enc (enc : List Nat) (c : Nat) (b : Nat) (e1 : List Nat)
    (he : enc = b :: e1) (hb : 0x80 ≤ b)
    (hd : ∀ more, decodeRune (enc ++ more) = (c, enc.length)) (n : Nat) (rest : List Nat) :
    unquoteBody (n + 1) (enc ++ rest)
      = (unquoteBody n rest).map (fun p => (encodeRune c ++ p.1, p.2)) := by
  subst he
  have hq : b ≠ 34 := by omega
  have hbs : b ≠ 92 := by omega
  have hc : ¬ b < 32 := by omega
  have hnb : ¬ b < 128 := by omega
  have hd2 : decodeRune (b :: (e1 ++ rest)) = (c, e1.length + 1) := hd rest
  have hlen : e1.length + 1 - 1 = e1.length := by omega
  rw [List.cons_append]
  simp only [unquoteBody, Char.reduceToNat, hq, hbs, hc, hnb, if_false, hd2, hlen,
    List.drop_left]

theorem escapeByte_ne_nil (b : Nat) : 1 ≤ (escapeByte b).length := by
  unfold escapeByte
  split_ifs <;> simp [bytesOf, utf8, encodeRune]

theorem unquoteBody_quote (m : Nat) (rest : List Nat) (hm : 0 < m) :
    unquoteBody m ('"'.toNat :: rest) = some ([], rest) := by
  obtain ⟨k, rfl⟩ : ∃ k, m = k + 1 := ⟨m - 1, by omega⟩
  rfl

/-- The decoder on the body the encoder writes for any bytes: it succeeds, and
gives the bytes with every invalid byte replaced by `U+FFFD`. -/
theorem unquoteBody_appendStringBody :
    ∀ (n : Nat) (bs : List Nat) (m : Nat) (rest : List Nat),
      (appendStringBody n bs).length < m →
      unquoteBody m (appendStringBody n bs ++ '"'.toNat :: rest)
        = some (coerceUTF8 n bs, rest) := by
  intro n
  induction n with
  | zero =>
    intro bs m rest hm
    rw [appendStringBody, coerceUTF8, List.nil_append]
    exact unquoteBody_quote m rest (by omega)
  | succ n ih =>
    intro bs m rest hm
    cases bs with
    | nil =>
      rw [appendStringBody, coerceUTF8, List.nil_append]
      exact unquoteBody_quote m rest (by omega)
    | cons b t =>
      obtain ⟨k, rfl⟩ : ∃ k, m = k + 1 := ⟨m - 1, by omega⟩
      by_cases hlow : b < 0x80
      · have henc : appendStringBody (n + 1) (b :: t) = escapeByte b ++ appendStringBody n t := by
          rw [appendStringBody, if_pos hlow]
        have hco : coerceUTF8 (n + 1) (b :: t) = b :: coerceUTF8 n t := by
          have hne : ¬ (b = RuneError ∧ True) := by
            unfold RuneError
            omega
          simp only [coerceUTF8, decodeRune_low b t hlow, if_neg hne]
          rfl
        have hl := escapeByte_ne_nil b
        rw [henc, List.length_append] at hm
        rw [henc, hco, List.append_assoc, unquoteBody_escapeByte b hlow,
          ih t k rest (by omega)]
        rfl
      · rcases decodeRune_shape b t (by omega) with hd | ⟨enc, t1, c, hsplit, hlen2, hencode, hc80, hd⟩
        · have henc : appendStringBody (n + 1) (b :: t)
              = bytesOf "\\ufffd" ++ appendStringBody n t := by
            rw [appendStringBody, if_neg hlow]
            simp only [hd, and_self, if_true]
          have hco : coerceUTF8 (n + 1) (b :: t) = [0xEF, 0xBF, 0xBD] ++ coerceUTF8 n t := by
            simp only [coerceUTF8, hd, and_self, if_true]
          have hl : (bytesOf "\\ufffd").length = 6 := by rfl
          rw [henc, List.length_append, hl] at hm
          rw [henc, hco, List.append_assoc, unquoteBody_ufffd, ih t k rest (by omega)]
          rfl
        · obtain ⟨e1, he1⟩ : ∃ e1, enc = b :: e1 := by
            cases enc with
            | nil => simp at hlen2
            | cons x e1 =>
              rw [List.cons_append] at hsplit
              exact ⟨e1, by rw [(List.cons.inj hsplit).1]⟩
          have ht : t = e1 ++ t1 := by
            rw [he1, List.cons_append] at hsplit
            exact (List.cons.inj hsplit).2
          have hdec : decodeRune (b :: t) = (c, e1.length + 1) := by
            rw [hsplit, hd t1, he1]
            rfl
          have hsz : ¬ (c = RuneError ∧ e1.length + 1 = 1) := by
            rw [he1] at hlen2
            simp only [List.length_cons] at hlen2
            omega
          have hdrop : List.drop (e1.length + 1 - 1) t = t1 := by
            rw [ht, show e1.length + 1 - 1 = e1.length by omega, List.drop_left]
          have htake : List.take (e1.length + 1) (b :: t) = enc := by
            rw [ht, he1, ← List.cons_append, show e1.length + 1 = (b :: e1).length from rfl,
              List.take_left]
          have hco : coerceUTF8 (n + 1) (b :: t) = enc ++ coerceUTF8 n t1 := by
            simp only [coerceUTF8, hdec, if_neg hsz, hdrop, htake]
          by_cases hsep : c = 0x2028 ∨ c = 0x2029
          · have henc : appendStringBody (n + 1) (b :: t)
                = bytesOf "\\u202" ++ [hex (c % 16)] ++ appendStringBody n t1 := by
              rw [appendStringBody, if_neg hlow]
              simp only [hdec, if_neg hsz, if_pos hsep, hdrop]
            have hl : (bytesOf "\\u202" ++ [hex (c % 16)]).length = 6 := by rfl
            rw [henc, List.length_append, hl] at hm
            rw [henc, hco, List.append_assoc, unquoteBody_u202x c hsep, ih t1 k rest (by omega),
              hencode]
            rfl
          · have henc : appendStringBody (n + 1) (b :: t) = enc ++ appendStringBody n t1 := by
              rw [appendStringBody, if_neg hlow]
              simp only [hdec, if_neg hsz, if_neg hsep, hdrop, htake]
            rw [henc, List.length_append] at hm
            rw [henc, hco, List.append_assoc, unquoteBody_enc enc c b e1 he1 (by omega) hd,
              ih t1 k rest (by omega), hencode]
            rfl

theorem parseString_appendString (s : GoString) (n : Nat) (rest : List Nat)
    (hn : (appendString s).length ≤ n) :
    parseString n (appendString s ++ rest) = some (toValidUTF8 s, rest) := by
  have hlen : (appendStringBody s.bytes.length s.bytes).length < n := by
    simp only [appendString, List.length_cons, List.length_append, List.length_nil] at hn
    omega
  have h := unquoteBody_appendStringBody s.bytes.length s.bytes n rest hlen
  simp only [appendString, List.cons_append, List.append_assoc, List.singleton_append,
    List.nil_append, parseString, if_true]
  rw [h]
  rfl

theorem parseFieldValue_appendString (s : GoString) (n : Nat) (rest : List Nat)
    (hn : (appendString s).length ≤ n) :
    parseFieldValue n (appendString s ++ rest) = some (some (toValidUTF8 s), rest) := by
  have hlen : (appendStringBody s.bytes.length s.bytes).length < n := by
    simp only [appendString, List.length_cons, List.length_append, List.length_nil] at hn
    omega
  have h := unquoteBody_appendStringBody s.bytes.length s.bytes n rest hlen
  simp only [appendString, List.cons_append, List.append_assoc, List.singleton_append,
    List.nil_append, parseFieldValue, if_true]
  rw [h]
  rfl

/-- A valid string is left as it is. -/
theorem toValidUTF8_of_valid (s : GoString) (hv : ValidUTF8 s) : toValidUTF8 s = s := by
  have h1 := parseString_appendString_valid s hv
    (s.bytes.length + (appendString s).length + 1) [] (by omega)
  have h2 := parseString_appendString s
    (s.bytes.length + (appendString s).length + 1) [] (by omega)
  rw [h1] at h2
  exact ((Prod.mk.inj (Option.some.inj h2)).1).symm

theorem toValid_of_validRow (r : CasbinRule) (hv : ValidRow r) : r.toValid = r := by
  obtain ⟨h0, h1, h2, h3, h4, h5, h6⟩ := hv
  cases r
  simp only [CasbinRule.toValid] at *
  rw [toValidUTF8_of_valid _ h0, toValidUTF8_of_valid _ h1, toValidUTF8_of_valid _ h2,
    toValidUTF8_of_valid _ h3, toValidUTF8_of_valid _ h4, toValidUTF8_of_valid _ h5,
    toValidUTF8_of_valid _ h6]

/-- One member followed by a comma: the field is assigned and the scan goes on. -/
theorem parseMembers_comma (n : Nat) (r : CasbinRule) (key val : GoString) (i : Nat)
    (tail : List Nat) (hkv : toValidUTF8 key = key) (hk : (appendString key).length ≤ n + 1)
    (hv : (appendString val).length ≤ n + 1)
    (hf : fieldOf key = some i) (ht : skipWs tail = tail) :
    parseMembers (n + 1) r
        (appendString key ++ ':'.toNat :: (appendString val ++ ','.toNat :: tail))
      = parseMembers n (r.set i (toValidUTF8 val)) tail := by
  rw [parseMembers, parseString_appendString key (n + 1) _ hk, hkv]
  simp only [skipWs, isSpace, expect]
  simp only [Char.reduceToNat, Nat.reduceEqDiff, decide_False, Bool.or_self,
    Bool.false_eq_true, if_false, if_true]
  rw [skipWs_appendString, parseFieldValue_appendString val (n + 1) _ hv]
  simp [hf, skipWs, isSpace, ht]

/-- The last member, followed by the closing brace. -/
theorem parseMembers_close (n : Nat) (r : CasbinRule) (key val : GoString) (i : Nat)
    (tail : List Nat) (hkv : toValidUTF8 key = key) (hk : (appendString key).length ≤ n + 1)
    (hv : (appendString val).length ≤ n + 1)
    (hf : fieldOf key = some i) :
    parseMembers (n + 1) r
        (appendString key ++ ':'.toNat :: (appendString val ++ '\x7d'.toNat :: tail))
      = some (r.set i (toValidUTF8 val), tail) := by
  rw [parseMembers, parseString_appendString key (n + 1) _ hk, hkv]
  simp only [skipWs, isSpace, expect]
  simp only [Char.reduceToNat, Nat.reduceEqDiff, decide_False, Bool.or_self,
    Bool.false_eq_true, if_false, if_true]
  rw [skipWs_appendString, parseFieldValue_appendString val (n + 1) _ hv]
  simp [hf, skipWs, isSpace]

theorem parseMembers_comma_pred (n : Nat) (r : CasbinRule) (key val : GoString) (i : Nat)
    (tail : List Nat) (hkv : toValidUTF8 key = key) (hk : (appendString key).length ≤ n)
    (hv : (appendString val).length ≤ n) (h0 : 0 < n)
    (hf : fieldOf key = some i) (ht : skipWs tail = tail) :
    parseMembers n r (appendString key ++ ':'.toNat :: (appendString val ++ ','.toNat :: tail))
      = parseMembers (n - 1) (r.set i (toValidUTF8 val)) tail := by
  obtain ⟨m, rfl⟩ : ∃ m, n = m + 1 := ⟨n - 1, by omega⟩
  exact parseMembers_comma m r key val i tail hkv hk hv hf ht

theorem parseMembers_close_pred (n : Nat) (r : CasbinRule) (key val : GoString) (i : Nat)
    (tail : List Nat) (hkv : toValidUTF8 key = key) (hk : (appendString key).length ≤ n)
    (hv : (appendString val).length ≤ n) (h0 : 0 < n)
    (hf : fieldOf key = some i) :
    parseMembers n r
        (appendString key ++ ':'.toNat :: (appendString val ++ '\x7d'.toNat :: tail))
      = some (r.set i (toValidUTF8 val), tail) := by
  obtain ⟨m, rfl⟩ : ∃ m, n = m + 1 := ⟨n - 1, by omega⟩
  exact parseMembers_close m r key val i tail hkv hk hv hf

theorem marshalRule_append (r : CasbinRule) (rest : List Nat) :
    marshalRule r ++ rest =
      '\x7b'.toNat :: (appendString "PType" ++ ':'.toNat :: (appendString r.PType ++ ','.toNat ::
        (appendString "V0" ++ ':'.toNat :: (appendString r.V0 ++ ','.toNat ::
        (appendString "V1" ++ ':'.toNat :: (appendString r.V1 ++ ','.toNat ::
        (appendString "V2" ++ ':'.toNat :: (appendString r.V2 ++ ','.toNat ::
        (appendString "V3" ++ ':'.toNat :: (appendString r.V3 ++ ','.toNat ::
        (appendString "V4" ++ ':'.toNat :: (appendString r.V4 ++ ','.toNat ::
        (appendString "V5" ++ ':'.toNat ::
          (appendString r.V5 ++ '\x7d'.toNat :: rest)))))))))))))) := by
  have k0 : bytesOf "\x7b\"PType\":" = '\x7b'.toNat :: (appendString "PType" ++ [':'.toNat]) := by
    rfl
  have k1 : bytesOf ",\"V0\":" = ','.toNat :: (appendString "V0" ++ [':'.toNat]) := by rfl
  have k2 : bytesOf ",\"V1\":" = ','.toNat :: (appendString "V1" ++ [':'.toNat]) := by rfl
  have k3 : bytesOf ",\"V2\":" = ','.toNat :: (appendString "V2" ++ [':'.toNat]) := by rfl
  have k4 : bytesOf ",\"V3\":" = ','.toNat :: (appendString "V3" ++ [':'.toNat]) := by rfl
  have k5 : bytesOf ",\"V4\":" = ','.toNat :: (appendString "V4" ++ [':'.toNat]) := by rfl
  have k6 : bytesOf ",\"V5\":" = ','.toNat :: (appendString "V5" ++ [':'.toNat]) := by rfl
  have k7 : bytesOf "\x7d" = ['\x7d'.toNat] := by rfl
  unfold marshalRule
  rw [k0, k1, k2, k3, k4, k5, k6, k7]
  simp only [List.append_assoc, List.cons_append, List.nil_append]

theorem parseElem_object (n : Nat) (key : GoString) (tail : List Nat) :
    parseElem n ('\x7b'.toNat :: (appendString key ++ tail))
      = parseMembers n CasbinRule.zero (appendString key ++ tail) := by
  simp [parseElem, appendString, skipWs, isSpace]

theorem marshalRule_length (r : CasbinRule) :
    (marshalRule r).length =
      (appendString r.PType).length + (appendString r.V0).length + (appendString r.V1).length
        + (appendString r.V2).length + (appendString r.V3).length + (appendString r.V4).length
        + (appendString r.V5).length + 46 := by
  have h := congrArg List.length (marshalRule_append r [])
  have kp : (appendString "PType").length = 7 := by rfl
  have k0 : (appendString "V0").length = 4 := by rfl
  have k1 : (appendString "V1").length = 4 := by rfl
  have k2 : (appendString "V2").length = 4 := by rfl
  have k3 : (appendString "V3").length = 4 := by rfl
  have k4 : (appendString "V4").length = 4 := by rfl
  have k5 : (appendString "V5").length = 4 := by rfl
  simp only [List.append_nil, List.length_cons, List.length_append, List.length_nil] at h
  omega

/-- One encoded row is decoded to that row with its invalid bytes replaced,
whatever follows it. -/
theorem parseElem_marshalRule (r : CasbinRule) (n : Nat) (rest : List Nat)
    (hn : (marshalRule r).length ≤ n) :
    parseElem n (marshalRule r ++ rest) = some (r.toValid, rest) := by
  have hlen := marshalRule_length r
  have kp : (appendString "PType").length = 7 := by rfl
  have k0 : (appendString "V0").length = 4 := by rfl
  have k1 : (appendString "V1").length = 4 := by rfl
  have k2 : (appendString "V2").length = 4 := by rfl
  have k3 : (appendString "V3").length = 4 := by rfl
  have k4 : (appendString "V4").length = 4 := by rfl
  have k5 : (appendString "V5").length = 4 := by rfl
  rw [marshalRule_append, parseElem_object]
  rw [parseMembers_comma_pred n _ "PType" r.PType 0 _ (by rfl) (by omega) (by omega) (by omega)
    (by rfl) (skipWs_appendString _ _)]
  rw [parseMembers_comma_pred (n - 1) _ "V0" r.V0 1 _ (by rfl) (by omega) (by omega) (by omega)
    (by rfl) (skipWs_appendString _ _)]
  rw [parseMembers_comma_pred (n - 1 - 1) _ "V1" r.V1 2 _ (by rfl) (by omega) (by omega)
    (by omega) (by rfl) (skipWs_appendString _ _)]
  rw [parseMembers_comma_pred (n - 1 - 1 - 1) _ "V2" r.V2 3 _ (by rfl) (by omega) (by omega)
    (by omega) (by rfl) (skipWs_appendString _ _)]
  rw [parseMembers_comma_pred (n - 1 - 1 - 1 - 1) _ "V3" r.V3 4 _ (by rfl) (by omega)
    (by omega) (by omega) (by rfl) (skipWs_appendString _ _)]
  rw [parseMembers_comma_pred (n - 1 - 1 - 1 - 1 - 1) _ "V4" r.V4 5 _ (by rfl) (by omega)
    (by omega) (by omega) (by rfl) (skipWs_appendString _ _)]
  rw [parseMembers_close_pred (n - 1 - 1 - 1 - 1 - 1 - 1) _ "V5" r.V5 6 _ (by rfl) (by omega)
    (by omega) (by omega) (by rfl)]
  cases r
  rfl

theorem skipWs_marshalRule (r : CasbinRule) (rest : List Nat) :
    skipWs (marshalRule r ++ rest) = marshalRule r ++ rest := by
  rw [marshalRule_append]
  simp [skipWs, isSpace]

theorem skipWs_marshalRows_cons (r : CasbinRule) (rs : List CasbinRule) (rest : List Nat) :
    skipWs (marshalRows (r :: rs) ++ rest) = marshalRows (r :: rs) ++ rest := by
  cases rs with
  | nil => exact skipWs_marshalRule r rest
  | cons r2 rs =>
    simp only [marshalRows, List.append_assoc]
    exact skipWs_marshalRule r _

theorem marshalRows_cons_head (r : CasbinRule) (rs : List CasbinRule) (rest : List Nat) :
    ∃ t, marshalRows (r :: rs) ++ rest = '\x7b'.toNat :: t := by
  cases rs with
  | nil => exact ⟨_, marshalRule_append r rest⟩
  | cons r2 rs =>
    simp only [marshalRows, List.append_assoc, List.cons_append]
    rw [marshalRule_append]
    exact ⟨_, rfl⟩

/-- The encoded rows of a non-empty array are decoded to those rows, invalid
bytes replaced. -/
theorem parseElems_marshalRows :
    ∀ (rs : List CasbinRule) (r : CasbinRule) (n : Nat) (rest : List Nat),
      (marshalRows (r :: rs)).length < n →
      parseElems n (marshalRows (r :: rs) ++ ']'.toNat :: rest)
        = some ((r :: rs).map CasbinRule.toValid, rest) := by
  intro rs
  induction rs with
  | nil =>
    intro r n rest hn
    obtain ⟨m, rfl⟩ : ∃ m, n = m + 1 := ⟨n - 1, by omega⟩
    simp only [marshalRows] at hn ⊢
    rw [parseElems, parseElem_marshalRule r (m + 1) _ (by omega)]
    simp [skipWs, isSpace]
  | cons r2 rs ih =>
    intro r n rest hn
    obtain ⟨m, rfl⟩ : ∃ m, n = m + 1 := ⟨n - 1, by omega⟩
    have hlen : (marshalRows (r :: r2 :: rs)).length
        = (marshalRule r).length + 1 + (marshalRows (r2 :: rs)).length := by
      simp only [marshalRows, List.length_append, List.length_cons]
      omega
    have hshape : marshalRows (r :: r2 :: rs) ++ ']'.toNat :: rest
        = marshalRule r ++ (','.toNat :: (marshalRows (r2 :: rs) ++ ']'.toNat :: rest)) := by
      simp only [marshalRows, List.append_assoc, List.cons_append]
    rw [hshape, parseElems, parseElem_marshalRule r (m + 1) _ (by omega)]
    simp only [skipWs, isSpace]
    simp only [Char.reduceToNat, Nat.reduceEqDiff, decide_False, Bool.or_self,
      Bool.false_eq_true, if_false, if_true]
    have ih2 := ih r2 m rest (by omega)
    simp only [Char.reduceToNat] at ih2
    rw [skipWs_marshalRows_cons, ih2]
    rfl

theorem jsonUnmarshal_null : jsonUnmarshal (jsonMarshal Slice.null) = Except.ok Slice.null := by
  rfl

/-- Decoding what was encoded never fails, and gives the document with the
invalid bytes of its fields replaced by `U+FFFD`. -/
theorem jsonUnmarshal_jsonMarshal (D : Slice CasbinRule) :
    jsonUnmarshal (jsonMarshal D) = Except.ok (coerceDocument D) := by
  cases D with
  | null => exact jsonUnmarshal_null
  | mk rows =>
    cases rows with
    | nil => rfl
    | cons r rs =>
      have h := parseElems_marshalRows rs r
        (2 * (jsonMarshal (Slice.mk (r :: rs))).length + 8) []
        (by simp only [jsonMarshal, List.length_cons, List.length_append, List.length_nil]
            omega)
      have hsk := skipWs_marshalRows_cons r rs [']'.toNat]
      have hne : ∃ d t, marshalRows (r :: rs) ++ [']'.toNat] = d :: t ∧ d ≠ ']'.toNat := by
        obtain ⟨t, ht⟩ := marshalRows_cons_head r rs [']'.toNat]
        exact ⟨'\x7b'.toNat, t, ht, by decide⟩
      obtain ⟨d, t, hdt, hd⟩ := hne
      unfold jsonUnmarshal
      simp only [jsonMarshal, skipWs, isSpace]
      simp only [Char.reduceToNat, Nat.reduceEqDiff, decide_False, Bool.or_self,
        Bool.false_eq_true, if_false, if_true]
      simp only [jsonMarshal] at h
      simp only [Char.reduceToNat] at hsk h hdt hd
      rw [hsk]
      rw [hdt] at h ⊢
      simp only [hd, if_false]
      rw [h]
      simp [skipWs, coerceDocument]

/-- A document whose rows hold valid UTF-8 only. -/
theorem coerceDocument_of_valid (D : Slice CasbinRule) (hv : ∀ r ∈ D.toList, ValidRow r) :
    coerceDocument D = D := by
  cases D with
  | null => rfl
  | mk rows =>
    simp only [coerceDocument, Slice.mk.injEq]
    simp only [Slice.toList] at hv
    calc rows.map CasbinRule.toValid = rows.map id :=
          List.map_congr_left (fun r hr => toValid_of_validRow r (hv r hr))
      _ = rows := List.map_id rows

theorem jsonUnmarshal_jsonMarshal_valid (D : Slice CasbinRule)
    (hv : ∀ r ∈ D.toList, ValidRow r) :
    jsonUnmarshal (jsonMarshal D) = Except.ok D := by
  rw [jsonUnmarshal_jsonMarshal, coerceDocument_of_valid D hv]

@[simp] theorem saveToBuffer_source {σ : Type} (a : Adapter σ) :
    (saveToBuffer a).2.source = jsonMarshal a.policy := by
  unfold saveToBuffer
  cases a.driver <;> rfl

theorem loadFromBuffer_of_decoded {σ : Type} (a : Adapter σ) (D : Slice CasbinRule)
    (h : jsonUnmarshal a.source = Except.ok D) :
    loadFromBuffer a = (none, if a.source.length = 0 then a else { a with policy := D }) := by
  unfold loadFromBuffer
  by_cases h0 : a.source.length = 0
  · simp [h0]
  · simp [h0, h]

theorem jsonMarshal_ne_nil (D : Slice CasbinRule) : (jsonMarshal D).length ≠ 0 := by
  cases D with
  | null => exact (by decide : (bytesOf "null").length ≠ 0)
  | mk rows => simp [jsonMarshal]

theorem validUTF8_ofString (s : String) : ValidUTF8 (GoString.ofString s) := ⟨s.data, rfl⟩

theorem validRows_alice :
    ∀ r ∈ (Slice.mk [(⟨"p", "alice", "data1", "read", "", "", ""⟩ : CasbinRule)]).toList,
      ValidRow r := by
  intro r hr
  simp only [Slice.toList, List.mem_singleton] at hr
  subst hr
  exact ⟨validUTF8_ofString _, validUTF8_ofString _, validUTF8_ofString _, validUTF8_ofString _,
    validUTF8_ofString _, validUTF8_ofString _, validUTF8_ofString _⟩

theorem coerceDocument_len (D : Slice CasbinRule) : (coerceDocument D).len = D.len := by
  cases D with
  | null => rfl
  | mk rows => simp [coerceDocument, Slice.len, Slice.toList]

theorem loadFromBuffer_saveToBuffer {σ : Type} (a : Adapter σ) :
    (loadFromBuffer (saveToBuffer a).2).1 = none
    ∧ (loadFromBuffer (saveToBuffer a).2).2.policy = coerceDocument a.policy := by
  have hd : jsonUnmarshal (saveToBuffer a).2.source = Except.ok (coerceDocument a.policy) := by
    rw [saveToBuffer_source]
    exact jsonUnmarshal_jsonMarshal _
  have h0 : (saveToBuffer a).2.source.length ≠ 0 := by
    rw [saveToBuffer_source]
    exact jsonMarshal_ne_nil _
  rw [loadFromBuffer_of_decoded _ _ hd, if_neg h0]
  exact ⟨rfl, rfl⟩

/-- C4, counterexample. A row whose field `V0` is the single byte `0xFF`, which is
not valid UTF-8: the bytes written for the one-row document decode to a row
whose `V0` is the three bytes of `U+FFFD`, not to the row encoded; and in the
adapter `loadFromBuffer` run after `saveToBuffer` leaves a document that
differs from the one held before. -/
theorem roundtrip_replaces_invalid_utf8 :
    jsonUnmarshal (jsonMarshal (Slice.mk [⟨"p", ⟨[0xFF]⟩, "", "", "", "", ""⟩]))
        = Except.ok (Slice.mk [⟨"p", ⟨[0xEF, 0xBF, 0xBD]⟩, "", "", "", "", ""⟩])
    ∧ jsonUnmarshal (jsonMarshal (Slice.mk [⟨"p", ⟨[0xFF]⟩, "", "", "", "", ""⟩]))
        ≠ Except.ok (Slice.mk [⟨"p", ⟨[0xFF]⟩, "", "", "", "", ""⟩])
    ∧ (loadFromBuffer (saveToBuffer (adapterOf [⟨"p", ⟨[0xFF]⟩, "", "", "", "", ""⟩])).2).2.policy
        = Slice.mk [⟨"p", ⟨[0xEF, 0xBF, 0xBD]⟩, "", "", "", "", ""⟩]
    ∧ (loadFromBuffer (saveToBuffer (adapterOf [⟨"p", ⟨[0xFF]⟩, "", "", "", "", ""⟩])).2).2.policy
        ≠ (adapterOf [⟨"p", ⟨[0xFF]⟩, "", "", "", "", ""⟩]).policy := by
  have h1 : jsonUnmarshal (jsonMarshal (Slice.mk [⟨"p", ⟨[0xFF]⟩, "", "", "", "", ""⟩]))
      = Except.ok (Slice.mk [⟨"p", ⟨[0xEF, 0xBF, 0xBD]⟩, "", "", "", "", ""⟩]) := by
    rfl
  have h2 : (loadFromBuffer
      (saveToBuffer (adapterOf [⟨"p", ⟨[0xFF]⟩, "", "", "", "", ""⟩])).2).2.policy
      = Slice.mk [⟨"p", ⟨[0xEF, 0xBF, 0xBD]⟩, "", "", "", "", ""⟩] := by
    rfl
  refine ⟨h1, ?_, h2, ?_⟩
  · rw [h1]
    intro h
    exact absurd (Except.ok.inj h) (by decide)
  · rw [h2]
    decide

/-- C4, amended. For every document whose fields are all valid UTF-8, decoding
the bytes written for it gives back that document: the same rows, in the same
order, with the same seven fields (and a nil document stays nil); in the
adapter, `loadFromBuffer` run after `saveToBuffer` then reports no error and
leaves the document as it was. For an arbitrary document the decoding succeeds
as well and gives the document with as many rows, in which every byte of a
field that starts no valid UTF-8 encoding is replaced by `U+FFFD`. -/
theorem encode_decode_roundtrip {σ : Type} (D : Slice CasbinRule) (a : Adapter σ) :
    ((∀ r ∈ D.toList, ValidRow r) → jsonUnmarshal (jsonMarshal D) = Except.ok D)
    ∧ ((∀ r ∈ a.policy.toList, ValidRow r) →
        (loadFromBuffer (saveToBuffer a).2).1 = none
        ∧ (loadFromBuffer (saveToBuffer a).2).2.policy = a.policy)
    ∧ jsonUnmarshal (jsonMarshal D) = Except.ok (coerceDocument D)
    ∧ (coerceDocument D).len = D.len
    ∧ (loadFromBuffer (saveToBuffer a).2).1 = none
    ∧ (loadFromBuffer (saveToBuffer a).2).2.policy = coerceDocument a.policy := by
  refine ⟨jsonUnmarshal_jsonMarshal_valid D, ?_, jsonUnmarshal_jsonMarshal D,
    coerceDocument_len D, (loadFromBuffer_saveToBuffer a).1, (loadFromBuffer_saveToBuffer a).2⟩
  intro hv
  refine ⟨(loadFromBuffer_saveToBuffer a).1, ?_⟩
  rw [(loadFromBuffer_saveToBuffer a).2, coerceDocument_of_valid _ hv]

/-- Witness for C4: the one-row document `(p, alice, data1, read)` holds valid
UTF-8 only; it is decoded back from its encoding, and an adapter holding it
holds it again after `saveToBuffer` and `loadFromBuffer`. -/
theorem encode_decode_roundtrip_witness :
    jsonUnmarshal (jsonMarshal (Slice.mk [⟨"p", "alice", "data1", "read", "", "", ""⟩]))
        = Except.ok (Slice.mk [⟨"p", "alice", "data1", "read", "", "", ""⟩])
    ∧ (loadFromBuffer
        (saveToBuffer (adapterOf [⟨"p", "alice", "data1", "read", "", "", ""⟩])).2).2.policy
        = Slice.mk [⟨"p", "alice", "data1", "read", "", "", ""⟩] :=
  ⟨(encode_decode_roundtrip (Slice.mk [⟨"p", "alice", "data1", "read", "", "", ""⟩])
      (adapterOf [⟨"p", "alice", "data1", "read", "", "", ""⟩])).1 validRows_alice,
   ((encode_decode_roundtrip (Slice.mk [⟨"p", "alice", "data1", "read", "", "", ""⟩])
      (adapterOf [⟨"p", "alice", "data1", "read", "", "", ""⟩])).2.1 validRows_alice).2⟩

end JsonProofs

/-! ## `NewAdapter` -/

section NewAdapterProofs

variable {σ : Type}

theorem jsonUnmarshal_aliceBytes :
    jsonUnmarshal aliceBytes = Except.ok (Slice.mk [⟨"p", "alice", "data1", "read", "", "", ""⟩]) :=
  jsonUnmarshal_jsonMarshal_valid _ validRows_alice

/-- A member whose key names no field is skipped, whatever its value. -/
theorem jsonUnmarshal_taggedBytes :
    jsonUnmarshal taggedBytes = Except.ok (Slice.mk [⟨"p", "alice", "", "", "", "", ""⟩]) := by
  rfl

/-- C5, counterexample. A driver is present and its fetch succeeds with the
encoding of a one-row document, `force` is false: when `NewAdapter` returns the
document is empty, not the decoding of the fetched bytes. -/
theorem NewAdapter_unforced_not_decoded :
    jsonUnmarshal aliceBytes = Except.ok (Slice.mk [⟨"p", "alice", "data1", "read", "", "", ""⟩])
    ∧ (NewAdapter (some (fixedDriver aliceBytes)) "policy.json" [] false ()).policy
        = Slice.mk []
    ∧ Except.ok (NewAdapter (some (fixedDriver aliceBytes)) "policy.json" [] false ()).policy
        ≠ jsonUnmarshal aliceBytes := by
  refine ⟨jsonUnmarshal_aliceBytes, rfl, ?_⟩
  rw [jsonUnmarshal_aliceBytes]
  intro h
  have h2 : (Slice.mk [] : Slice CasbinRule)
      = Slice.mk [⟨"p", "alice", "data1", "read", "", "", ""⟩] := Except.ok.inj h
  exact absurd h2 (by decide)

theorem NewAdapter_forced_policy (driver : Option (IDriver σ)) (url : String)
    (source : Bytes) (w : σ) :
    (NewAdapter driver url source true w).policy =
      if source.length = 0 then Slice.mk []
      else
        match jsonUnmarshal source with
        | Except.ok D => D
        | Except.error _ => Slice.mk [] := by
  unfold NewAdapter
  simp only [if_true]
  rw [saveToBuffer_policy]
  unfold loadFromBuffer
  dsimp only
  by_cases h0 : source.length = 0
  · simp [h0]
  · simp only [h0, if_false]
    cases jsonUnmarshal source <;> rfl

theorem NewAdapter_unforced (driver : Option (IDriver σ)) (url : String)
    (source : Bytes) (w : σ) :
    (NewAdapter driver url source false w).policy = Slice.mk []
    ∧ (NewAdapter driver url source false w).source =
        match driver with
        | some d =>
          (match (d.GetData url w).1 with
            | Except.ok content => content
            | Except.error _ => source)
        | none => source := by
  unfold NewAdapter
  cases driver with
  | none => exact ⟨rfl, rfl⟩
  | some d =>
    simp only [Bool.false_eq_true, if_false]
    rcases hg : d.GetData url w with ⟨res, w1⟩
    cases res <;> exact ⟨rfl, rfl⟩

/-- C5, amended. With `force` the document `NewAdapter` returns with is the
decoding of the supplied default bytes when these are non-empty and decode, and
the empty document otherwise. Without `force` the document is empty when
`NewAdapter` returns and only the bytes are set: to the fetched bytes when a
driver is present and its fetch succeeds, to the default bytes when the fetch
fails or there is no driver; the next `LoadPolicy` decodes them into the
document. -/
theorem NewAdapter_document (driver : Option (IDriver σ)) (url : String) (source : Bytes)
    (w : σ) :
    (∀ D, source ≠ [] → jsonUnmarshal source = Except.ok D →
        (NewAdapter driver url source true w).policy = D)
    ∧ ((source = [] ∨ ∃ e, jsonUnmarshal source = Except.error e) →
        (NewAdapter driver url source true w).policy = Slice.mk [])
    ∧ (NewAdapter driver url source false w).policy = Slice.mk []
    ∧ (∀ d content, driver = some d → (d.GetData url w).1 = Except.ok content →
        (NewAdapter driver url source false w).source = content)
    ∧ (∀ d e, driver = some d → (d.GetData url w).1 = Except.error e →
        (NewAdapter driver url source false w).source = source)
    ∧ (driver = none → (NewAdapter driver url source false w).source = source)
    ∧ (∀ D, (NewAdapter driver url source false w).source ≠ [] →
        jsonUnmarshal (NewAdapter driver url source false w).source = Except.ok D →
        (LoadPolicy (NewAdapter driver url source false w)).2.1.policy = D) := by
  refine ⟨?_, ?_, (NewAdapter_unforced driver url source w).1, ?_, ?_, ?_, ?_⟩
  · intro D hne hD
    have h0 : source.length ≠ 0 := fun h => hne (List.length_eq_zero.1 h)
    rw [NewAdapter_forced_policy]
    simp [h0, hD]
  · intro h
    rw [NewAdapter_forced_policy]
    rcases h with h | ⟨e, h⟩
    · simp [h]
    · by_cases h0 : source.length = 0
      · simp [h0]
      · simp [h0, h]
  · intro d content hd hg
    rw [(NewAdapter_unforced driver url source w).2, hd]
    simp only [hg]
  · intro d e hd hg
    rw [(NewAdapter_unforced driver url source w).2, hd]
    simp only [hg]
  · intro hd
    rw [(NewAdapter_unforced driver url source w).2, hd]
  · intro D hne hD
    have h0 : (NewAdapter driver url source false w).source.length ≠ 0 :=
      fun h => hne (List.length_eq_zero.1 h)
    unfold LoadPolicy
    rw [loadFromBuffer_of_decoded _ D hD]
    simp [h0]

/-- Witness for C5: forced construction from the encoded one-row document gives
that document, and forced construction from a document whose row has a member
`ID` besides the fields gives the row without it; unforced construction with a
driver serving the encoded bytes holds the bytes, and the next `LoadPolicy`
gives the document. -/
theorem NewAdapter_document_witness :
    (NewAdapter (σ := Unit) none "policy.json" aliceBytes true ()).policy
        = Slice.mk [⟨"p", "alice", "data1", "read", "", "", ""⟩]
    ∧ (NewAdapter (σ := Unit) none "policy.json" taggedBytes true ()).policy
        = Slice.mk [⟨"p", "alice", "", "", "", "", ""⟩]
    ∧ (NewAdapter (some (fixedDriver aliceBytes)) "policy.json" [] false ()).source
        = aliceBytes
    ∧ (LoadPolicy (NewAdapter (some (fixedDriver aliceBytes)) "policy.json" [] false ())).2.1.policy
        = Slice.mk [⟨"p", "alice", "data1", "read", "", "", ""⟩] :=
  ⟨(NewAdapter_document (σ := Unit) none "policy.json" aliceBytes ()).1 _ (by decide)
      jsonUnmarshal_aliceBytes,
   (NewAdapter_document (σ := Unit) none "policy.json" taggedBytes ()).1 _ (by decide)
      jsonUnmarshal_taggedBytes,
   (NewAdapter_document (some (fixedDriver aliceBytes)) "policy.json" [] ()).2.2.2.1
      (fixedDriver aliceBytes) aliceBytes rfl rfl,
   (NewAdapter_document (some (fixedDriver aliceBytes)) "policy.json" [] ()).2.2.2.2.2.2 _
      (by decide) jsonUnmarshal_aliceBytes⟩

end NewAdapterProofs

/-! ## `SavePolicy` and the persisted text -/

section SavePolicyProofs

variable {σ : Type}

/-- C6, the code at the failing inputs. `SavePolicy` with a model without rules and
`RemoveFilteredPolicy` removing every row leave a document of zero rows and
store and send the text `null`, not the empty JSON array; `RemovePolicy`
removing the only row stores and sends `[]`. -/
theorem zero_rows_persisted_as_null :
    (SavePolicy ⟨[], []⟩ (drivenAdapter [⟨"p", "alice", "data1", "read", "", "", ""⟩])).2.policy.len
        = 0
    ∧ (SavePolicy ⟨[], []⟩ (drivenAdapter [⟨"p", "alice", "data1", "read", "", "", ""⟩])).2.source
        = bytesOf "null"
    ∧ (SavePolicy ⟨[], []⟩ (drivenAdapter [⟨"p", "alice", "data1", "read", "", "", ""⟩])).2.sent
        = [(bytesOf "null", "policy.json")]
    ∧ (RemoveFilteredPolicy "p" "p" 0 ["alice"]
        (drivenAdapter [⟨"p", "alice", "data1", "read", "", "", ""⟩])).2.policy.len = 0
    ∧ (RemoveFilteredPolicy "p" "p" 0 ["alice"]
        (drivenAdapter [⟨"p", "alice", "data1", "read", "", "", ""⟩])).2.sent
        = [(bytesOf "null", "policy.json")]
    ∧ (RemovePolicy "p" "p" ["alice", "data1", "read"]
        (drivenAdapter [⟨"p", "alice", "data1", "read", "", "", ""⟩])).2.sent
        = [(bytesOf "[]", "policy.json")] := by
  refine ⟨by rfl, by rfl, by rfl, by rfl, by rfl, by rfl⟩

theorem getD_paddedFields (f : List GoString) (i : Nat) :
    (paddedFields f).getD i "" = f.getD i "" := by
  unfold paddedFields
  by_cases h : i < f.length
  · simp [List.getD, List.getElem?_append, h]
  · have hn : f[i]? = none := List.getElem?_eq_none (Nat.le_of_not_lt h)
    simp [List.getD, List.getElem?_append, h, hn]

theorem savePolicyLine_eq_keyRow (ptype : GoString) (f : List GoString) :
    savePolicyLine ptype f = keyRow ptype f := by
  rw [savePolicyLine_fields]
  simp only [keyRow, getD_paddedFields]

theorem rulesLoop_toList (ptype : GoString) :
    ∀ (rules : List (List GoString)) (acc : Slice CasbinRule),
      (rules.foldl (fun acc2 rule => acc2.push (savePolicyLine ptype rule)) acc).toList
        = acc.toList ++ rules.map (keyRow ptype) := by
  intro rules
  induction rules with
  | nil => intro acc; simp
  | cons r rest ih =>
    intro acc
    simp only [List.foldl_cons, List.map_cons]
    rw [ih, savePolicyLine_eq_keyRow]
    simp [Slice.push, Slice.toList]

theorem appendSection_toList :
    ∀ (sec : List (GoString × Assertion)) (lines : Slice CasbinRule),
      (appendSection lines sec).toList = lines.toList ++ sectionRows sec := by
  intro sec
  induction sec with
  | nil => intro lines; simp [appendSection, sectionRows]
  | cons e rest ih =>
    intro lines
    have h := ih (e.2.Policy.foldl (fun acc2 rule => acc2.push (savePolicyLine e.1 rule)) lines)
    simp only [appendSection, List.foldl_cons] at h ⊢
    rw [h, rulesLoop_toList]
    simp [sectionRows]

theorem sectionRows_length (sec : List (GoString × Assertion)) :
    (sectionRows sec).length = ruleCount sec := by
  induction sec with
  | nil => rfl
  | cons e rest ih =>
    simp only [sectionRows, ruleCount, List.flatMap_cons, List.length_append, List.length_map,
      List.map_cons, List.sum_cons] at ih ⊢
    rw [ih]

theorem SavePolicy_policy (model : Model) (a : Adapter σ) :
    (SavePolicy model a).2.policy
      = appendSection (appendSection Slice.null model.p) model.g := by
  unfold SavePolicy
  rw [saveToBuffer_policy]

/-- C7. After `SavePolicy` the document consists of the rows built from section
`p`, entry after entry, followed by the rows built from section `g`, each entry
contributing one row `(ptype, first six fields padded with empty strings)` per
rule in the order of its rule sequence; its length is the number of `p` rules
plus the number of `g` rules; and nothing of the previous document remains: the
result is the same whatever the adapter held before. The entries of a section
are taken in the order in which the `range` statement yields them. -/
theorem SavePolicy_replaces_document (model : Model) (a : Adapter σ) :
    (SavePolicy model a).2.policy.toList = sectionRows model.p ++ sectionRows model.g
    ∧ (SavePolicy model a).2.policy.len = ruleCount model.p + ruleCount model.g
    ∧ (∀ b : Adapter σ, (SavePolicy model b).2.policy = (SavePolicy model a).2.policy) := by
  have h : (SavePolicy model a).2.policy.toList = sectionRows model.p ++ sectionRows model.g := by
    rw [SavePolicy_policy, appendSection_toList, appendSection_toList]
    simp [Slice.toList]
  refine ⟨h, ?_, ?_⟩
  · rw [Slice.len, h, List.length_append, sectionRows_length, sectionRows_length]
  · intro b
    rw [SavePolicy_policy, SavePolicy_policy]

end SavePolicyProofs

/-! ## `LoadPolicy` -/

section LoadPolicyProofs

variable {σ : Type}

theorem lineLoop_eq (l : List GoString) :
    ∀ acc : GoString,
      l.foldl (fun (t v : GoString) => if v ≠ "" then t ++ ", " ++ v else t) acc
        = joinFields acc (l.filter (fun (v : GoString) => v ≠ "")) := by
  induction l with
  | nil => intro acc; rfl
  | cons v rest ih =>
    intro acc
    rw [List.foldl_cons]
    by_cases hv : v = ""
    · rw [List.filter_cons_of_neg (by simpa using hv), if_neg (by simpa using hv)]
      exact ih acc
    · rw [List.filter_cons_of_pos (by simpa using hv), if_pos hv, joinFields]
      exact ih _

theorem loadPolicyLine_eq (r : CasbinRule) :
    loadPolicyLine r = joinFields r.PType (r.fields.filter (fun (v : GoString) => v ≠ "")) := by
  rw [← lineLoop_eq]
  rfl

theorem coherent_saveToBuffer (a : Adapter σ) : Coherent (saveToBuffer a).2 := by
  left
  rw [saveToBuffer_source]
  exact ⟨_, jsonUnmarshal_jsonMarshal _⟩

theorem coherent_loadFromBuffer (a : Adapter σ) (h : Coherent a) :
    Coherent (loadFromBuffer a).2 := by
  unfold loadFromBuffer
  by_cases h0 : a.source.length = 0
  · simpa [h0] using h
  · simp only [h0, if_false]
    cases hd : jsonUnmarshal a.source with
    | error e => exact h
    | ok D => exact Or.inl ⟨D, hd⟩

theorem coherent_of_reachable (a : Adapter σ) (h : Reachable a) : Coherent a := by
  induction h with
  | construct driver url source force w =>
    cases force with
    | true =>
      unfold NewAdapter
      exact coherent_saveToBuffer _
    | false => exact Or.inr (NewAdapter_unforced driver url source w).1
  | load a _ ih =>
    have h := coherent_loadFromBuffer a ih
    unfold LoadPolicy
    rcases hl : loadFromBuffer a with ⟨err, a1⟩
    rw [hl] at h
    cases err <;> exact h
  | save model a _ _ => exact coherent_saveToBuffer _
  | add sec ptype rule a _ _ => exact coherent_saveToBuffer _
  | remove sec ptype rule a _ ih =>
    unfold RemovePolicy
    dsimp only
    split
    · exact coherent_saveToBuffer _
    · exact ih
  | removeFiltered sec ptype fieldIndex fieldValues a _ _ => exact coherent_saveToBuffer _
  | world a w _ ih => exact ih

theorem jsonUnmarshal_nil : jsonUnmarshal [] = Except.error "unexpected end of JSON input" := by
  rfl

/-- `LoadPolicy` on bytes that decode: the document becomes the decoded one and
its lines are fed. -/
theorem LoadPolicy_of_decoded (a : Adapter σ) (D : Slice CasbinRule) (hne : a.source ≠ [])
    (hD : jsonUnmarshal a.source = Except.ok D) :
    LoadPolicy a = (none, { a with policy := D }, D.toList.map loadPolicyLine) := by
  have h0 : a.source.length ≠ 0 := fun h => hne (List.length_eq_zero.1 h)
  unfold LoadPolicy
  rw [loadFromBuffer_of_decoded a D hD, if_neg h0]

/-- `LoadPolicy` on bytes that do not decode: the error is returned, nothing
changes and nothing is fed. -/
theorem LoadPolicy_of_undecoded (a : Adapter σ) (e : String) (hne : a.source ≠ [])
    (he : jsonUnmarshal a.source = Except.error e) :
    LoadPolicy a = (some e, a, []) := by
  have h0 : a.source.length ≠ 0 := fun h => hne (List.length_eq_zero.1 h)
  unfold LoadPolicy loadFromBuffer
  simp only [h0, if_false, he]

/-- `LoadPolicy` on no bytes: the lines of the document held are fed. -/
theorem LoadPolicy_of_no_bytes (a : Adapter σ) (h0 : a.source = []) :
    LoadPolicy a = (none, a, a.policy.toList.map loadPolicyLine) := by
  unfold LoadPolicy loadFromBuffer
  simp [h0]

theorem LoadPolicy_lines_of_coherent (a : Adapter σ) (h : Coherent a) :
    (LoadPolicy a).2.2 = (LoadPolicy a).2.1.policy.toList.map loadPolicyLine := by
  by_cases h0 : a.source = []
  · rw [LoadPolicy_of_no_bytes a h0]
  · cases hd : jsonUnmarshal a.source with
    | ok D => rw [LoadPolicy_of_decoded a D h0 hd]
    | error e =>
      rw [LoadPolicy_of_undecoded a e h0 hd]
      rcases h with ⟨D, h⟩ | h
      · rw [hd] at h; cases h
      · simp [h, Slice.toList]

theorem LoadPolicy_of_empty_source (a : Adapter σ) (h : Coherent a) (h0 : a.source = []) :
    LoadPolicy a = (none, a, []) := by
  have hp : a.policy = Slice.mk [] := by
    rcases h with ⟨D, h⟩ | h
    · rw [h0, jsonUnmarshal_nil] at h; cases h
    · exact h
  rw [LoadPolicy_of_no_bytes a h0, hp]
  rfl

/-- C8. The line built for a row is its `PType` followed, for each of `V0..V5`
in index order that is not empty, by `", "` and the field, so two rows with the
same `PType` and the same non-empty fields in the same order give the same line.
In every state of the adapter, when the bytes held are not empty and decode to
a document, `LoadPolicy` reports no error, makes that document the adapter's and
feeds the engine exactly the lines of its rows, one per row, in document order;
when they are not empty and do not decode it returns the decoding error, changes
nothing and feeds nothing; when there are no bytes it changes nothing and feeds
the lines of the document held. In every reachable state the lines fed are the
lines of the rows of the document `LoadPolicy` leaves, as many as it has rows,
and with no bytes held nothing is changed, nothing is fed and no error is
reported. -/
theorem LoadPolicy_feeds_lines (a : Adapter σ) :
    (∀ r : CasbinRule,
        loadPolicyLine r = joinFields r.PType (r.fields.filter (fun (v : GoString) => v ≠ "")))
    ∧ (∀ r r2 : CasbinRule, r.PType = r2.PType →
        r.fields.filter (fun (v : GoString) => v ≠ "") = r2.fields.filter (fun (v : GoString) => v ≠ "") →
        loadPolicyLine r = loadPolicyLine r2)
    ∧ (∀ D, a.source ≠ [] → jsonUnmarshal a.source = Except.ok D →
        LoadPolicy a = (none, { a with policy := D }, D.toList.map loadPolicyLine)
        ∧ (LoadPolicy a).2.2.length = D.len)
    ∧ (∀ e, a.source ≠ [] → jsonUnmarshal a.source = Except.error e →
        LoadPolicy a = (some e, a, []))
    ∧ (a.source = [] → LoadPolicy a = (none, a, a.policy.toList.map loadPolicyLine))
    ∧ (Reachable a →
        (LoadPolicy a).2.2 = (LoadPolicy a).2.1.policy.toList.map loadPolicyLine
        ∧ (LoadPolicy a).2.2.length = (LoadPolicy a).2.1.policy.len
        ∧ (a.source = [] → LoadPolicy a = (none, a, []))) := by
  refine ⟨loadPolicyLine_eq, ?_, ?_, LoadPolicy_of_undecoded a, LoadPolicy_of_no_bytes a, ?_⟩
  · intro r r2 hp hf
    rw [loadPolicyLine_eq, loadPolicyLine_eq, hp, hf]
  · intro D hne hD
    refine ⟨LoadPolicy_of_decoded a D hne hD, ?_⟩
    rw [LoadPolicy_of_decoded a D hne hD, List.length_map, Slice.len]
  · intro h
    have hc := coherent_of_reachable a h
    refine ⟨LoadPolicy_lines_of_coherent a hc, ?_, LoadPolicy_of_empty_source a hc⟩
    rw [LoadPolicy_lines_of_coherent a hc, List.length_map, Slice.len]

/-- Witness for C8: after an unforced construction with a driver that serves the
encoded one-row document, the bytes held are those bytes, they decode to the
row `(p, alice, data1, read)`, and `LoadPolicy` makes it the document and feeds
the single line `p, alice, data1, read`; the fresh adapter without bytes is
reachable and `LoadPolicy` feeds nothing there; and the rows `(p, a, "", b)` and
`(p, a, b, "")` give the same line. -/
theorem LoadPolicy_feeds_lines_witness :
    (NewAdapter (some (fixedDriver aliceBytes)) "policy.json" [] false ()).source = aliceBytes
    ∧ jsonUnmarshal aliceBytes
        = Except.ok (Slice.mk [⟨"p", "alice", "data1", "read", "", "", ""⟩])
    ∧ LoadPolicy (NewAdapter (some (fixedDriver aliceBytes)) "policy.json" [] false ())
        = (none,
            { NewAdapter (some (fixedDriver aliceBytes)) "policy.json" [] false () with
              policy := Slice.mk [⟨"p", "alice", "data1", "read", "", "", ""⟩] },
            [⟨"p", "alice", "data1", "read", "", "", ""⟩].map loadPolicyLine)
    ∧ [(⟨"p", "alice", "data1", "read", "", "", ""⟩ : CasbinRule)].map loadPolicyLine
        = ["p, alice, data1, read"]
    ∧ LoadPolicy (NewAdapter (σ := Unit) none "policy.json" [] false ())
        = (none, NewAdapter (σ := Unit) none "policy.json" [] false (), [])
    ∧ loadPolicyLine ⟨"p", "a", "", "b", "", "", ""⟩
        = loadPolicyLine ⟨"p", "a", "b", "", "", "", ""⟩ :=
  ⟨rfl, jsonUnmarshal_aliceBytes,
   ((LoadPolicy_feeds_lines
      (NewAdapter (some (fixedDriver aliceBytes)) "policy.json" [] false ())).2.2.1 _
      (by decide) jsonUnmarshal_aliceBytes).1,
   by decide,
   ((LoadPolicy_feeds_lines (NewAdapter (σ := Unit) none "policy.json" [] false ())).2.2.2.2.2
      (Reachable.construct none "policy.json" [] false ())).2.2 rfl,
   (LoadPolicy_feeds_lines (adapterOf [])).2.1 _ _ rfl (by decide)⟩

end LoadPolicyProofs

/-! ## The driver: authentication and the ignore set -/

section DriverProofs

variable {σ : Type}

theorem isAuth_false_iff (d : JianguoDriver σ) :
    d.IsAuth = false ↔ d.authName = "" ∨ d.authPassword = "" := by
  unfold JianguoDriver.IsAuth
  by_cases h1 : d.authName = "" <;> by_cases h2 : d.authPassword = "" <;> simp [h1, h2]

theorem createDirectories_unauth (env : Env σ) (d : JianguoDriver σ) (path : String)
    (w : World σ) (h : d.IsAuth = false) :
    d.createDirectories env path w = (some ErrNotAuth, w) := by
  unfold JianguoDriver.createDirectories
  simp [h]

/-- C9. When the identity or the secret of the driver is empty, `IsAuth` is false
and each of `GetData`, `GetStat`, `List`, `Delete`, `Update` and `UpdateData`
returns `ErrNotAuth`, for every argument, leaving the world and its log of
HTTP requests as they were: no request is sent. -/
theorem unauthenticated_operations_fail (env : Env σ) (d : JianguoDriver σ) (w : World σ)
    (h : d.authName = "" ∨ d.authPassword = "") :
    d.IsAuth = false
    ∧ (∀ url, d.GetData env url w = (([], some ErrNotAuth), w))
    ∧ (∀ url, d.GetStat env url w = (([], "", some ErrNotAuth), w))
    ∧ (∀ url, d.List env url w = Outcome.ret (([], some ErrNotAuth), w))
    ∧ (∀ remote, d.Delete env remote w = (some ErrNotAuth, w))
    ∧ (∀ localPath remote, d.Update env localPath remote w = (some ErrNotAuth, w))
    ∧ (∀ data url, d.UpdateData env data url w = (some ErrNotAuth, w)) := by
  have ha : d.IsAuth = false := (isAuth_false_iff d).2 h
  refine ⟨ha, ?_, ?_, ?_, ?_, ?_, ?_⟩
  · intro url
    unfold JianguoDriver.GetData
    simp [ha]
  · intro url
    unfold JianguoDriver.GetStat
    simp [ha]
  · intro url
    unfold JianguoDriver.List
    simp [ha]
  · intro remote
    unfold JianguoDriver.Delete
    simp [ha]
  · intro localPath remote
    unfold JianguoDriver.Update
    simp [ha]
  · intro data url
    unfold JianguoDriver.UpdateData
    rw [createDirectories_unauth env d url w ha]

/-- Witness for C9: the driver `NewJianguoDriver(nil)` before any `Auth`. -/
theorem unauthenticated_operations_fail_witness :
    (NewJianguoDriver none).GetData offlineEnv "policy.json" freshWorld
        = (([], some ErrNotAuth), freshWorld)
    ∧ (NewJianguoDriver none).UpdateData offlineEnv [] "a/b/c/file.txt" freshWorld
        = (some ErrNotAuth, freshWorld) :=
  ⟨(unauthenticated_operations_fail offlineEnv (NewJianguoDriver none) freshWorld
      (Or.inl rfl)).2.1 "policy.json",
   (unauthenticated_operations_fail offlineEnv (NewJianguoDriver none) freshWorld
      (Or.inl rfl)).2.2.2.2.2.2 [] "a/b/c/file.txt"⟩

theorem mem_SetIgnore (p : List String) :
    ∀ (d : JianguoDriver σ) (item : String),
      item ∈ (d.SetIgnore p).ignores ↔ item ∈ p ∨ item ∈ d.ignores := by
  induction p with
  | nil => intro d item; simp [JianguoDriver.SetIgnore]
  | cons x rest ih =>
    intro d item
    have h := ih { d with ignores := x :: d.ignores } item
    simp only [JianguoDriver.SetIgnore, List.foldl_cons] at h ⊢
    rw [h]
    simp only [List.mem_cons]
    tauto

/-- C10, counterexample. The path `a.txt` is in the ignore set, yet `Update` does
not report success: without credentials it returns `ErrNotAuth`, and with
credentials and an empty remote path it returns `ErrInvUrl`. -/
theorem Update_ignored_can_fail :
    "a.txt" ∈ ignoringDriver.ignores
    ∧ (ignoringDriver.Update offlineEnv "a.txt" "remote.txt" freshWorld).1 = some ErrNotAuth
    ∧ "a.txt" ∈ (ignoringDriver.Auth "user" "secret").ignores
    ∧ ((ignoringDriver.Auth "user" "secret").Update offlineEnv "a.txt" "" freshWorld).1
        = some ErrInvUrl := by
  refine ⟨by decide, by rfl, by decide, by rfl⟩

/-- C10, amended. For a local path in the ignore set, `Update` sends no HTTP
request in any driver state; it reports success when the driver is
authenticated and the remote path is not empty, `ErrNotAuth` when the driver is
not authenticated, and `ErrInvUrl` when it is authenticated and the remote path
is empty. Every path given to `SetIgnore` is in the ignore set afterwards. -/
theorem Update_ignored (env : Env σ) (d : JianguoDriver σ) (localPath remote : String)
    (w : World σ) (hi : localPath ∈ d.ignores) :
    (d.IsAuth = true → remote ≠ "" → d.Update env localPath remote w = (none, w))
    ∧ (d.Update env localPath remote w).2 = w
    ∧ (d.IsAuth = false → (d.Update env localPath remote w).1 = some ErrNotAuth)
    ∧ (d.IsAuth = true → remote = "" → (d.Update env localPath remote w).1 = some ErrInvUrl)
    ∧ (∀ (p : List String) (item : String), item ∈ p → item ∈ (d.SetIgnore p).ignores) := by
  refine ⟨?_, ?_, ?_, ?_, ?_⟩
  · intro ha hr
    unfold JianguoDriver.Update
    simp [ha, hr, hi]
  · unfold JianguoDriver.Update
    by_cases ha : d.IsAuth = true
    · by_cases hr : remote = ""
      · simp [ha, hr]
      · simp [ha, hr, hi]
    · simp [ha]
  · intro ha
    unfold JianguoDriver.Update
    simp [ha]
  · intro ha hr
    unfold JianguoDriver.Update
    simp [ha, hr]
  · intro p item hp
    exact (mem_SetIgnore p d item).2 (Or.inl hp)

/-- Witness for C10: with credentials set and `a.txt` ignored, `Update` of `a.txt`
to a non-empty remote path succeeds and the request log stays empty. -/
theorem Update_ignored_witness :
    (ignoringDriver.Auth "user" "secret").Update offlineEnv "a.txt" "remote.txt" freshWorld
      = (none, freshWorld) :=
  (Update_ignored offlineEnv (ignoringDriver.Auth "user" "secret") "a.txt" "remote.txt"
    freshWorld (by decide)).1 (by rfl) (by decide)

end DriverProofs

/-! ## `RemovePolicy`: when it persists -/

section RemovePersistProofs

variable {σ : Type}

theorem saveToBuffer_with_driver (a : Adapter σ) (d : IDriver σ) (h : a.driver = some d) :
    (saveToBuffer a).1 = (d.UpdateData (jsonMarshal a.policy) a.dataurl a.world).1
    ∧ (saveToBuffer a).2.sent = a.sent ++ [(jsonMarshal a.policy, a.dataurl)]
    ∧ (saveToBuffer a).2.world = (d.UpdateData (jsonMarshal a.policy) a.dataurl a.world).2 := by
  unfold saveToBuffer
  simp [h]

theorem saveToBuffer_without_driver (a : Adapter σ) (h : a.driver = none) :
    saveToBuffer a = (none, { a with source := jsonMarshal a.policy }) := by
  unfold saveToBuffer
  simp [h]

theorem findMatch_of_mem (ptype : GoString) (f : List GoString) :
    ∀ (rows : List CasbinRule) (i : Nat), keyRow ptype f ∈ rows →
      ∃ j, findMatch ptype (padRule f) rows i = some j := by
  intro rows i hmem
  cases hfm : findMatch ptype (padRule f) rows i with
  | some j => exact ⟨j, rfl⟩
  | none => exact absurd hmem (findMatch_none ptype f rows i hfm)

theorem RemovePolicy_of_match (sec ptype : GoString) (f : List GoString) (a : Adapter σ)
    (hmem : keyRow ptype f ∈ a.policy.toList) :
    RemovePolicy sec ptype f a
      = saveToBuffer { a with policy := Slice.mk (a.policy.toList.erase (keyRow ptype f)) } := by
  obtain ⟨j, hj⟩ := findMatch_of_mem ptype f a.policy.toList 0 hmem
  obtain ⟨_, heq⟩ := findMatch_some ptype f _ _ _ hj
  unfold RemovePolicy
  simp only [hj]
  rw [Nat.sub_zero] at heq
  rw [heq]

theorem findMatch_some_mem (ptype : GoString) (f : List GoString) :
    ∀ (rows : List CasbinRule) (i j : Nat),
      findMatch ptype (padRule f) rows i = some j → keyRow ptype f ∈ rows := by
  intro rows
  induction rows with
  | nil => intro i j h; simp [findMatch] at h
  | cons r rest ih =>
    intro i j h
    unfold findMatch at h
    by_cases hm : ruleMatches r ptype (padRule f) = true
    · have hr : r = keyRow ptype f := (ruleMatches_iff r ptype f).1 hm
      simp [hr]
    · simp only [hm] at h
      exact List.mem_cons_of_mem _ (ih (i + 1) j (by simpa using h))

theorem RemovePolicy_of_no_match (sec ptype : GoString) (f : List GoString) (a : Adapter σ)
    (hno : keyRow ptype f ∉ a.policy.toList) :
    RemovePolicy sec ptype f a = (none, a) := by
  unfold RemovePolicy
  dsimp only
  split
  next j hj => exact absurd (findMatch_some_mem ptype f _ _ _ hj) hno
  next => rfl

/-- C13. When no row of the document equals `ptype` with the padded field list,
`RemovePolicy` returns no error and the adapter is exactly as before: the same
document, the same stored bytes, the same world and no new `UpdateData` call.
When a row matches and a driver is present, exactly one `UpdateData` call is
added to the log, carrying the encoding of the document without that row, and
`RemovePolicy` returns what that call returned; without a driver it stores the
encoding and returns no error. -/
theorem RemovePolicy_persists_on_match_only (sec ptype : GoString) (f : List GoString)
    (a : Adapter σ) :
    (keyRow ptype f ∉ a.policy.toList → RemovePolicy sec ptype f a = (none, a))
    ∧ (keyRow ptype f ∈ a.policy.toList → ∀ d, a.driver = some d →
        (RemovePolicy sec ptype f a).2.sent
            = a.sent ++ [(jsonMarshal (Slice.mk (a.policy.toList.erase (keyRow ptype f))),
                a.dataurl)]
        ∧ (RemovePolicy sec ptype f a).1
            = (d.UpdateData (jsonMarshal (Slice.mk (a.policy.toList.erase (keyRow ptype f))))
                a.dataurl a.world).1)
    ∧ (keyRow ptype f ∈ a.policy.toList → a.driver = none →
        (RemovePolicy sec ptype f a).1 = none
        ∧ (RemovePolicy sec ptype f a).2.sent = a.sent
        ∧ (RemovePolicy sec ptype f a).2.source
            = jsonMarshal (Slice.mk (a.policy.toList.erase (keyRow ptype f)))) := by
  refine ⟨RemovePolicy_of_no_match sec ptype f a, ?_, ?_⟩
  · intro hmem d hd
    rw [RemovePolicy_of_match sec ptype f a hmem]
    have h := saveToBuffer_with_driver
      { a with policy := Slice.mk (a.policy.toList.erase (keyRow ptype f)) } d hd
    exact ⟨h.2.1, h.1⟩
  · intro hmem hd
    rw [RemovePolicy_of_match sec ptype f a hmem]
    have h := saveToBuffer_without_driver
      { a with policy := Slice.mk (a.policy.toList.erase (keyRow ptype f)) } hd
    rw [h]
    exact ⟨rfl, rfl, rfl⟩

/-- Witness for C13: on the document `alice, bob` with a driver, removing `carol`
changes nothing and sends nothing; removing `alice` sends the encoding of the
remaining document once. -/
theorem RemovePolicy_persists_on_match_only_witness :
    RemovePolicy "p" "p" ["carol", "data3", "read"]
        (drivenAdapter [⟨"p", "alice", "data1", "read", "", "", ""⟩,
                        ⟨"p", "bob", "data2", "write", "", "", ""⟩])
      = (none, drivenAdapter [⟨"p", "alice", "data1", "read", "", "", ""⟩,
                              ⟨"p", "bob", "data2", "write", "", "", ""⟩])
    ∧ (RemovePolicy "p" "p" ["alice", "data1", "read"]
        (drivenAdapter [⟨"p", "alice", "data1", "read", "", "", ""⟩,
                        ⟨"p", "bob", "data2", "write", "", "", ""⟩])).2.sent
      = [(jsonMarshal (Slice.mk [⟨"p", "bob", "data2", "write", "", "", ""⟩]), "policy.json")] :=
  ⟨(RemovePolicy_persists_on_match_only "p" "p" ["carol", "data3", "read"]
      (drivenAdapter [⟨"p", "alice", "data1", "read", "", "", ""⟩,
                      ⟨"p", "bob", "data2", "write", "", "", ""⟩])).1 (by decide),
   ((RemovePolicy_persists_on_match_only "p" "p" ["alice", "data1", "read"]
      (drivenAdapter [⟨"p", "alice", "data1", "read", "", "", ""⟩,
                      ⟨"p", "bob", "data2", "write", "", "", ""⟩])).2.1 (by decide)
      (fixedDriver []) rfl).1⟩

end RemovePersistProofs

/-! ## The registry and the timeline queries -/

section RegistryProofs

variable {σ : Type}

theorem lookup_head {α : Type} (k : String) (v : α) (rest : List (String × α)) :
    List.lookup k ((k, v) :: rest) = some v := by
  simp [List.lookup]

/-- C12, the code at the failing input. A registry built by `NewDriverConfigAll`
has a nil `drivers` map, so `GetDriver` for the recognised name, with a
configuration present, panics when it stores the new driver in the cache. The
registry built by `NewDriverConfig` behaves as the claim says: `GetDriver`
returns a driver carrying the configured credentials and ignore list and caches
it, and the second call returns the cached driver. With either registry a name
without configuration gives the configuration error and a configured but
unrecognised name the unsupported-backend error. -/
theorem GetDriver_panics_on_file_registry (self : IDriverConfig σ) (conf : DriverConfig)
    (rest : List (String × Option DriverConfig)) :
    (∀ (lib : ConfigLib) (cfg : String),
        match NewDriverConfigAll (σ := σ) lib cfg with
        | Except.ok c => c.drivers = none ∧ c.cfg = cfg
        | Except.error _ => True)
    ∧ (∀ cfg : String,
        DriverConfigAll.GetDriver self
            { cfg := cfg, data := some (("坚果云", some conf) :: rest), drivers := none } "坚果云"
          = Outcome.panic "assignment to entry in nil map")
    ∧ DriverConfigAll.GetDriver self (NewDriverConfig (some (("坚果云", some conf) :: rest)))
          "坚果云"
        = Outcome.ret
            ((some (((NewJianguoDriver (some self)).Auth conf.Username conf.Password).SetIgnore
                conf.Ignores), none),
              { cfg := "", data := some (("坚果云", some conf) :: rest),
                drivers := some [("坚果云",
                  ((NewJianguoDriver (some self)).Auth conf.Username conf.Password).SetIgnore
                    conf.Ignores)] })
    ∧ (∀ d : JianguoDriver σ,
        DriverConfigAll.GetDriver self
            { cfg := "", data := some (("坚果云", some conf) :: rest),
              drivers := some [("坚果云", d)] } "坚果云"
          = Outcome.ret ((some d, none),
              { cfg := "", data := some (("坚果云", some conf) :: rest),
                drivers := some [("坚果云", d)] }))
    ∧ (∀ (cfg : String) (drivers : GoMap (JianguoDriver σ)),
        DriverConfigAll.GetDriver self { cfg := cfg, data := some [], drivers := drivers } "坚果云"
          = (match mapGet drivers "坚果云" with
            | some v => Outcome.ret ((some v, none),
                { cfg := cfg, data := some [], drivers := drivers })
            | none => Outcome.ret ((none, some "no auth, pls update config.json"),
                { cfg := cfg, data := some [], drivers := drivers })))
    ∧ (∀ cfg : String,
        DriverConfigAll.GetDriver self
            { cfg := cfg, data := some [("ftp", some conf)], drivers := none } "ftp"
          = Outcome.ret ((none, some "no this driver"),
              { cfg := cfg, data := some [("ftp", some conf)], drivers := none })) := by
  refine ⟨?_, ?_, ?_, ?_, ?_, ?_⟩
  · intro lib cfg
    unfold NewDriverConfigAll
    cases lib.readFile cfg with
    | error e => trivial
    | ok data =>
      dsimp only
      cases lib.unmarshalConfig data with
      | error e => trivial
      | ok config => exact ⟨rfl, rfl⟩
  · intro cfg
    simp [DriverConfigAll.GetDriver, DriverConfigAll.GetConfig, mapGet, mapSet, lookup_head]
  · simp [DriverConfigAll.GetDriver, DriverConfigAll.GetConfig, mapGet, mapSet, lookup_head,
      NewDriverConfig]
  · intro d
    simp [DriverConfigAll.GetDriver, mapGet, lookup_head]
  · intro cfg drivers
    cases hm : mapGet drivers "坚果云" with
    | some v => simp [DriverConfigAll.GetDriver, hm]
    | none =>
      unfold DriverConfigAll.GetDriver
      simp only [hm]
      simp [DriverConfigAll.GetConfig, mapGet]
  · intro cfg
    simp [DriverConfigAll.GetDriver, DriverConfigAll.GetConfig, mapGet, lookup_head]

/-- C14, the code at the failing input. For the driver `NewJianguoDriver(nil)`,
with or without credentials, `GetLastTimeline` returns the empty string for
every name, but `GetLastTimelineMap` calls a method on the nil `iconf` and
panics instead of returning an empty map. -/
theorem GetLastTimelineMap_panics_without_registry (name user password : String)
    (w : World σ) :
    (NewJianguoDriver (σ := σ) none).GetLastTimeline name w = ""
    ∧ ((NewJianguoDriver (σ := σ) none).Auth user password).GetLastTimeline name w = ""
    ∧ (NewJianguoDriver (σ := σ) none).GetLastTimelineMap w
        = Outcome.panic "invalid memory address or nil pointer dereference"
    ∧ ((NewJianguoDriver (σ := σ) none).Auth user password).GetLastTimelineMap w
        = Outcome.panic "invalid memory address or nil pointer dereference" :=
  ⟨rfl, rfl, rfl, rfl⟩

end RegistryProofs

/-! ## `UpdateData`: the directories created before the upload -/

section UpdateDataProofs

variable {σ : Type}

theorem joinSlash_singleton (s : List Char) : joinSlash [s] = s := rfl

theorem joinSlash_cons_cons (s s2 : List Char) (rest : List (List Char)) :
    joinSlash (s :: s2 :: rest) = s ++ '/' :: joinSlash (s2 :: rest) := rfl

theorem splitSlash_ne_nil (s : List Char) : JianguoDriver.splitSlash s ≠ [] := by
  cases s with
  | nil => simp [JianguoDriver.splitSlash]
  | cons c cs =>
    unfold JianguoDriver.splitSlash
    split_ifs
    · simp
    · cases JianguoDriver.splitSlash cs <;> simp

theorem splitSlash_append_slash (s rest : List Char) (hs : '/' ∉ s) :
    JianguoDriver.splitSlash (s ++ '/' :: rest) = s :: JianguoDriver.splitSlash rest := by
  induction s with
  | nil => simp [JianguoDriver.splitSlash]
  | cons c cs ih =>
    have hc : c ≠ '/' := fun e => hs (by simp [e])
    have hcs : '/' ∉ cs := fun e => hs (by simp [e])
    rw [List.cons_append, JianguoDriver.splitSlash, if_neg hc, ih hcs]

theorem splitSlash_no_slash (s : List Char) (hs : '/' ∉ s) : JianguoDriver.splitSlash s = [s] := by
  induction s with
  | nil => rfl
  | cons c cs ih =>
    have hc : c ≠ '/' := fun e => hs (by simp [e])
    have hcs : '/' ∉ cs := fun e => hs (by simp [e])
    rw [JianguoDriver.splitSlash, if_neg hc, ih hcs]

theorem splitSlash_joinSlash :
    ∀ (L : List (List Char)), L ≠ [] → (∀ s ∈ L, '/' ∉ s) →
      JianguoDriver.splitSlash (joinSlash L) = L := by
  intro L
  induction L with
  | nil => intro h; exact absurd rfl h
  | cons s rest ih =>
    intro _ hall
    cases rest with
    | nil => exact splitSlash_no_slash s (hall s (by simp))
    | cons s2 rest2 =>
      rw [joinSlash_cons_cons, splitSlash_append_slash _ _ (hall s (by simp)),
        ih (by simp) (fun x hx => hall x (List.mem_cons_of_mem _ hx))]

theorem splitSlash_joinSlash_slash (L : List (List Char)) (hne : L ≠ [])
    (hall : ∀ s ∈ L, '/' ∉ s) :
    JianguoDriver.splitSlash (joinSlash L ++ ['/']) = L ++ [[]] := by
  induction L with
  | nil => exact absurd rfl hne
  | cons s rest ih =>
    cases rest with
    | nil =>
      rw [joinSlash_singleton, splitSlash_append_slash _ _ (hall s (by simp))]
      rfl
    | cons s2 rest2 =>
      rw [joinSlash_cons_cons, List.append_assoc, List.cons_append,
        splitSlash_append_slash _ _ (hall s (by simp)),
        ih (by simp) (fun x hx => hall x (List.mem_cons_of_mem _ hx))]
      rfl

/-- The conditions of `GoodSegment`, on characters. -/
theorem cleanStep_good (acc : List (List Char)) (s : List Char)
    (h : s ≠ [] ∧ s ≠ ['.'] ∧ s ≠ ['.', '.'] ∧ '/' ∉ s) :
    cleanStep false acc s = s :: acc := by
  unfold cleanStep
  simp [h.1, h.2.1, h.2.2.1]

theorem foldl_cleanStep_good :
    ∀ (L : List (List Char)) (acc : List (List Char)),
      (∀ s ∈ L, s ≠ [] ∧ s ≠ ['.'] ∧ s ≠ ['.', '.'] ∧ '/' ∉ s) →
      L.foldl (cleanStep false) acc = L.reverse ++ acc := by
  intro L
  induction L with
  | nil => intro acc _; rfl
  | cons s rest ih =>
    intro acc hall
    rw [List.foldl_cons, cleanStep_good acc s (hall s (by simp)),
      ih _ (fun x hx => hall x (List.mem_cons_of_mem _ hx))]
    simp

theorem joinSlash_head (L : List (List Char)) (hne : L ≠ [])
    (hall : ∀ s ∈ L, s ≠ [] ∧ s ≠ ['.'] ∧ s ≠ ['.', '.'] ∧ '/' ∉ s) :
    ∃ c t, joinSlash L = c :: t ∧ c ≠ '/' := by
  cases L with
  | nil => exact absurd rfl hne
  | cons s rest =>
    have hs := hall s (by simp)
    cases s with
    | nil => exact absurd rfl hs.1
    | cons c t =>
      have hc : c ≠ '/' := fun e => hs.2.2.2 (by simp [e])
      cases rest with
      | nil => exact ⟨c, t, rfl, hc⟩
      | cons s2 rest2 => exact ⟨c, _, rfl, hc⟩

theorem cleanChars_of_elems (p : List Char) (L : List (List Char)) (c : Char) (t : List Char)
    (hp : p = c :: t) (hc : c ≠ '/')
    (hfold : (JianguoDriver.splitSlash p).foldl (cleanStep false) [] = L.reverse)
    (hne : joinSlash L ≠ []) :
    cleanChars p = joinSlash L := by
  subst hp
  unfold cleanChars
  simp only [hc, decide_False, Bool.false_eq_true, if_false]
  rw [hfold, List.reverse_reverse]
  simp [hne]

theorem cleanChars_joinSlash (L : List (List Char)) (hne : L ≠ [])
    (hall : ∀ s ∈ L, s ≠ [] ∧ s ≠ ['.'] ∧ s ≠ ['.', '.'] ∧ '/' ∉ s) :
    cleanChars (joinSlash L) = joinSlash L := by
  obtain ⟨c, t, hct, hc⟩ := joinSlash_head L hne hall
  apply cleanChars_of_elems _ L c t hct hc
  · rw [splitSlash_joinSlash L hne (fun s hs => (hall s hs).2.2.2),
      foldl_cleanStep_good L [] hall]
    simp
  · rw [hct]
    simp

theorem cleanChars_joinSlash_slash (L : List (List Char)) (hne : L ≠ [])
    (hall : ∀ s ∈ L, s ≠ [] ∧ s ≠ ['.'] ∧ s ≠ ['.', '.'] ∧ '/' ∉ s) :
    cleanChars (joinSlash L ++ ['/']) = joinSlash L := by
  obtain ⟨c, t, hct, hc⟩ := joinSlash_head L hne hall
  apply cleanChars_of_elems _ L c (t ++ ['/']) (by rw [hct]; rfl) hc
  · rw [splitSlash_joinSlash_slash L hne (fun s hs => (hall s hs).2.2.2),
      List.foldl_append, foldl_cleanStep_good L [] hall]
    simp [cleanStep]
  · rw [hct]
    simp

theorem upToLastSlash_no_slash (s : List Char) (hs : '/' ∉ s) : upToLastSlash s = [] := by
  induction s with
  | nil => rfl
  | cons c cs ih =>
    have hc : c ≠ '/' := fun e => hs (by simp [e])
    have hcs : '/' ∉ cs := fun e => hs (by simp [e])
    rw [upToLastSlash, ih hcs]
    simp [hc]

theorem upToLastSlash_append_slash (s rest : List Char) :
    upToLastSlash (s ++ '/' :: rest) = s ++ '/' :: upToLastSlash rest := by
  induction s with
  | nil =>
    rw [List.nil_append, upToLastSlash]
    by_cases h : upToLastSlash rest = []
    · simp [h]
    · simp [h]
  | cons c cs ih =>
    rw [List.cons_append, upToLastSlash, ih]
    simp

theorem upToLastSlash_joinSlash :
    ∀ (L : List (List Char)) (f : List Char), L ≠ [] → '/' ∉ f →
      upToLastSlash (joinSlash (L ++ [f])) = joinSlash L ++ ['/'] := by
  intro L
  induction L with
  | nil => intro f h; exact absurd rfl h
  | cons s rest ih =>
    intro f _ hf
    cases rest with
    | nil =>
      rw [List.singleton_append, joinSlash_cons_cons, upToLastSlash_append_slash,
        joinSlash_singleton, upToLastSlash_no_slash f hf, joinSlash_singleton]
    | cons s2 rest2 =>
      rw [List.cons_append, List.cons_append, joinSlash_cons_cons, upToLastSlash_append_slash,
        ← List.cons_append, ih f (by simp) hf, joinSlash_cons_cons]
      simp

theorem goodChars_of_map (segs : List String) (hall : ∀ s ∈ segs, GoodSegment s) :
    ∀ x ∈ segs.map String.data, x ≠ [] ∧ x ≠ ['.'] ∧ x ≠ ['.', '.'] ∧ '/' ∉ x := by
  intro x hx
  obtain ⟨s, hs, rfl⟩ := List.mem_map.1 hx
  exact hall s hs

theorem string_ne_of_data_ne (a b : String) (h : a.data ≠ b.data) : a ≠ b :=
  fun e => h (congrArg String.data e)

theorem filepathJoin_dirPath (done : List String) (s : String)
    (hdone : ∀ x ∈ done, GoodSegment x) (hs : GoodSegment s) :
    filepathJoin (dirPath done) s = dirPath (done ++ [s]) := by
  have hall : ∀ x ∈ done ++ [s], GoodSegment x := by
    intro x hx
    rcases List.mem_append.1 hx with h | h
    · exact hdone x h
    · rw [List.mem_singleton.1 h]; exact hs
  have hclean := cleanChars_joinSlash ((done ++ [s]).map String.data) (by simp)
    (goodChars_of_map _ hall)
  unfold filepathJoin
  cases done with
  | nil =>
    have h1 : ¬ (dirPath [] ≠ "") := by simp [dirPath, joinSlash]
    have h2 : s ≠ "" := string_ne_of_data_ne _ _ hs.1
    rw [if_neg h1, if_pos h2]
    have hc2 : cleanChars s.data = s.data := by simpa [joinSlash] using hclean
    unfold filepathClean dirPath
    simp [joinSlash, hc2]
  | cons d0 rest =>
    obtain ⟨c, t, hct, _⟩ := joinSlash_head ((d0 :: rest).map String.data) (by simp)
      (goodChars_of_map _ hdone)
    have h1 : dirPath (d0 :: rest) ≠ "" := by
      apply string_ne_of_data_ne
      show joinSlash ((d0 :: rest).map String.data) ≠ []
      rw [hct]
      simp
    rw [if_pos h1]
    have hjoin : ∀ (L : List (List Char)) (x : List Char), L ≠ [] →
        joinSlash (L ++ [x]) = joinSlash L ++ '/' :: x := by
      intro L
      induction L with
      | nil => intro x h; exact absurd rfl h
      | cons a r ih =>
        intro x _
        cases r with
        | nil => rfl
        | cons a2 r2 =>
          rw [List.cons_append, List.cons_append, joinSlash_cons_cons, ← List.cons_append,
            ih x (by simp), joinSlash_cons_cons]
          simp
    have hj := hjoin ((d0 :: rest).map String.data) s.data (by simp)
    unfold filepathClean dirPath
    simp only [List.map_append, List.map_cons, List.map_nil] at hclean hj ⊢
    rw [← hj, hclean]

theorem filepathDir_relPath (segs : List String) (file : String)
    (hsegs : ∀ x ∈ segs, GoodSegment x) (hfile : GoodSegment file) :
    filepathDir (relPath segs file) = if segs = [] then "." else dirPath segs := by
  unfold filepathDir relPath
  cases segs with
  | nil =>
    have h : upToLastSlash (dirPath ([] ++ [file])).data = [] :=
      upToLastSlash_no_slash _ hfile.2.2.2
    rw [h]
    rfl
  | cons d0 rest =>
    have h := upToLastSlash_joinSlash ((d0 :: rest).map String.data) file.data (by simp)
      hfile.2.2.2
    have hc := cleanChars_joinSlash_slash ((d0 :: rest).map String.data) (by simp)
      (goodChars_of_map _ hsegs)
    simp only [dirPath, List.map_append, List.map_cons, List.map_nil] at h hc ⊢
    rw [h, hc]
    simp

theorem stringsSplit_dirPath (segs : List String) (hne : segs ≠ [])
    (hsegs : ∀ x ∈ segs, GoodSegment x) :
    JianguoDriver.stringsSplit (dirPath segs) = segs := by
  unfold JianguoDriver.stringsSplit dirPath
  rw [splitSlash_joinSlash _ (by simpa using hne)
    (fun s hs => (goodChars_of_map segs hsegs s hs).2.2.2)]
  simp [List.map_map, Function.comp_def]

theorem dirPath_not_special (segs : List String) (hne : segs ≠ [])
    (hsegs : ∀ x ∈ segs, GoodSegment x) :
    ¬ (dirPath segs = "." ∨ dirPath segs = "/" ∨ dirPath segs = "") := by
  obtain ⟨c, t, hct, hc⟩ := joinSlash_head (segs.map String.data) (by simpa using hne)
    (goodChars_of_map _ hsegs)
  have hsplit := splitSlash_joinSlash (segs.map String.data) (by simpa using hne)
    (fun s hs => (goodChars_of_map segs hsegs s hs).2.2.2)
  rintro (h | h | h)
  · have hd : joinSlash (segs.map String.data) = ['.'] := congrArg String.data h
    rw [hd] at hsplit
    have hmem : (['.'] : List Char) ∈ segs.map String.data := by
      rw [← hsplit]
      simp [JianguoDriver.splitSlash]
    exact (goodChars_of_map segs hsegs _ hmem).2.1 rfl
  · have hd : joinSlash (segs.map String.data) = ['/'] := congrArg String.data h
    rw [hct] at hd
    exact hc (List.cons.inj hd).1
  · have hd : joinSlash (segs.map String.data) = [] := congrArg String.data h
    rw [hct] at hd
    exact absurd hd (by simp)

theorem goodSegment_ne_empty (s : String) (h : GoodSegment s) : s ≠ "" :=
  string_ne_of_data_ne _ _ h.1

/-- One turn of the loop of `createDirectories` whose request is built and
answered: the request is logged, and the loop goes on or stops with an error
according to the status. -/
theorem mkcolLoop_cons (base : Env σ) (d : JianguoDriver σ) (s : String) (rest done : List String)
    (w : World σ) (resp : Response)
    (hdone : ∀ x ∈ done, GoodSegment x) (hs : GoodSegment s)
    (hreq : MkcolBuilt base d (dirPath (done ++ [s])))
    (hresp : (base.roundTrip (mkcolRequest d (dirPath (done ++ [s]))) w.state).1
      = Except.ok resp) :
    JianguoDriver.mkcolLoop base.withPaths d (s :: rest) (dirPath done) w =
      if JianguoDriver.uploadOk resp.StatusCode = true then
        JianguoDriver.mkcolLoop base.withPaths d rest (dirPath (done ++ [s]))
          { state := (base.roundTrip (mkcolRequest d (dirPath (done ++ [s]))) w.state).2,
            requests := w.requests ++ [mkcolRequest d (dirPath (done ++ [s]))] }
      else
        (some ("failed to upload file: " ++ resp.Status),
          { state := (base.roundTrip (mkcolRequest d (dirPath (done ++ [s]))) w.state).2,
            requests := w.requests ++ [mkcolRequest d (dirPath (done ++ [s]))] }) := by
  have hjoin : base.withPaths.filepathJoin (dirPath done) s = dirPath (done ++ [s]) :=
    filepathJoin_dirPath done s hdone hs
  have hnew : base.withPaths.newRequest "MKCOL" (d.entry ++ dirPath (done ++ [s])) = none := hreq
  have hsend : send base.withPaths (d.request "MKCOL" (d.entry ++ dirPath (done ++ [s])) none none) w
      = (Except.ok resp,
          { state := (base.roundTrip (mkcolRequest d (dirPath (done ++ [s]))) w.state).2,
            requests := w.requests ++ [mkcolRequest d (dirPath (done ++ [s]))] }) := by
    unfold send
    simp only [mkcolRequest] at hresp ⊢
    show ((base.roundTrip _ w.state).1, _) = _
    rw [hresp]
    rfl
  rw [JianguoDriver.mkcolLoop]
  simp only [goodSegment_ne_empty s hs, if_false, hjoin, hnew, hsend]
  by_cases hok : JianguoDriver.uploadOk resp.StatusCode = true
  · simp [hok]
  · simp [hok]

/-- One turn of the loop of `createDirectories` whose request cannot be built:
the error of `http.NewRequest` is returned and nothing is sent. -/
theorem mkcolLoop_unbuilt_cons (base : Env σ) (d : JianguoDriver σ) (s : String)
    (rest done : List String) (w : World σ) (e : String)
    (hdone : ∀ x ∈ done, GoodSegment x) (hs : GoodSegment s)
    (hreq : base.newRequest "MKCOL" (d.entry ++ dirPath (done ++ [s])) = some e) :
    JianguoDriver.mkcolLoop base.withPaths d (s :: rest) (dirPath done) w = (some e, w) := by
  have hjoin : base.withPaths.filepathJoin (dirPath done) s = dirPath (done ++ [s]) :=
    filepathJoin_dirPath done s hdone hs
  have hnew : base.withPaths.newRequest "MKCOL" (d.entry ++ dirPath (done ++ [s])) = some e :=
    hreq
  rw [JianguoDriver.mkcolLoop]
  simp only [goodSegment_ne_empty s hs, if_false, hjoin, hnew]

theorem range_map_shift (d : JianguoDriver σ) (done rest : List String) (s : String)
    (n : Nat) :
    (List.range (n + 1)).map (fun k => mkcolRequest d (dirPath (done ++ (s :: rest).take (k + 1))))
      = mkcolRequest d (dirPath (done ++ [s])) ::
          (List.range n).map
            (fun k => mkcolRequest d (dirPath ((done ++ [s]) ++ rest.take (k + 1)))) := by
  rw [List.range_succ_eq_map, List.map_cons, List.map_map]
  simp [Function.comp_def]

theorem goodSegments_snoc (done : List String) (s : String)
    (hdone : ∀ x ∈ done, GoodSegment x) (hs : GoodSegment s) :
    ∀ x ∈ done ++ [s], GoodSegment x := by
  intro x hx
  rcases List.mem_append.1 hx with h | h
  · exact hdone x h
  · rw [List.mem_singleton.1 h]; exact hs

theorem mkcolLoop_all_answered (base : Env σ) (d : JianguoDriver σ) :
    ∀ (rem done : List String) (w : World σ),
      (∀ x ∈ done, GoodSegment x) → (∀ x ∈ rem, GoodSegment x) →
      (∀ k, k < rem.length →
        MkcolBuilt base d (dirPath (done ++ rem.take (k + 1)))
        ∧ AnsweredWith base (mkcolRequest d (dirPath (done ++ rem.take (k + 1)))) true) →
      (JianguoDriver.mkcolLoop base.withPaths d rem (dirPath done) w).1 = none
      ∧ (JianguoDriver.mkcolLoop base.withPaths d rem (dirPath done) w).2.requests
          = w.requests ++ (List.range rem.length).map
              (fun k => mkcolRequest d (dirPath (done ++ rem.take (k + 1)))) := by
  intro rem
  induction rem with
  | nil =>
    intro done w _ _ _
    simp [JianguoDriver.mkcolLoop]
  | cons s rest ih =>
    intro done w hdone hrem hans
    have hs : GoodSegment s := hrem s (by simp)
    have h0 := hans 0 (by simp)
    simp only [Nat.zero_add, List.take_succ_cons, List.take_zero] at h0
    obtain ⟨resp, hresp, hok⟩ := h0.2 w.state
    rw [mkcolLoop_cons base d s rest done w resp hdone hs h0.1 hresp, if_pos hok]
    have h := ih (done ++ [s])
      { state := (base.roundTrip (mkcolRequest d (dirPath (done ++ [s]))) w.state).2,
        requests := w.requests ++ [mkcolRequest d (dirPath (done ++ [s]))] }
      (goodSegments_snoc done s hdone hs) (fun x hx => hrem x (List.mem_cons_of_mem _ hx))
      (fun k hk => by
        have := hans (k + 1) (by simpa using hk)
        simpa using this)
    refine ⟨h.1, ?_⟩
    rw [h.2, List.length_cons, range_map_shift]
    simp

theorem mkcolLoop_refused (base : Env σ) (d : JianguoDriver σ) :
    ∀ (rem done : List String) (w : World σ) (k : Nat), k < rem.length →
      (∀ x ∈ done, GoodSegment x) → (∀ x ∈ rem, GoodSegment x) →
      (∀ j, j ≤ k → MkcolBuilt base d (dirPath (done ++ rem.take (j + 1)))) →
      (∀ j, j < k →
        AnsweredWith base (mkcolRequest d (dirPath (done ++ rem.take (j + 1)))) true) →
      AnsweredWith base (mkcolRequest d (dirPath (done ++ rem.take (k + 1)))) false →
      (JianguoDriver.mkcolLoop base.withPaths d rem (dirPath done) w).1 ≠ none
      ∧ (JianguoDriver.mkcolLoop base.withPaths d rem (dirPath done) w).2.requests
          = w.requests ++ (List.range (k + 1)).map
              (fun j => mkcolRequest d (dirPath (done ++ rem.take (j + 1)))) := by
  intro rem
  induction rem with
  | nil => intro done w k hk; simp at hk
  | cons s rest ih =>
    intro done w k hk hdone hrem hreq hgood hbad
    have hs : GoodSegment s := hrem s (by simp)
    have hreq0 := hreq 0 (by omega)
    simp only [Nat.zero_add, List.take_succ_cons, List.take_zero] at hreq0
    cases k with
    | zero =>
      obtain ⟨resp, hresp, hok⟩ := hbad w.state
      simp only [Nat.zero_add, List.take_succ_cons, List.take_zero] at hresp
      have hnot : ¬ JianguoDriver.uploadOk resp.StatusCode = true := by simp [hok]
      rw [mkcolLoop_cons base d s rest done w resp hdone hs hreq0 hresp, if_neg hnot]
      refine ⟨by simp, ?_⟩
      show w.requests ++ [mkcolRequest d (dirPath (done ++ [s]))] = _
      rfl
    | succ k =>
      obtain ⟨resp, hresp, hok⟩ := hgood 0 (by omega) w.state
      simp only [Nat.zero_add, List.take_succ_cons, List.take_zero] at hresp
      rw [mkcolLoop_cons base d s rest done w resp hdone hs hreq0 hresp, if_pos hok]
      have h := ih (done ++ [s])
        { state := (base.roundTrip (mkcolRequest d (dirPath (done ++ [s]))) w.state).2,
          requests := w.requests ++ [mkcolRequest d (dirPath (done ++ [s]))] }
        k (by simpa using hk) (goodSegments_snoc done s hdone hs)
        (fun x hx => hrem x (List.mem_cons_of_mem _ hx))
        (fun j hj => by
          have := hreq (j + 1) (by omega)
          simpa using this)
        (fun j hj => by
          have := hgood (j + 1) (by omega)
          simpa using this)
        (by simpa using hbad)
      refine ⟨h.1, ?_⟩
      rw [h.2, range_map_shift]
      simp

theorem mkcolLoop_unbuilt (base : Env σ) (d : JianguoDriver σ) (e : String) :
    ∀ (rem done : List String) (w : World σ) (k : Nat), k < rem.length →
      (∀ x ∈ done, GoodSegment x) → (∀ x ∈ rem, GoodSegment x) →
      (∀ j, j < k →
        MkcolBuilt base d (dirPath (done ++ rem.take (j + 1)))
        ∧ AnsweredWith base (mkcolRequest d (dirPath (done ++ rem.take (j + 1)))) true) →
      base.newRequest "MKCOL" (d.entry ++ dirPath (done ++ rem.take (k + 1))) = some e →
      (JianguoDriver.mkcolLoop base.withPaths d rem (dirPath done) w).1 = some e
      ∧ (JianguoDriver.mkcolLoop base.withPaths d rem (dirPath done) w).2.requests
          = w.requests ++ (List.range k).map
              (fun j => mkcolRequest d (dirPath (done ++ rem.take (j + 1)))) := by
  intro rem
  induction rem with
  | nil => intro done w k hk; simp at hk
  | cons s rest ih =>
    intro done w k hk hdone hrem hgood hbad
    have hs : GoodSegment s := hrem s (by simp)
    cases k with
    | zero =>
      simp only [Nat.zero_add, List.take_succ_cons, List.take_zero] at hbad
      rw [mkcolLoop_unbuilt_cons base d s rest done w e hdone hs hbad]
      simp
    | succ k =>
      have h0 := hgood 0 (by omega)
      simp only [Nat.zero_add, List.take_succ_cons, List.take_zero] at h0
      obtain ⟨resp, hresp, hok⟩ := h0.2 w.state
      rw [mkcolLoop_cons base d s rest done w resp hdone hs h0.1 hresp, if_pos hok]
      have h := ih (done ++ [s])
        { state := (base.roundTrip (mkcolRequest d (dirPath (done ++ [s]))) w.state).2,
          requests := w.requests ++ [mkcolRequest d (dirPath (done ++ [s]))] }
        k (by simpa using hk) (goodSegments_snoc done s hdone hs)
        (fun x hx => hrem x (List.mem_cons_of_mem _ hx))
        (fun j hj => by
          have := hgood (j + 1) (by omega)
          simpa using this)
        (by simpa using hbad)
      refine ⟨h.1, ?_⟩
      rw [h.2, range_map_shift]
      simp

theorem createDirectories_relPath (base : Env σ) (d : JianguoDriver σ) (segs : List String)
    (file : String) (w : World σ) (hauth : d.IsAuth = true)
    (hsegs : ∀ x ∈ segs, GoodSegment x) (hfile : GoodSegment file) :
    d.createDirectories base.withPaths (relPath segs file) w
      = JianguoDriver.mkcolLoop base.withPaths d segs (dirPath []) w := by
  have hdir : base.withPaths.filepathDir (relPath segs file)
      = if segs = [] then "." else dirPath segs := filepathDir_relPath segs file hsegs hfile
  unfold JianguoDriver.createDirectories
  simp only [hauth, not_true_eq_false, if_false, hdir]
  cases segs with
  | nil => simp [JianguoDriver.mkcolLoop]
  | cons s rest =>
    have hne : (s :: rest) ≠ [] := by simp
    simp only [hne, if_false]
    rw [if_neg (dirPath_not_special _ hne hsegs), stringsSplit_dirPath _ hne hsegs]
    rfl

theorem UpdateData_after_directories (env : Env σ) (d : JianguoDriver σ) (data : Bytes)
    (url : String) (w w1 : World σ) (resp : Response)
    (hdirs : d.createDirectories env url w = (none, w1))
    (hreq : PutBuilt env d url)
    (hresp : (env.roundTrip (putRequest env d data url) w1.state).1 = Except.ok resp)
    (hok : JianguoDriver.uploadOk resp.StatusCode = true) :
    (d.UpdateData env data url w).1 = none
    ∧ (d.UpdateData env data url w).2.requests
        = w1.requests ++ [putRequest env d data url] := by
  have hnew : env.newRequest "PUT" (d.DecodeUrl env (d.entry ++ url)) = none := hreq
  unfold JianguoDriver.UpdateData
  rw [hdirs]
  simp only [hnew]
  have hsend : send env (d.request "PUT" (d.DecodeUrl env (d.entry ++ url)) none (some data)) w1
      = (Except.ok resp,
          { state := (env.roundTrip (putRequest env d data url) w1.state).2,
            requests := w1.requests ++ [putRequest env d data url] }) := by
    unfold send
    simp only [putRequest] at hresp ⊢
    show ((env.roundTrip _ w1.state).1, _) = _
    rw [hresp]
  simp only [hsend, hok, not_true_eq_false, if_false]
  simp

theorem UpdateData_of_directories_error (env : Env σ) (d : JianguoDriver σ) (data : Bytes)
    (url : String) (w w1 : World σ) (e : String)
    (hdirs : d.createDirectories env url w = (some e, w1)) :
    d.UpdateData env data url w = (some e, w1) := by
  unfold JianguoDriver.UpdateData
  rw [hdirs]

theorem ancestors_take (segs : List String) (k : Nat) (hk : k < segs.length) :
    (ancestors segs).take (k + 1)
      = (List.range (k + 1)).map (fun j => dirPath (segs.take (j + 1))) := by
  unfold ancestors
  rw [← List.map_take, List.take_range]
  congr 2
  omega

theorem ancestors_take_le (segs : List String) (k : Nat) (hk : k ≤ segs.length) :
    (ancestors segs).take k
      = (List.range k).map (fun j => dirPath (segs.take (j + 1))) := by
  unfold ancestors
  rw [← List.map_take, List.take_range]
  congr 2
  omega

end UpdateDataProofs

section UpdateDataClaims

variable {σ : Type}

theorem answered_created (refused : List String) (req : Request)
    (h : ¬ (req.method = "MKCOL" ∧ req.url ∈ refused)) :
    AnsweredWith (serverEnv refused) req true := by
  intro st
  refine ⟨created, ?_, rfl⟩
  simp only [serverEnv, if_neg h]

theorem answered_forbidden (refused : List String) (req : Request)
    (h : req.method = "MKCOL" ∧ req.url ∈ refused) :
    AnsweredWith (serverEnv refused) req false := by
  intro st
  refine ⟨forbidden, ?_, rfl⟩
  simp only [serverEnv, if_pos h]

/-- The requests for `a`, `a/b` and `a/b/c` are built by `http.NewRequest`. -/
theorem mkcolBuilt_abc (refused : List String) (k : Nat) (hk : k < 3) :
    MkcolBuilt (serverEnv refused) authedDriver (dirPath (["a", "b", "c"].take (k + 1))) := by
  interval_cases k <;> rfl

/-- C11, counterexample. The driver is authenticated, `100%` is a path segment
that is not empty, not `.`, not `..` and holds no `/`, and the server answers
every request with 201: for the path `100%/file.txt`, `http.NewRequest` refuses
the URL of the `MKCOL` (its `%` starts no escape), so `UpdateData` returns an
error and sends nothing, neither `MKCOL entry+100%` nor the `PUT`. -/
theorem UpdateData_unbuilt_request_sends_nothing :
    authedDriver.IsAuth = true
    ∧ GoodSegment "100%" ∧ GoodSegment "file.txt"
    ∧ relPath ["100%"] "file.txt" = "100%/file.txt"
    ∧ (∀ req, AnsweredWith (serverEnv []) req true)
    ∧ (authedDriver.UpdateData (serverEnv []).withPaths (bytesOf "data") "100%/file.txt"
        freshWorld).1 = some "invalid URL escape"
    ∧ (authedDriver.UpdateData (serverEnv []).withPaths (bytesOf "data") "100%/file.txt"
        freshWorld).2.requests = []
    ∧ (authedDriver.UpdateData (serverEnv []).withPaths (bytesOf "data") "100%/file.txt"
        freshWorld).2.requests
      ≠ [mkcolRequest authedDriver "100%",
         putRequest (serverEnv []).withPaths authedDriver (bytesOf "data") "100%/file.txt"] := by
  have hreq : (authedDriver.UpdateData (serverEnv []).withPaths (bytesOf "data") "100%/file.txt"
      freshWorld).2.requests = [] := by rfl
  refine ⟨by rfl, by decide, by decide, by rfl,
    fun req => answered_created [] req (by simp), by rfl, hreq, ?_⟩
  rw [hreq]
  exact List.noConfusion

/-- C11, amended. For an authenticated driver and the relative path
`s1/.../sn/file` made of segments that are not empty, not `.`, not `..` and hold
no `/`: when `http.NewRequest` builds each request of the run (the `MKCOL` for
each of `s1`, `s1/s2`, ..., `s1/.../sn` and the `PUT`) and each of them is
answered with status 200, 201 or 204, `UpdateData` returns no error and sends
exactly `MKCOL entry+s1`, `MKCOL entry+s1/s2`, ..., `MKCOL entry+s1/.../sn`, in
that order, followed by one `PUT`; when the `MKCOL` for `s1/.../s(k+1)` is built
and answered with another status, the earlier ones having been built and having
succeeded, `UpdateData` returns an error and has sent only those `k+1` `MKCOL`
requests: no later `MKCOL` and no `PUT`; and when `http.NewRequest` refuses the
URL of the `MKCOL` for `s1/.../s(k+1)`, the earlier ones having been built and
having succeeded, `UpdateData` returns that error and has sent only the `k`
earlier `MKCOL` requests. -/
theorem UpdateData_creates_ancestors (base : Env σ) (d : JianguoDriver σ) (data : Bytes)
    (segs : List String) (file : String) (w : World σ)
    (hauth : d.IsAuth = true) (hsegs : ∀ s ∈ segs, GoodSegment s) (hfile : GoodSegment file) :
    ((∀ k, k < segs.length →
        MkcolBuilt base d (dirPath (segs.take (k + 1)))
        ∧ AnsweredWith base (mkcolRequest d (dirPath (segs.take (k + 1)))) true) →
      PutBuilt base.withPaths d (relPath segs file) →
      AnsweredWith base (putRequest base.withPaths d data (relPath segs file)) true →
      (d.UpdateData base.withPaths data (relPath segs file) w).1 = none
      ∧ (d.UpdateData base.withPaths data (relPath segs file) w).2.requests
          = w.requests ++ (ancestors segs).map (mkcolRequest d)
              ++ [putRequest base.withPaths d data (relPath segs file)])
    ∧ (∀ k, k < segs.length →
        (∀ j, j ≤ k → MkcolBuilt base d (dirPath (segs.take (j + 1)))) →
        (∀ j, j < k → AnsweredWith base (mkcolRequest d (dirPath (segs.take (j + 1)))) true) →
        AnsweredWith base (mkcolRequest d (dirPath (segs.take (k + 1)))) false →
        (d.UpdateData base.withPaths data (relPath segs file) w).1 ≠ none
        ∧ (d.UpdateData base.withPaths data (relPath segs file) w).2.requests
            = w.requests ++ ((ancestors segs).take (k + 1)).map (mkcolRequest d))
    ∧ (∀ k e, k < segs.length →
        (∀ j, j < k →
          MkcolBuilt base d (dirPath (segs.take (j + 1)))
          ∧ AnsweredWith base (mkcolRequest d (dirPath (segs.take (j + 1)))) true) →
        base.newRequest "MKCOL" (d.entry ++ dirPath (segs.take (k + 1))) = some e →
        (d.UpdateData base.withPaths data (relPath segs file) w).1 = some e
        ∧ (d.UpdateData base.withPaths data (relPath segs file) w).2.requests
            = w.requests ++ ((ancestors segs).take k).map (mkcolRequest d)) := by
  have hcreate := createDirectories_relPath base d segs file w hauth hsegs hfile
  refine ⟨?_, ?_, ?_⟩
  · intro hans hput hputOk
    have hloop := mkcolLoop_all_answered base d segs [] w (by simp) hsegs
      (by simpa using hans)
    have hdirs : d.createDirectories base.withPaths (relPath segs file) w
        = (none, (JianguoDriver.mkcolLoop base.withPaths d segs (dirPath []) w).2) := by
      rw [hcreate]
      exact Prod.ext hloop.1 rfl
    obtain ⟨resp, hresp, hok⟩ := hputOk
      (JianguoDriver.mkcolLoop base.withPaths d segs (dirPath []) w).2.state
    have h := UpdateData_after_directories base.withPaths d data (relPath segs file) w _ resp
      hdirs hput hresp hok
    refine ⟨h.1, ?_⟩
    rw [h.2, hloop.2]
    simp [ancestors, List.map_map, Function.comp_def]
  · intro k hk hreq hgood hbad
    have hloop := mkcolLoop_refused base d segs [] w k hk (by simp) hsegs
      (by simpa using hreq) (by simpa using hgood) (by simpa using hbad)
    unfold JianguoDriver.UpdateData
    rw [hcreate]
    cases hres : JianguoDriver.mkcolLoop base.withPaths d segs (dirPath []) w with
    | mk err w1 =>
      rw [hres] at hloop
      cases err with
      | none => exact absurd rfl hloop.1
      | some e =>
        refine ⟨by simp, ?_⟩
        show w1.requests = _
        rw [hloop.2, ancestors_take segs k hk]
        simp [List.map_map, Function.comp_def]
  · intro k e hk hgood hbad
    have hloop := mkcolLoop_unbuilt base d e segs [] w k hk (by simp) hsegs
      (by simpa using hgood) (by simpa using hbad)
    have hdirs : d.createDirectories base.withPaths (relPath segs file) w
        = (some e, (JianguoDriver.mkcolLoop base.withPaths d segs (dirPath []) w).2) := by
      rw [hcreate]
      exact Prod.ext hloop.1 rfl
    rw [UpdateData_of_directories_error base.withPaths d data _ w _ e hdirs]
    refine ⟨rfl, ?_⟩
    show (JianguoDriver.mkcolLoop base.withPaths d segs (dirPath []) w).2.requests = _
    rw [hloop.2, ancestors_take_le segs k (by omega)]
    simp [List.map_map, Function.comp_def]

/-- Witness for C11: for `a/b/c/file.txt` on a server answering 201, the requests
are `MKCOL a`, `MKCOL a/b`, `MKCOL a/b/c`, then the `PUT`; when `MKCOL a/b` is
answered 403 only `MKCOL a` and `MKCOL a/b` are sent and an error is returned;
and for `a/100%/file.txt`, whose second `MKCOL` cannot be built, only `MKCOL a`
is sent. -/
theorem UpdateData_creates_ancestors_witness :
    (authedDriver.UpdateData (serverEnv []).withPaths (bytesOf "data") "a/b/c/file.txt"
        freshWorld).2.requests
      = [mkcolRequest authedDriver "a", mkcolRequest authedDriver "a/b",
         mkcolRequest authedDriver "a/b/c",
         putRequest (serverEnv []).withPaths authedDriver (bytesOf "data") "a/b/c/file.txt"]
    ∧ (authedDriver.UpdateData (serverEnv [authedDriver.entry ++ "a/b"]).withPaths
        (bytesOf "data") "a/b/c/file.txt" freshWorld).2.requests
      = [mkcolRequest authedDriver "a", mkcolRequest authedDriver "a/b"]
    ∧ (authedDriver.UpdateData (serverEnv [authedDriver.entry ++ "a/b"]).withPaths
        (bytesOf "data") "a/b/c/file.txt" freshWorld).1 ≠ none
    ∧ (authedDriver.UpdateData (serverEnv []).withPaths (bytesOf "data") "a/100%/file.txt"
        freshWorld).2.requests
      = [mkcolRequest authedDriver "a"] :=
  ⟨((UpdateData_creates_ancestors (serverEnv []) authedDriver (bytesOf "data") ["a", "b", "c"]
      "file.txt" freshWorld (by rfl) (by decide) (by decide)).1
      (fun k hk => ⟨mkcolBuilt_abc [] k hk, answered_created [] _ (by simp)⟩)
      (by rfl) (answered_created [] _ (by simp))).2,
   ((UpdateData_creates_ancestors (serverEnv [authedDriver.entry ++ "a/b"]) authedDriver
      (bytesOf "data") ["a", "b", "c"] "file.txt" freshWorld (by rfl) (by decide)
      (by decide)).2.1 1 (by decide)
      (fun j hj => mkcolBuilt_abc _ j (by omega))
      (fun j hj => by
        have hj0 : j = 0 := by omega
        subst hj0
        exact answered_created _ _ (by decide))
      (answered_forbidden _ _ (by decide))).2,
   ((UpdateData_creates_ancestors (serverEnv [authedDriver.entry ++ "a/b"]) authedDriver
      (bytesOf "data") ["a", "b", "c"] "file.txt" freshWorld (by rfl) (by decide)
      (by decide)).2.1 1 (by decide)
      (fun j hj => mkcolBuilt_abc _ j (by omega))
      (fun j hj => by
        have hj0 : j = 0 := by omega
        subst hj0
        exact answered_created _ _ (by decide))
      (answered_forbidden _ _ (by decide))).1,
   ((UpdateData_creates_ancestors (serverEnv []) authedDriver (bytesOf "data") ["a", "100%"]
      "file.txt" freshWorld (by rfl) (by decide) (by decide)).2.2 1 "invalid URL escape"
      (by decide)
      (fun j hj => by
        have hj0 : j = 0 := by omega
        subst hj0
        exact ⟨by rfl, answered_created [] _ (by simp)⟩)
      (by rfl)).2⟩

end UpdateDataClaims

end Webdav
